import Mathlib

/-!
Verification development for the ferricc C compiler (Rust sources under
src/): a shallow embedding of its abstract syntax tree, lexer, textual
include preprocessor, recursive-descent parser, type checker and x86-64
code generator, together with theorems settling the frozen claims about
the natural-language specification.

Machine integers are modelled as `Nat`/`Int` with explicit reductions
modulo `2 ^ 64` where the hardware wraps.  Fallible code returns
`Except`; a Rust `panic!` is modelled as an `Except.error` whose message
starts with "panic".
-/

namespace Ferricc

/-! ## AST (src/ast.rs) -/

/-- Source location (`ast.rs::Location`). -/
structure Location where
  file : String
  line : Nat
  column : Nat
  deriving Repr, DecidableEq

/-- Binary operators (`ast.rs::BinaryOp`). -/
inductive BinaryOp where
  | add | subtract | multiply | divide | modulo
  | equal | notEqual | less | lessEqual | greater | greaterEqual
  | logicalAnd | logicalOr
  | bitwiseAnd | bitwiseOr | bitwiseXor | shiftLeft | shiftRight
  | assign
  deriving Repr, DecidableEq

/-- Unary operators (`ast.rs::UnaryOp`). -/
inductive UnaryOp where
  | negate | logicalNot | bitwiseNot | dereference | addressOf
  deriving Repr, DecidableEq

/-- C types (`ast.rs::Type`; named `Ty` because `Type` is taken in Lean). -/
inductive Ty where
  | void | char | int | long
  | pointer (inner : Ty)
  | array (inner : Ty) (size : Option Nat)
  | function (ret : Ty) (params : List Ty) (variadic : Bool)
  | struct (name : String) (fields : List (String × Ty))
  deriving Repr

/-- AST nodes (`ast.rs::Node`).  Character literals are carried as their
Unicode scalar value (`Char` payload in Rust). -/
inductive Node where
  | intLiteral (value : Int) (loc : Location)
  | charLiteral (value : Char) (loc : Location)
  | stringLiteral (value : String) (loc : Location)
  | identifier (name : String) (loc : Location)
  | binaryExpr (op : BinaryOp) (left right : Node) (loc : Location)
  | unaryExpr (op : UnaryOp) (expr : Node) (loc : Location)
  | functionCall (name : String) (args : List Node) (loc : Location)
  | expressionStmt (expr : Node)
  | returnStmt (value : Option Node) (loc : Location)
  | ifStmt (condition thenBranch : Node) (elseBranch : Option Node) (loc : Location)
  | whileStmt (condition body : Node) (loc : Location)
  | forStmt (init condition increment : Option Node) (body : Node) (loc : Location)
  | blockStmt (stmts : List Node) (loc : Location)
  | varDecl (name : String) (type_ : Ty) (initializer : Option Node) (loc : Location)
  | functionDecl (name : String) (returnType : Ty) (params : List (String × Ty))
      (body : Option Node) (loc : Location)
  | program (decls : List Node)
  deriving Repr

/-- A dummy location, used when erasing locations for comparison. -/
def dummyLoc : Location := ⟨"", 0, 0⟩

mutual

/-- Replace every location in a tree by `dummyLoc` (structural equality up
to locations). -/
def scrubLoc : Node → Node
  | .intLiteral v _ => .intLiteral v dummyLoc
  | .charLiteral v _ => .charLiteral v dummyLoc
  | .stringLiteral v _ => .stringLiteral v dummyLoc
  | .identifier n _ => .identifier n dummyLoc
  | .binaryExpr op l r _ => .binaryExpr op (scrubLoc l) (scrubLoc r) dummyLoc
  | .unaryExpr op e _ => .unaryExpr op (scrubLoc e) dummyLoc
  | .functionCall n args _ => .functionCall n (scrubLocList args) dummyLoc
  | .expressionStmt e => .expressionStmt (scrubLoc e)
  | .returnStmt v _ => .returnStmt (scrubLocOpt v) dummyLoc
  | .ifStmt c t e _ => .ifStmt (scrubLoc c) (scrubLoc t) (scrubLocOpt e) dummyLoc
  | .whileStmt c b _ => .whileStmt (scrubLoc c) (scrubLoc b) dummyLoc
  | .forStmt i c inc b _ =>
      .forStmt (scrubLocOpt i) (scrubLocOpt c) (scrubLocOpt inc) (scrubLoc b) dummyLoc
  | .blockStmt ss _ => .blockStmt (scrubLocList ss) dummyLoc
  | .varDecl n t i _ => .varDecl n t (scrubLocOpt i) dummyLoc
  | .functionDecl n rt ps b _ => .functionDecl n rt ps (scrubLocOpt b) dummyLoc
  | .program ds => .program (scrubLocList ds)

/-- `scrubLoc` over a list of nodes. -/
def scrubLocList : List Node → List Node
  | [] => []
  | n :: rest => scrubLoc n :: scrubLocList rest

/-- `scrubLoc` over an optional node. -/
def scrubLocOpt : Option Node → Option Node
  | none => none
  | some n => some (scrubLoc n)

end

/-! ## Code generator (src/codegen.rs)

The generator in the source emits one line of text per `writeln!`.  The
embedding emits one `Instr` per `writeln!`, with one constructor per
distinct line format, so an emitted instruction list corresponds 1:1 to
the emitted assembly text. -/

/-- x86-64 general purpose registers appearing in the emitted code. -/
inductive Reg where
  | rax | rcx | rdx | rbx | rsi | rdi | r8 | r9 | r10 | r11 | rbp | rsp
  deriving Repr, DecidableEq

/-- Condition codes used by `set`/conditional jumps in the emitted code. -/
inductive Cond where
  | e | ne | l | le | g | ge
  deriving Repr, DecidableEq

/-- One emitted assembly line (instruction or label definition). -/
inductive Instr where
  | movRegImm (dst : Reg) (v : Int)          -- mov dst, v
  | movRegReg (dst src : Reg)                -- mov dst, src
  | movRegMemRbp (dst : Reg) (off : Nat)     -- mov dst, [rbp-off]
  | movMemRbpReg (off : Nat) (src : Reg)     -- mov [rbp-off], src
  | movRegGlobal (dst : Reg) (name : String) -- mov dst, [name]
  | movGlobalReg (name : String) (src : Reg) -- mov [name], src
  | movMemRegReg (addr src : Reg)            -- mov [addr], src
  | movRegMemReg (dst addr : Reg)            -- mov dst, [addr]
  | leaRbp (dst : Reg) (off : Nat)           -- lea dst, [rbp-off]
  | leaGlobal (dst : Reg) (name : String)    -- lea dst, [name]
  | leaRipLC (dst : Reg) (idx : Nat)         -- lea dst, [rip + .LCidx]
  | push (r : Reg)
  | pop (r : Reg)
  | addRegReg (dst src : Reg)
  | subRegReg (dst src : Reg)
  | imulRegReg (dst src : Reg)
  | andRegReg (dst src : Reg)
  | orRegReg (dst src : Reg)
  | xorRegReg (dst src : Reg)
  | divReg (r : Reg)                         -- div r (unsigned)
  | shlRegCl (r : Reg)                       -- shl r, cl
  | shrRegCl (r : Reg)                       -- shr r, cl
  | negReg (r : Reg)
  | notReg (r : Reg)
  | cmpRegReg (a b : Reg)
  | cmpRegImm (r : Reg) (v : Int)
  | setAl (c : Cond)                         -- setCC al
  | movzxRaxAl                               -- movzx rax, al
  | jmp (label : String)
  | je (label : String)
  | jne (label : String)
  | label (name : String)
  | call (name : String)
  | addRspImm (n : Nat)
  | subRspImm (n : Nat)
  | ret
  deriving Repr, DecidableEq

/-- A variable record in the generator symbol table (`codegen.rs::Variable`). -/
structure Variable where
  offset : Nat
  type_ : Ty
  deriving Repr

/-- Code generator state (`codegen.rs::CodeGenerator`, minus the textual
output buffer: the emitted lines are returned instead). -/
structure CodeGenerator where
  label_count : Nat
  string_literals : List String
  /-- The `variables` symbol table of the source (`variables` is reserved
  in Lean, hence the shorter name). -/
  vars : List (String × Variable)
  current_function : Option String
  stack_offset : Nat
  deriving Repr

/-- An empty generator (`CodeGenerator::new`). -/
def CodeGenerator.new : CodeGenerator :=
  ⟨0, [], [], none, 0⟩

/-- `HashMap::get` over the association-list model of the symbol table:
the most recent insertion for a name wins. -/
def varsGet (vars : List (String × Variable)) (name : String) : Option Variable :=
  match vars with
  | [] => none
  | (k, v) :: rest => if k = name then some v else varsGet rest name

/-- `HashMap::insert` over the association-list model. -/
def varsInsert (vars : List (String × Variable)) (name : String) (v : Variable) :
    List (String × Variable) :=
  (name, v) :: vars

/-- `CodeGenerator::generate_label`: format `.{pfx}{count}` and bump the
counter. -/
def generate_label (cg : CodeGenerator) (pfx : String) : String × CodeGenerator :=
  ("." ++ pfx ++ toString cg.label_count, { cg with label_count := cg.label_count + 1 })

/-- `CodeGenerator::size_of`.  The Rust code panics on an unsized array;
the panic is modelled as `none`. -/
def size_of : Ty → Option Nat
  | .void => some 0
  | .char => some 1
  | .int => some 4
  | .long => some 8
  | .pointer _ => some 8
  | .array base (some size) => (size_of base).map (· * size)
  | .array _ none => none
  | .function _ _ _ => some 8
  | .struct _ members => sizeOfMembers members
where
  /-- Sum of the field sizes of a struct. -/
  sizeOfMembers : List (String × Ty) → Option Nat
  | [] => some 0
  | (_, t) :: rest => do
      let s ← size_of t
      let r ← sizeOfMembers rest
      pure (s + r)

/-- `CodeGenerator::align_to`: `(n + align - 1) & !(align - 1)`.  For the
power-of-two alignments used by the generator (1, 4, 8) the bit trick
rounds up to a multiple of `align`, which is what this computes. -/
def align_to (n align : Nat) : Nat :=
  (n + align - 1) / align * align

/-- Parameter/argument registers of the Microsoft x64 calling convention,
in order (`param_registers` / `arg_registers` in the source). -/
def param_registers : List Reg := [.rcx, .rdx, .r8, .r9]

mutual

/-- `CodeGenerator::generate_node`: emit the instruction list for one AST
node and return it with the updated generator state.  Each emitted
`Instr` corresponds to one `writeln!` of the source. -/
def generate_node (cg : CodeGenerator) : Node → Except String (List Instr × CodeGenerator)
  | .intLiteral value _ => .ok ([.movRegImm .rax value], cg)
  | .charLiteral value _ => .ok ([.movRegImm .rax ((value.toNat % 256 : Nat) : Int)], cg)
  | .stringLiteral value _ =>
      let index := cg.string_literals.length
      .ok ([.leaRipLC .rax index], { cg with string_literals := cg.string_literals ++ [value] })
  | .identifier name _ =>
      match varsGet cg.vars name with
      | some var =>
          match var.type_ with
          | .char | .int | .long => .ok ([.movRegMemRbp .rax var.offset], cg)
          | .pointer _ => .ok ([.movRegMemRbp .rax var.offset], cg)
          | .array _ _ => .ok ([.leaRbp .rax var.offset], cg)
          | _ => .error "Unsupported variable type"
      | none => .ok ([.movRegGlobal .rax name], cg)
  | .binaryExpr op left right _ =>
      match op with
      | .assign =>
          match left with
          | .identifier name _ => do
              let (rhs, cg) ← generate_node cg right
              match varsGet cg.vars name with
              | some var => .ok (rhs ++ [.movMemRbpReg var.offset .rax], cg)
              | none => .ok (rhs ++ [.movGlobalReg name .rax], cg)
          | .unaryExpr .dereference addrExpr _ => do
              let (rhs, cg) ← generate_node cg right
              let (addr, cg) ← generate_node cg addrExpr
              .ok (rhs ++ [.push .rax] ++ addr ++ [.pop .rcx, .movMemRegReg .rax .rcx], cg)
          | _ => .error "Left operand of assignment must be an identifier or dereferenced pointer"
      | _ => do
          let (lhs, cg) ← generate_node cg left
          let (rhs, cg) ← generate_node cg right
          let pre := lhs ++ [.push .rax] ++ rhs ++ [.pop .rcx]
          match op with
          | .add => .ok (pre ++ [.addRegReg .rax .rcx], cg)
          | .subtract => .ok (pre ++ [.subRegReg .rcx .rax, .movRegReg .rax .rcx], cg)
          | .multiply => .ok (pre ++ [.imulRegReg .rax .rcx], cg)
          | .divide =>
              .ok (pre ++ [.movRegImm .rdx 0, .movRegReg .rax .rcx, .divReg .rax], cg)
          | .modulo =>
              .ok (pre ++ [.movRegImm .rdx 0, .movRegReg .rax .rcx, .divReg .rax,
                .movRegReg .rax .rdx], cg)
          | .equal => .ok (pre ++ [.cmpRegReg .rcx .rax, .setAl .e, .movzxRaxAl], cg)
          | .notEqual => .ok (pre ++ [.cmpRegReg .rcx .rax, .setAl .ne, .movzxRaxAl], cg)
          | .less => .ok (pre ++ [.cmpRegReg .rcx .rax, .setAl .l, .movzxRaxAl], cg)
          | .lessEqual => .ok (pre ++ [.cmpRegReg .rcx .rax, .setAl .le, .movzxRaxAl], cg)
          | .greater => .ok (pre ++ [.cmpRegReg .rcx .rax, .setAl .g, .movzxRaxAl], cg)
          | .greaterEqual => .ok (pre ++ [.cmpRegReg .rcx .rax, .setAl .ge, .movzxRaxAl], cg)
          | .logicalAnd =>
              let (endLabel, cg) := generate_label cg "land"
              .ok (pre ++ [.cmpRegImm .rcx 0, .je endLabel,
                .cmpRegImm .rax 0, .setAl .ne, .movzxRaxAl, .label endLabel], cg)
          | .logicalOr =>
              let (endLabel, cg) := generate_label cg "lor"
              .ok (pre ++ [.cmpRegImm .rcx 0, .jne endLabel,
                .cmpRegImm .rax 0, .setAl .ne, .movzxRaxAl, .label endLabel], cg)
          | .bitwiseAnd => .ok (pre ++ [.andRegReg .rax .rcx], cg)
          | .bitwiseOr => .ok (pre ++ [.orRegReg .rax .rcx], cg)
          | .bitwiseXor => .ok (pre ++ [.xorRegReg .rax .rcx], cg)
          | .shiftLeft =>
              .ok (pre ++ [.movRegReg .rcx .rax, .movRegReg .rax .rcx, .shlRegCl .rax], cg)
          | .shiftRight =>
              .ok (pre ++ [.movRegReg .rcx .rax, .movRegReg .rax .rcx, .shrRegCl .rax], cg)
          | .assign => .error "panic: unreachable"
  | .unaryExpr op expr _ =>
      match op with
      | .addressOf =>
          match expr with
          | .identifier name _ =>
              match varsGet cg.vars name with
              | some var => .ok ([.leaRbp .rax var.offset], cg)
              | none => .ok ([.leaGlobal .rax name], cg)
          | _ => .error "Cannot take address of non-lvalue"
      | _ => do
          let (inner, cg) ← generate_node cg expr
          match op with
          | .negate => .ok (inner ++ [.negReg .rax], cg)
          | .logicalNot => .ok (inner ++ [.cmpRegImm .rax 0, .setAl .e, .movzxRaxAl], cg)
          | .bitwiseNot => .ok (inner ++ [.notReg .rax], cg)
          | .dereference => .ok (inner ++ [.movRegMemReg .rax .rax], cg)
          | .addressOf => .error "panic: unreachable"
  | .functionCall name args _ => do
      let saves : List Instr :=
        [.push .rbx, .push .rsi, .push .rdi, .push .rcx, .push .rdx,
         .push .r8, .push .r9, .push .r10, .push .r11]
      let (argCode, cg) ← generate_args cg args 0
      let callSeq := [Instr.call name]
      let cleanup : List Instr :=
        if args.length > param_registers.length then
          [.addRspImm ((args.length - param_registers.length) * 8)]
        else []
      let restores : List Instr :=
        [.pop .r11, .pop .r10, .pop .r9, .pop .r8, .pop .rdx,
         .pop .rcx, .pop .rdi, .pop .rsi, .pop .rbx]
      .ok (saves ++ argCode ++ callSeq ++ cleanup ++ restores, cg)
  | .expressionStmt expr => generate_node cg expr
  | .returnStmt value _ => do
      let (valCode, cg) ←
        match value with
        | some expr => generate_node cg expr
        | none => pure ([], cg)
      match cg.current_function with
      | some funcName => .ok (valCode ++ [.jmp ("." ++ funcName ++ "ret")], cg)
      | none => .error "Return statement outside of function"
  | .ifStmt condition thenBranch elseBranch _ => do
      let (elseLabel, cg) := generate_label cg "else"
      let (endLabel, cg) := generate_label cg "endif"
      let (condCode, cg) ← generate_node cg condition
      let (thenCode, cg) ← generate_node cg thenBranch
      let (elseCode, cg) ←
        match elseBranch with
        | some b => generate_node cg b
        | none => pure ([], cg)
      .ok (condCode ++ [.cmpRegImm .rax 0, .je elseLabel] ++ thenCode ++ [.jmp endLabel]
        ++ [.label elseLabel] ++ elseCode ++ [.label endLabel], cg)
  | .whileStmt condition body _ => do
      let (startLabel, cg) := generate_label cg "while"
      let (endLabel, cg) := generate_label cg "endwhile"
      let (condCode, cg) ← generate_node cg condition
      let (bodyCode, cg) ← generate_node cg body
      .ok ([.label startLabel] ++ condCode ++ [.cmpRegImm .rax 0, .je endLabel]
        ++ bodyCode ++ [.jmp startLabel] ++ [.label endLabel], cg)
  | .forStmt init condition increment body _ => do
      let (startLabel, cg) := generate_label cg "for"
      let (endLabel, cg) := generate_label cg "endfor"
      let (incLabel, cg) := generate_label cg "forinc"
      let (initCode, cg) ←
        match init with
        | some i => generate_node cg i
        | none => pure ([], cg)
      let (condCode, cg) ←
        match condition with
        | some c => do
            let (cc, cg) ← generate_node cg c
            pure (cc ++ [Instr.cmpRegImm .rax 0, Instr.je endLabel], cg)
        | none => pure ([], cg)
      let (bodyCode, cg) ← generate_node cg body
      let (incCode, cg) ←
        match increment with
        | some i => generate_node cg i
        | none => pure ([], cg)
      .ok (initCode ++ [.label startLabel] ++ condCode ++ bodyCode
        ++ [.label incLabel] ++ incCode ++ [.jmp startLabel] ++ [.label endLabel], cg)
  | .blockStmt stmts _ => generate_stmts cg stmts
  | .varDecl name type_ initializer _ => do
      match size_of type_ with
      | none => .error "panic: Cannot determine size of array with unknown size"
      | some size =>
          let align :=
            match type_ with
            | .char => 1
            | .int => 4
            | .long => 8
            | .pointer _ => 8
            | .array _ _ => 8
            | _ => 8
          let newOffset := align_to (cg.stack_offset + size) align
          let cg := { cg with
            stack_offset := newOffset,
            vars := varsInsert cg.vars name ⟨newOffset, type_⟩ }
          let alloc := [Instr.subRspImm size]
          match initializer with
          | some init => do
              let (initCode, cg) ← generate_node cg init
              .ok (alloc ++ initCode ++ [.movMemRbpReg newOffset .rax], cg)
          | none => .ok (alloc, cg)
  | .functionDecl _ _ _ _ _ => .ok ([], cg)
  | .program _ => .error "panic: Nested program node"

/-- Argument lowering of `Node::FunctionCall`: evaluate each argument in
order, moving the first four into the argument registers and pushing the
rest (`i` is the argument index). -/
def generate_args (cg : CodeGenerator) (args : List Node) (i : Nat) :
    Except String (List Instr × CodeGenerator) :=
  match args with
  | [] => .ok ([], cg)
  | arg :: rest => do
      let (code, cg) ← generate_node cg arg
      let move :=
        match param_registers.get? i with
        | some r => [Instr.movRegReg r .rax]
        | none => [Instr.push .rax]
      let (restCode, cg) ← generate_args cg rest (i + 1)
      .ok (code ++ move ++ restCode, cg)

/-- Statement sequence of `Node::BlockStmt`. -/
def generate_stmts (cg : CodeGenerator) (stmts : List Node) :
    Except String (List Instr × CodeGenerator) :=
  match stmts with
  | [] => .ok ([], cg)
  | stmt :: rest => do
      let (code, cg) ← generate_node cg stmt
      let (restCode, cg) ← generate_stmts cg rest
      .ok (code ++ restCode, cg)

end

/-- The `.data` lines emitted for a top-level variable declaration
(`CodeGenerator::generate_declaration`, `Node::VarDecl` arm).  Each
string is one emitted line; the initializer is ignored by the source
(`initializer: _`).  A `size_of` panic inside the array arm is modelled
as an error. -/
def generate_global_var (name : String) (type_ : Ty) (initializer : Option Node) :
    Except String (List String) :=
  let _ := initializer
  let header := ["    .data", "    .globl " ++ name, name ++ ":"]
  match type_ with
  | .char => .ok (header ++ ["    .byte 0", "    .text"])
  | .int => .ok (header ++ ["    .long 0", "    .text"])
  | .long => .ok (header ++ ["    .quad 0", "    .text"])
  | .array base (some size) =>
      match size_of base with
      | some elemSize => .ok (header ++ ["    .zero " ++ toString (elemSize * size), "    .text"])
      | none => .error "panic: Cannot determine size of array with unknown size"
  | _ => .error "Unsupported global variable type"

/-! ## Machine semantics for the emitted code

A small-step interpreter for the instruction subset that expression code
emits.  Registers hold 64-bit words modelled as `Nat` reduced modulo
`2 ^ 64`; local variables live in a store indexed by their `rbp` offset;
`cmp` records its two (normalized) operand values for the following
`set`/`je`/`jne`.  Jumps are resolved forward, which covers all the label
uses inside expression code (`.land`/`.lor`).  Instructions that touch
global memory, the instruction pointer (`call`/`ret`) or absolute
addresses are outside the model and stop evaluation with `none`, as does
a hardware fault (`div` by zero or quotient overflow). -/

/-- Word width of the modelled machine. -/
def W : Nat := 2 ^ 64

/-- Reduce to a 64-bit word. -/
def wnorm (x : Nat) : Nat := x % W

/-- 64-bit wrapping subtraction. -/
def wsub (a b : Nat) : Nat := (a + (W - b % W)) % W

/-- The word written by a `mov r, imm` for a (possibly negative) literal. -/
def immVal (v : Int) : Nat := (v % (W : Int)).toNat

/-- Two's-complement reading of a 64-bit word. -/
def toSigned (x : Nat) : Int := if x < 2 ^ 63 then (x : Int) else (x : Int) - (W : Int)

/-- Machine state: register file, hardware stack, local-variable store
(indexed by offset from `rbp`), and the operands of the last `cmp`. -/
structure MState where
  regs : Reg → Nat
  stack : List Nat
  locals : Nat → Nat
  flags : Option (Nat × Nat)

/-- Write a register (normalizing to 64 bits). -/
def MState.setReg (st : MState) (r : Reg) (v : Nat) : MState :=
  { st with regs := fun x => if x = r then wnorm v else st.regs x }

/-- Does condition `c` hold for a preceding `cmp a, b`?  `e`/`ne` test
equality; `l`/`le`/`g`/`ge` are the signed comparisons. -/
def condHolds (c : Cond) (a b : Nat) : Bool :=
  match c with
  | .e => a = b
  | .ne => a ≠ b
  | .l => toSigned a < toSigned b
  | .le => toSigned a ≤ toSigned b
  | .g => toSigned a > toSigned b
  | .ge => toSigned a ≥ toSigned b

/-- Skip forward to a label (the continuation of a taken jump). -/
def skipTo (l : String) (is : List Instr) : List Instr :=
  is.dropWhile (fun i => i ≠ Instr.label l)

/-- Execute an instruction list (with fuel, to keep the interpreter
structurally recursive).  Returns the final state, or `none` on a fault,
an unmodelled instruction, or fuel exhaustion. -/
def exec : Nat → List Instr → MState → Option MState
  | _, [], st => some st
  | 0, _ :: _, _ => none
  | fuel + 1, i :: rest, st =>
      match i with
      | .movRegImm r v => exec fuel rest (st.setReg r (immVal v))
      | .movRegReg d s => exec fuel rest (st.setReg d (st.regs s))
      | .movRegMemRbp r off => exec fuel rest (st.setReg r (st.locals off))
      | .movMemRbpReg off r =>
          exec fuel rest
            { st with locals := fun o => if o = off then wnorm (st.regs r) else st.locals o }
      | .push r => exec fuel rest { st with stack := wnorm (st.regs r) :: st.stack }
      | .pop r =>
          match st.stack with
          | [] => none
          | v :: s => exec fuel rest ({ st with stack := s }.setReg r v)
      | .addRegReg d s => exec fuel rest (st.setReg d (st.regs d + st.regs s))
      | .subRegReg d s => exec fuel rest (st.setReg d (wsub (st.regs d) (st.regs s)))
      | .imulRegReg d s => exec fuel rest (st.setReg d (st.regs d * st.regs s))
      | .andRegReg d s => exec fuel rest (st.setReg d (Nat.land (st.regs d) (st.regs s)))
      | .orRegReg d s => exec fuel rest (st.setReg d (Nat.lor (st.regs d) (st.regs s)))
      | .xorRegReg d s => exec fuel rest (st.setReg d (Nat.xor (st.regs d) (st.regs s)))
      | .divReg r =>
          let divisor := wnorm (st.regs r)
          if divisor = 0 then none
          else
            let num := wnorm (st.regs .rdx) * W + wnorm (st.regs .rax)
            let q := num / divisor
            if q ≥ W then none
            else exec fuel rest (((st.setReg .rax q).setReg .rdx (num % divisor)))
      | .shlRegCl r =>
          exec fuel rest (st.setReg r (Nat.shiftLeft (wnorm (st.regs r)) (st.regs .rcx % 64)))
      | .shrRegCl r =>
          exec fuel rest (st.setReg r (Nat.shiftRight (wnorm (st.regs r)) (st.regs .rcx % 64)))
      | .negReg r => exec fuel rest (st.setReg r (wsub 0 (st.regs r)))
      | .notReg r => exec fuel rest (st.setReg r (W - 1 - wnorm (st.regs r)))
      | .cmpRegReg a b =>
          exec fuel rest { st with flags := some (wnorm (st.regs a), wnorm (st.regs b)) }
      | .cmpRegImm r v =>
          exec fuel rest { st with flags := some (wnorm (st.regs r), immVal v) }
      | .setAl c =>
          match st.flags with
          | none => none
          | some (a, b) =>
              let bit := if condHolds c a b then 1 else 0
              exec fuel rest
                (st.setReg .rax (wnorm (st.regs .rax) - wnorm (st.regs .rax) % 256 + bit))
      | .movzxRaxAl => exec fuel rest (st.setReg .rax (wnorm (st.regs .rax) % 256))
      | .jmp l => exec fuel (skipTo l rest) st
      | .je l =>
          match st.flags with
          | none => none
          | some (a, b) => if a = b then exec fuel (skipTo l rest) st else exec fuel rest st
      | .jne l =>
          match st.flags with
          | none => none
          | some (a, b) => if a ≠ b then exec fuel (skipTo l rest) st else exec fuel rest st
      | .label _ => exec fuel rest st
      | .leaRbp r off => exec fuel rest (st.setReg r (wsub (st.regs .rbp) off))
      | .subRspImm n => exec fuel rest (st.setReg .rsp (wsub (st.regs .rsp) n))
      | .addRspImm n => exec fuel rest (st.setReg .rsp (st.regs .rsp + n))
      | .movRegGlobal _ _ => none
      | .movGlobalReg _ _ => none
      | .movMemRegReg _ _ => none
      | .movRegMemReg _ _ => none
      | .leaGlobal _ _ => none
      | .leaRipLC _ _ => none
      | .call _ => none
      | .ret => none

/-! ### Fixture: `a OP b` over two integer locals

The code generator is run on the expression `a OP b` where `a` and `b`
are `int` locals at offsets 8 and 16, and the emitted code is executed
on a machine state holding the runtime values `va` and `vb` there. -/

/-- Generator state with two `int` locals, `a` at `[rbp-8]` and `b` at
`[rbp-16]`. -/
def cgAB : CodeGenerator :=
  { CodeGenerator.new with vars := [("a", ⟨8, Ty.int⟩), ("b", ⟨16, Ty.int⟩)] }

/-- The expression `a OP b` over the two identifiers. -/
def binAB (op : BinaryOp) : Node :=
  .binaryExpr op (.identifier "a" dummyLoc) (.identifier "b" dummyLoc) dummyLoc

/-- Initial machine state with `a = va` and `b = vb`. -/
def stAB (va vb : Nat) : MState :=
  { regs := fun _ => 0
    stack := []
    locals := fun o => if o = 8 then va else if o = 16 then vb else 0
    flags := none }

/-- Generate code for `a OP b`, run it on `a = va`, `b = vb`, and return
the accumulator (`rax`). -/
def runBinOp (op : BinaryOp) (va vb : Nat) : Option Nat :=
  match generate_node cgAB (binAB op) with
  | .ok (is, _) => (exec 64 is (stAB va vb)).map (fun st => st.regs .rax)
  | .error _ => none

/-- C1: the claim states that for `a OP b` over integer identifiers the
emitted assembly leaves `OP`'s arithmetic result in the accumulator for
every operator, the division/modulo sequences dividing the left operand
by the right one.  The code violates this: the `Divide`/`Modulo`
sequences overwrite the right operand (`mov rax, rcx` clobbers the
divisor before `div rax`), so `6 / 3` evaluates to `1` (namely `6 / 6`)
instead of `2` and `7 % 3` evaluates to `0` instead of `1`; the shift
sequences clobber the left operand (`mov rcx, rax`), so `1 << 2`
evaluates to `8` (namely `2 << 2`) instead of `4`.  This contradicts the
generator's own comments (`RAX = RCX / RAX`, `RAX = RCX << (RAX & 0x3F)`),
so the code, not the claim, is wrong. -/
theorem c1_div_mod_shift_codegen_bug :
    runBinOp .divide 6 3 = some 1 ∧ (6 : Nat) / 3 = 2 ∧
    runBinOp .modulo 7 3 = some 0 ∧ (7 : Nat) % 3 = 1 ∧
    runBinOp .shiftLeft 1 2 = some 8 ∧ Nat.shiftLeft 1 2 = 4 ∧
    runBinOp .add 6 3 = some 9 ∧ runBinOp .subtract 6 3 = some 3 := by
  refine ⟨by decide, by decide, by decide, by decide, by decide, by decide, by decide, by decide⟩

/-- C2: the claim states that in the emitted `&&` code a zero left
operand jumps past the right-operand evaluation and leaves `0` in the
accumulator, and that for `||` a non-zero left operand leaves `1`.  The
code violates this: both operands are evaluated before the branch, and
the short-circuit jump lands after the normalization sequence, so the
accumulator keeps the raw right-operand value: `0 && 5` leaves `5`
(truthy!) instead of `0`, and `3 || 0` leaves `0` instead of `1`.  This
contradicts the generator's own comments ("If left is false, jump to end
and result will be 0"), so the code, not the claim, is wrong.  When the
branch is not taken the right side is indeed normalized to 0/1
(`1 && 5` leaves `1`). -/
theorem c2_logical_shortcircuit_codegen_bug :
    runBinOp .logicalAnd 0 5 = some 5 ∧
    runBinOp .logicalOr 3 0 = some 0 ∧
    runBinOp .logicalAnd 1 5 = some 1 ∧
    runBinOp .logicalOr 0 7 = some 1 := by
  refine ⟨by decide, by decide, by decide, by decide⟩

/-- C9: the `.data` entry emitted for a top-level variable declaration is
zero-initialized (`.byte 0` for `char`, `.long 0` for `int`, `.quad 0`
for `long`, `.zero N` for sized arrays), and the declaration's
initializer expression has no effect whatsoever on the emitted lines:
for any two initializers the output is identical. -/
theorem c9_global_zero_init (name : String) (init : Option Node) :
    (∀ t init2, generate_global_var name t init = generate_global_var name t init2) ∧
    generate_global_var name .char init =
      .ok ["    .data", "    .globl " ++ name, name ++ ":", "    .byte 0", "    .text"] ∧
    generate_global_var name .int init =
      .ok ["    .data", "    .globl " ++ name, name ++ ":", "    .long 0", "    .text"] ∧
    generate_global_var name .long init =
      .ok ["    .data", "    .globl " ++ name, name ++ ":", "    .quad 0", "    .text"] ∧
    ∀ base n es, size_of base = some es →
      generate_global_var name (.array base (some n)) init =
        .ok ["    .data", "    .globl " ++ name, name ++ ":",
          "    .zero " ++ toString (es * n), "    .text"] := by
  refine ⟨fun t init2 => rfl, rfl, rfl, rfl, fun base n es h => ?_⟩
  simp [generate_global_var, h]

/-- Witness for `c9_global_zero_init`: evaluate it at a concrete global
`int g[3];` with initializer absent. -/
theorem c9_global_zero_init_witness :
    generate_global_var "g" (.array .int (some 3)) none =
      .ok ["    .data", "    .globl g", "g:", "    .zero 12", "    .text"] :=
  (c9_global_zero_init "g" none).2.2.2.2 Ty.int 3 4 rfl

/-! ## Tokens (src/lexer.rs) -/

/-- Token kinds (`lexer.rs::TokenKind`).  Keyword constructors carry a
`Kw` suffix where the bare name is unavailable in Lean. -/
inductive TokenKind where
  | autoKw | breakKw | caseKw | charKw | constKw | continueKw | defaultKw
  | doKw | doubleKw | elseKw | enumKw | externKw | floatKw | forKw | gotoKw
  | ifKw | intKw | longKw | registerKw | returnKw | shortKw | signedKw
  | sizeofKw | staticKw | structKw | switchKw | typedefKw | unionKw
  | unsignedKw | voidKw | volatileKw | whileKw
  | identifier (name : String)
  | intLiteral (value : Int)
  | charLiteral (value : Char)
  | stringLiteral (value : String)
  | plus | minus | asterisk | slash | percent | increment | decrement
  | equal | notEqual | lessThan | lessThanEqual | greaterThan | greaterThanEqual
  | logicalAnd | logicalOr | logicalNot
  | bitwiseAnd | bitwiseOr | bitwiseXor | bitwiseNot | shiftLeft | shiftRight
  | assign | plusAssign | minusAssign | multiplyAssign | divideAssign
  | moduloAssign | andAssign | orAssign | xorAssign | shiftLeftAssign
  | shiftRightAssign
  | leftParen | rightParen | leftBrace | rightBrace | leftBracket | rightBracket
  | semicolon | comma | dot | arrow | colon | questionMark | ellipsis
  | hash | hashHash
  | eof
  deriving Repr

/-- A distinct tag per `TokenKind` constructor, used to define structural
equality without a quadratic case split. -/
def TokenKind.tag : TokenKind → Nat
  | .autoKw => 0 | .breakKw => 1 | .caseKw => 2 | .charKw => 3 | .constKw => 4
  | .continueKw => 5 | .defaultKw => 6 | .doKw => 7 | .doubleKw => 8
  | .elseKw => 9 | .enumKw => 10 | .externKw => 11 | .floatKw => 12
  | .forKw => 13 | .gotoKw => 14 | .ifKw => 15 | .intKw => 16 | .longKw => 17
  | .registerKw => 18 | .returnKw => 19 | .shortKw => 20 | .signedKw => 21
  | .sizeofKw => 22 | .staticKw => 23 | .structKw => 24 | .switchKw => 25
  | .typedefKw => 26 | .unionKw => 27 | .unsignedKw => 28 | .voidKw => 29
  | .volatileKw => 30 | .whileKw => 31
  | .identifier _ => 32 | .intLiteral _ => 33 | .charLiteral _ => 34
  | .stringLiteral _ => 35
  | .plus => 36 | .minus => 37 | .asterisk => 38 | .slash => 39
  | .percent => 40 | .increment => 41 | .decrement => 42 | .equal => 43
  | .notEqual => 44 | .lessThan => 45 | .lessThanEqual => 46
  | .greaterThan => 47 | .greaterThanEqual => 48 | .logicalAnd => 49
  | .logicalOr => 50 | .logicalNot => 51 | .bitwiseAnd => 52
  | .bitwiseOr => 53 | .bitwiseXor => 54 | .bitwiseNot => 55
  | .shiftLeft => 56 | .shiftRight => 57
  | .assign => 58 | .plusAssign => 59 | .minusAssign => 60
  | .multiplyAssign => 61 | .divideAssign => 62 | .moduloAssign => 63
  | .andAssign => 64 | .orAssign => 65 | .xorAssign => 66
  | .shiftLeftAssign => 67 | .shiftRightAssign => 68
  | .leftParen => 69 | .rightParen => 70 | .leftBrace => 71
  | .rightBrace => 72 | .leftBracket => 73 | .rightBracket => 74
  | .semicolon => 75 | .comma => 76 | .dot => 77 | .arrow => 78
  | .colon => 79 | .questionMark => 80 | .ellipsis => 81
  | .hash => 82 | .hashHash => 83 | .eof => 84

/-- Structural equality on token kinds, mirroring the `PartialEq` derived
for `lexer.rs::TokenKind` (payload-carrying constructors compare their
payloads; all others compare by constructor). -/
def TokenKind.beq (a b : TokenKind) : Bool :=
  match a, b with
  | .identifier x, .identifier y => x = y
  | .intLiteral x, .intLiteral y => x = y
  | .charLiteral x, .charLiteral y => x = y
  | .stringLiteral x, .stringLiteral y => x = y
  | _, _ => a.tag = b.tag

/-- Tokens (`lexer.rs::Token`). -/
structure Token where
  kind : TokenKind
  location : Location
  filename : String
  at_bol : Bool
  deriving Repr

/-- `Token::new`: the filename is copied from the location and `at_bol`
is always false after construction. -/
def Token.new (kind : TokenKind) (location : Location) : Token :=
  ⟨kind, location, location.file, false⟩

/-! ## Parser, expression grammar (src/parser.rs)

The parser cursor (`current` plus the token iterator) is modelled as a
`List Token` whose head is the current token.  Every parse function
returns the parsed node together with the rest of the list.  The
embedding covers the expression grammar (`parse_expression` down to
`parse_primary`), which is what the claims exercise.  A `Nat` fuel
argument keeps the mutual recursion structural; it is decremented on
every call and is semantically inert (the theorems supply ample fuel).
`self.current.unwrap()` on an exhausted cursor is a Rust panic, modelled
as an error. -/

/-- Syntax errors carry the location and message of `syntax_error`. -/
structure SynErr where
  loc : Location
  msg : String
  deriving Repr, DecidableEq

/-- The location used when the parser errors at end of input. -/
def unknownLoc : Location := ⟨"unknown", 0, 0⟩

/-- `Parser::check`: does the current token have this kind? -/
def checkTok (ts : List Token) (kind : TokenKind) : Bool :=
  match ts with
  | [] => false
  | t :: _ => t.kind.beq kind

/-- C6 helper: the token sequence `a[i]` for identifiers `a`, `i`. -/
def indexTokens (a i : String) (l1 l2 l3 l4 : Location) : List Token :=
  [Token.new (.identifier a) l1, Token.new .leftBracket l2,
   Token.new (.identifier i) l3, Token.new .rightBracket l4]

/-- C6 helper: the token sequence `*(a + i)` for identifiers `a`, `i`. -/
def derefTokens (a i : String) (m1 m2 m3 m4 m5 m6 : Location) : List Token :=
  [Token.new .asterisk m1, Token.new .leftParen m2,
   Token.new (.identifier a) m3, Token.new .plus m4,
   Token.new (.identifier i) m5, Token.new .rightParen m6]

/-- `Parser::expect`, specialized to the uses in the expression grammar
(the matched token itself is discarded by all expression callers). -/
def expectTok (ts : List Token) (kind : TokenKind) (msg : String) :
    Except SynErr (List Token) :=
  match ts with
  | t :: rest => if t.kind.beq kind then .ok rest else .error ⟨t.location, msg⟩
  | [] => .error ⟨unknownLoc, msg⟩

mutual

/-- `Parser::parse_expression`. -/
def parse_expression : Nat → List Token → Except SynErr (Node × List Token)
  | 0, _ => .error ⟨unknownLoc, "fuel"⟩
  | fuel + 1, ts => parse_assignment fuel ts

/-- `Parser::parse_assignment` (right-associative `=`). -/
def parse_assignment : Nat → List Token → Except SynErr (Node × List Token)
  | 0, _ => .error ⟨unknownLoc, "fuel"⟩
  | fuel + 1, ts => do
      let (expr, ts) ← parse_logical_or fuel ts
      if checkTok ts .assign then
        let ts := ts.tail
        match ts with
        | [] => .error ⟨unknownLoc, "panic: unwrap"⟩
        | t :: _ => do
            let (value, ts2) ← parse_assignment fuel ts
            .ok (.binaryExpr .assign expr value t.location, ts2)
      else
        .ok (expr, ts)

/-- `Parser::parse_logical_or`. -/
def parse_logical_or : Nat → List Token → Except SynErr (Node × List Token)
  | 0, _ => .error ⟨unknownLoc, "fuel"⟩
  | fuel + 1, ts => do
      let (expr, ts) ← parse_logical_and fuel ts
      parse_logical_or_loop fuel expr ts

/-- The `while` loop of `parse_logical_or`. -/
def parse_logical_or_loop (fuel : Nat) (expr : Node) (ts : List Token) :
    Except SynErr (Node × List Token) :=
  match fuel with
  | 0 => .error ⟨unknownLoc, "fuel"⟩
  | fuel + 1 =>
      if checkTok ts .logicalOr then
        match ts.tail with
        | [] => .error ⟨unknownLoc, "panic: unwrap"⟩
        | t :: _ => do
            let (right, ts2) ← parse_logical_and fuel (t :: (ts.tail).tail)
            parse_logical_or_loop fuel (.binaryExpr .logicalOr expr right t.location) ts2
      else
        .ok (expr, ts)

/-- `Parser::parse_logical_and`. -/
def parse_logical_and : Nat → List Token → Except SynErr (Node × List Token)
  | 0, _ => .error ⟨unknownLoc, "fuel"⟩
  | fuel + 1, ts => do
      let (expr, ts) ← parse_equality fuel ts
      parse_logical_and_loop fuel expr ts

/-- The `while` loop of `parse_logical_and`. -/
def parse_logical_and_loop (fuel : Nat) (expr : Node) (ts : List Token) :
    Except SynErr (Node × List Token) :=
  match fuel with
  | 0 => .error ⟨unknownLoc, "fuel"⟩
  | fuel + 1 =>
      if checkTok ts .logicalAnd then
        match ts.tail with
        | [] => .error ⟨unknownLoc, "panic: unwrap"⟩
        | t :: _ => do
            let (right, ts2) ← parse_equality fuel (t :: (ts.tail).tail)
            parse_logical_and_loop fuel (.binaryExpr .logicalAnd expr right t.location) ts2
      else
        .ok (expr, ts)

/-- `Parser::parse_equality`. -/
def parse_equality : Nat → List Token → Except SynErr (Node × List Token)
  | 0, _ => .error ⟨unknownLoc, "fuel"⟩
  | fuel + 1, ts => do
      let (expr, ts) ← parse_relational fuel ts
      parse_equality_loop fuel expr ts

/-- The operator loop of `parse_equality`. -/
def parse_equality_loop (fuel : Nat) (expr : Node) (ts : List Token) :
    Except SynErr (Node × List Token) :=
  match fuel with
  | 0 => .error ⟨unknownLoc, "fuel"⟩
  | fuel + 1 =>
      let op : Option BinaryOp :=
        if checkTok ts .equal then some .equal
        else if checkTok ts .notEqual then some .notEqual
        else none
      match op with
      | none => .ok (expr, ts)
      | some op =>
          match ts.tail with
          | [] => .error ⟨unknownLoc, "panic: unwrap"⟩
          | t :: _ => do
              let (right, ts2) ← parse_relational fuel (t :: (ts.tail).tail)
              parse_equality_loop fuel (.binaryExpr op expr right t.location) ts2

/-- `Parser::parse_relational`. -/
def parse_relational : Nat → List Token → Except SynErr (Node × List Token)
  | 0, _ => .error ⟨unknownLoc, "fuel"⟩
  | fuel + 1, ts => do
      let (expr, ts) ← parse_additive fuel ts
      parse_relational_loop fuel expr ts

/-- The operator loop of `parse_relational`. -/
def parse_relational_loop (fuel : Nat) (expr : Node) (ts : List Token) :
    Except SynErr (Node × List Token) :=
  match fuel with
  | 0 => .error ⟨unknownLoc, "fuel"⟩
  | fuel + 1 =>
      let op : Option BinaryOp :=
        if checkTok ts .lessThan then some .less
        else if checkTok ts .lessThanEqual then some .lessEqual
        else if checkTok ts .greaterThan then some .greater
        else if checkTok ts .greaterThanEqual then some .greaterEqual
        else none
      match op with
      | none => .ok (expr, ts)
      | some op =>
          match ts.tail with
          | [] => .error ⟨unknownLoc, "panic: unwrap"⟩
          | t :: _ => do
              let (right, ts2) ← parse_additive fuel (t :: (ts.tail).tail)
              parse_relational_loop fuel (.binaryExpr op expr right t.location) ts2

/-- `Parser::parse_additive`. -/
def parse_additive : Nat → List Token → Except SynErr (Node × List Token)
  | 0, _ => .error ⟨unknownLoc, "fuel"⟩
  | fuel + 1, ts => do
      let (expr, ts) ← parse_multiplicative fuel ts
      parse_additive_loop fuel expr ts

/-- The operator loop of `parse_additive`. -/
def parse_additive_loop (fuel : Nat) (expr : Node) (ts : List Token) :
    Except SynErr (Node × List Token) :=
  match fuel with
  | 0 => .error ⟨unknownLoc, "fuel"⟩
  | fuel + 1 =>
      let op : Option BinaryOp :=
        if checkTok ts .plus then some .add
        else if checkTok ts .minus then some .subtract
        else none
      match op with
      | none => .ok (expr, ts)
      | some op =>
          match ts.tail with
          | [] => .error ⟨unknownLoc, "panic: unwrap"⟩
          | t :: _ => do
              let (right, ts2) ← parse_multiplicative fuel (t :: (ts.tail).tail)
              parse_additive_loop fuel (.binaryExpr op expr right t.location) ts2

/-- `Parser::parse_multiplicative`. -/
def parse_multiplicative : Nat → List Token → Except SynErr (Node × List Token)
  | 0, _ => .error ⟨unknownLoc, "fuel"⟩
  | fuel + 1, ts => do
      let (expr, ts) ← parse_unary fuel ts
      parse_multiplicative_loop fuel expr ts

/-- The operator loop of `parse_multiplicative`. -/
def parse_multiplicative_loop (fuel : Nat) (expr : Node) (ts : List Token) :
    Except SynErr (Node × List Token) :=
  match fuel with
  | 0 => .error ⟨unknownLoc, "fuel"⟩
  | fuel + 1 =>
      let op : Option BinaryOp :=
        if checkTok ts .asterisk then some .multiply
        else if checkTok ts .slash then some .divide
        else if checkTok ts .percent then some .modulo
        else none
      match op with
      | none => .ok (expr, ts)
      | some op =>
          match ts.tail with
          | [] => .error ⟨unknownLoc, "panic: unwrap"⟩
          | t :: _ => do
              let (right, ts2) ← parse_unary fuel (t :: (ts.tail).tail)
              parse_multiplicative_loop fuel (.binaryExpr op expr right t.location) ts2

/-- `Parser::parse_unary` (prefix `- ! ~ * &`, right-recursive). -/
def parse_unary : Nat → List Token → Except SynErr (Node × List Token)
  | 0, _ => .error ⟨unknownLoc, "fuel"⟩
  | fuel + 1, ts =>
      match ts with
      | t :: rest =>
          let op : Option UnaryOp :=
            match t.kind with
            | .minus => some .negate
            | .logicalNot => some .logicalNot
            | .bitwiseNot => some .bitwiseNot
            | .asterisk => some .dereference
            | .bitwiseAnd => some .addressOf
            | _ => none
          match op with
          | some op => do
              let (expr, ts2) ← parse_unary fuel rest
              .ok (.unaryExpr op expr t.location, ts2)
          | none => parse_postfix fuel ts
      | [] => parse_postfix fuel ts

/-- `Parser::parse_postfix`. -/
def parse_postfix : Nat → List Token → Except SynErr (Node × List Token)
  | 0, _ => .error ⟨unknownLoc, "fuel"⟩
  | fuel + 1, ts => do
      let (expr, ts) ← parse_primary fuel ts
      parse_postfix_loop fuel expr ts

/-- The postfix loop of `parse_postfix`: calls, indexing, member access. -/
def parse_postfix_loop (fuel : Nat) (expr : Node) (ts : List Token) :
    Except SynErr (Node × List Token) :=
  match fuel with
  | 0 => .error ⟨unknownLoc, "fuel"⟩
  | fuel + 1 =>
      if checkTok ts .leftParen then
        match ts.tail with
        | [] => .error ⟨unknownLoc, "panic: unwrap"⟩
        | t :: _ => do
            let location := t.location
            let (args, ts2) ←
              if checkTok ts.tail .rightParen then
                pure ([], ts.tail)
              else
                parse_call_args fuel ts.tail
            let ts3 ← expectTok ts2 .rightParen "Expected close paren after arguments"
            match expr with
            | .identifier name _ =>
                parse_postfix_loop fuel (.functionCall name args location) ts3
            | _ => .error ⟨location, "Expected function name before open paren"⟩
      else if checkTok ts .leftBracket then
        match ts.tail with
        | [] => .error ⟨unknownLoc, "panic: unwrap"⟩
        | t :: _ => do
            let location := t.location
            let (index, ts2) ← parse_expression fuel ts.tail
            let ts3 ← expectTok ts2 .rightBracket "Expected close bracket after index"
            let arrayPlusIndex : Node := .binaryExpr .add expr index location
            parse_postfix_loop fuel (.unaryExpr .dereference arrayPlusIndex location) ts3
      else if checkTok ts .dot then
        match ts.tail with
        | [] => .error ⟨unknownLoc, "panic: unwrap"⟩
        | t :: _ => .error ⟨t.location, "Struct member access not implemented yet"⟩
      else if checkTok ts .arrow then
        match ts.tail with
        | [] => .error ⟨unknownLoc, "panic: unwrap"⟩
        | t :: _ => .error ⟨t.location, "Struct pointer member access not implemented yet"⟩
      else
        .ok (expr, ts)

/-- The argument list loop inside the call branch of `parse_postfix`. -/
def parse_call_args (fuel : Nat) (ts : List Token) :
    Except SynErr (List Node × List Token) :=
  match fuel with
  | 0 => .error ⟨unknownLoc, "fuel"⟩
  | fuel + 1 => do
      let (arg, ts) ← parse_expression fuel ts
      if checkTok ts .comma then do
        let (args, ts2) ← parse_call_args fuel ts.tail
        .ok (arg :: args, ts2)
      else
        .ok ([arg], ts)

/-- `Parser::parse_primary`. -/
def parse_primary : Nat → List Token → Except SynErr (Node × List Token)
  | 0, _ => .error ⟨unknownLoc, "fuel"⟩
  | fuel + 1, ts =>
      match ts with
      | t :: rest =>
          match t.kind with
          | .intLiteral v => .ok (.intLiteral v t.location, rest)
          | .charLiteral v => .ok (.charLiteral v t.location, rest)
          | .stringLiteral v => .ok (.stringLiteral v t.location, rest)
          | .identifier name => .ok (.identifier name t.location, rest)
          | .leftParen => do
              let (expr, ts2) ← parse_expression fuel rest
              let ts3 ← expectTok ts2 .rightParen "Expected close paren after expression"
              .ok (expr, ts3)
          | _ => .error ⟨t.location, "Unexpected token"⟩
      | [] => .error ⟨unknownLoc, "Unexpected end of file"⟩

end

/-- C6: for all identifier names and source positions, the array-indexing
expression `a[i]` parses to a dereference of the addition of the two
subexpressions — the same AST as the explicit `*(a + i)` up to source
locations (the parser stamps different location fields, which no later
pass reads) — and the code generator emits identical assembly for the two
parse results from any generator state. -/
theorem c6_array_index_equals_deref (a i : String) (l1 l2 l3 l4 m1 m2 m3 m4 m5 m6 : Location) :
    ∃ n1 n2,
      parse_expression 32 (indexTokens a i l1 l2 l3 l4) = .ok (n1, []) ∧
      parse_expression 32 (derefTokens a i m1 m2 m3 m4 m5 m6) = .ok (n2, []) ∧
      n1 = .unaryExpr .dereference
        (.binaryExpr .add (.identifier a l1) (.identifier i l3) l3) l3 ∧
      scrubLoc n1 = scrubLoc n2 ∧
      ∀ cg, generate_node cg n1 = generate_node cg n2 := by
  exact ⟨_, _, rfl, rfl, rfl, rfl, fun cg => rfl⟩

/-! ## Type checker (src/typechecker.rs)

The scope stack (`SymbolTable::scopes`, a `Vec` of hash maps pushed and
popped at the end) is modelled with the innermost scope at the head of a
list.  Each hash map is modelled as an association list whose `define`
prepends — observationally the same as `HashMap::insert` under the
first-match `lookup`. -/

/-- Type errors carry the location and message of `type_error`. -/
structure TypeErr where
  loc : Location
  msg : String
  deriving Repr

/-- One scope: a map from names to types. -/
abbrev Scope := List (String × Ty)

/-- `HashMap::get` on one scope. -/
def scopeLookup : Scope → String → Option Ty
  | [], _ => none
  | (k, t) :: rest, name => if k = name then some t else scopeLookup rest name

/-- `HashMap::insert` on one scope (prepend; first-match lookup makes
this an overwrite). -/
def scopeDefine (s : Scope) (name : String) (t : Ty) : Scope :=
  (name, t) :: s

/-- `typechecker.rs::SymbolTable`: the innermost scope is the head. -/
structure SymbolTable where
  scopes : List Scope
  deriving Repr

/-- `SymbolTable::new`: one empty (global) scope. -/
def SymbolTable.new : SymbolTable := ⟨[[]]⟩

/-- `SymbolTable::enter_scope`. -/
def SymbolTable.enter_scope (st : SymbolTable) : SymbolTable :=
  ⟨[] :: st.scopes⟩

/-- `SymbolTable::exit_scope` (`Vec::pop`; a no-op on an empty stack). -/
def SymbolTable.exit_scope (st : SymbolTable) : SymbolTable :=
  ⟨st.scopes.tail⟩

/-- `SymbolTable::define`: insert into the innermost scope (`last_mut`;
a no-op when no scope exists). -/
def SymbolTable.define (st : SymbolTable) (name : String) (t : Ty) : SymbolTable :=
  match st.scopes with
  | [] => st
  | s :: rest => ⟨scopeDefine s name t :: rest⟩

/-- Innermost-to-outermost search of `SymbolTable::lookup`. -/
def lookupScopes : List Scope → String → Option Ty
  | [], _ => none
  | s :: rest, name =>
      match scopeLookup s name with
      | some t => some t
      | none => lookupScopes rest name

/-- `SymbolTable::lookup`. -/
def SymbolTable.lookup (st : SymbolTable) (name : String) : Option Ty :=
  lookupScopes st.scopes name

mutual

/-- `TypeChecker::is_compatible` (structural type compatibility). -/
def is_compatible : Ty → Ty → Bool
  | .void, .void => true
  | .char, .char => true
  | .int, .int => true
  | .long, .long => true
  | .int, .char => true
  | .char, .int => true
  | .long, .int => true
  | .int, .long => true
  | .long, .char => true
  | .char, .long => true
  | .pointer l, .pointer r => is_compatible l r
  | .array l _, .array r _ => is_compatible l r
  | .array l _, .pointer r => is_compatible l r
  | .pointer l, .array r _ => is_compatible l r
  | .function lr lp lv, .function rr rp rv =>
      is_compatible lr rr && lp.length = rp.length && lv = rv && compatParams lp rp
  | _, _ => false

/-- The `zip`-`all` over parameter lists in the function-type arm of
`is_compatible` (`zip` truncates to the shorter list). -/
def compatParams : List Ty → List Ty → Bool
  | l :: ls, r :: rs => is_compatible l r && compatParams ls rs
  | _, _ => true

end

/-- `TypeChecker::is_integer_type`. -/
def is_integer_type : Ty → Bool
  | .char | .int | .long => true
  | _ => false

/-- `TypeChecker::is_pointer_type` (arrays count as pointers). -/
def is_pointer_type : Ty → Bool
  | .pointer _ | .array _ _ => true
  | _ => false

/-- `typechecker.rs::TypeChecker` state. -/
structure TypeChecker where
  symbol_table : SymbolTable
  current_function_return_type : Option Ty
  deriving Repr

/-- `TypeChecker::new`. -/
def TypeChecker.new : TypeChecker := ⟨SymbolTable.new, none⟩

/-- The binary-operator arm of `check_node` (`Node::BinaryExpr` match on
`op`), which depends only on the operand types and the location.  Follows
the source arm by arm. -/
def binary_op_result (op : BinaryOp) (lt rt : Ty) (loc : Location) : Except TypeErr Ty :=
  match op with
  | .add =>
      if is_integer_type lt && is_integer_type rt then
        if (match lt with | .long => true | _ => false)
            || (match rt with | .long => true | _ => false) then .ok .long else .ok .int
      else if is_pointer_type lt && is_integer_type rt then .ok lt
      else if is_integer_type lt && is_pointer_type rt then .ok rt
      else .error ⟨loc, "Invalid operands for addition"⟩
  | .subtract =>
      if is_integer_type lt && is_integer_type rt then
        if (match lt with | .long => true | _ => false)
            || (match rt with | .long => true | _ => false) then .ok .long else .ok .int
      else if is_pointer_type lt && is_integer_type rt then .ok lt
      else if is_pointer_type lt && is_pointer_type rt then .ok .int
      else .error ⟨loc, "Invalid operands for subtraction"⟩
  | .multiply | .divide | .modulo =>
      if is_integer_type lt && is_integer_type rt then
        if (match lt with | .long => true | _ => false)
            || (match rt with | .long => true | _ => false) then .ok .long else .ok .int
      else .error ⟨loc, "Invalid operands for arithmetic operation"⟩
  | .equal | .notEqual =>
      if is_compatible lt rt then .ok .int
      else .error ⟨loc, "Invalid operands for comparison"⟩
  | .less | .lessEqual | .greater | .greaterEqual =>
      if (is_integer_type lt && is_integer_type rt)
          || (is_pointer_type lt && is_pointer_type rt) then .ok .int
      else .error ⟨loc, "Invalid operands for comparison"⟩
  | .logicalAnd | .logicalOr => .ok .int
  | .bitwiseAnd | .bitwiseOr | .bitwiseXor | .shiftLeft | .shiftRight =>
      if is_integer_type lt && is_integer_type rt then
        if (match lt with | .long => true | _ => false)
            || (match rt with | .long => true | _ => false) then .ok .long else .ok .int
      else .error ⟨loc, "Invalid operands for bitwise operation"⟩
  | .assign =>
      if is_compatible lt rt then .ok lt
      else .error ⟨loc, "Cannot assign value of incompatible type"⟩

/-- The unary-operator arm of `check_node` (`Node::UnaryExpr` match on
`op`), which depends only on the operand type and the location. -/
def unary_op_result (op : UnaryOp) (et : Ty) (loc : Location) : Except TypeErr Ty :=
  match op with
  | .negate =>
      if is_integer_type et then .ok et
      else .error ⟨loc, "Cannot negate non-integer type"⟩
  | .logicalNot => .ok .int
  | .bitwiseNot =>
      if is_integer_type et then .ok et
      else .error ⟨loc, "Cannot apply bitwise not to non-integer type"⟩
  | .dereference =>
      match et with
      | .pointer inner => .ok inner
      | .array inner _ => .ok inner
      | _ => .error ⟨loc, "Cannot dereference non-pointer type"⟩
  | .addressOf => .ok (.pointer et)

/-- Is a function's parameter list variadic, and what are the fixed
parameter types?  (`params.iter().any(|(name, _)| name == "...")` and the
filter in `check_node`'s `Node::FunctionDecl` arm.) -/
def strip_variadic (params : List (String × Ty)) : Bool × List Ty :=
  (params.any (fun p => p.1 = "..."), (params.filter (fun p => p.1 ≠ "...")).map (·.2))

/-- The parameter-binding loop in the `Node::FunctionDecl` arm: every
parameter — including the `...` pseudo-parameter — is defined in the
freshly entered scope. -/
def define_params (st : SymbolTable) : List (String × Ty) → SymbolTable
  | [] => st
  | (paramName, paramType) :: rest => define_params (st.define paramName paramType) rest

mutual

/-- `TypeChecker::check_node`: compute the type of a node, threading the
checker state.  The `Nat` fuel argument keeps the mutual recursion
structural (it is decremented on every call and semantically inert:
theorems quantify over it or supply enough of it). -/
def check_node : Nat → TypeChecker → Node → Except TypeErr (Ty × TypeChecker)
  | 0, _, _ => .error ⟨dummyLoc, "fuel"⟩
  | fuel + 1, tc, node =>
    match node with
    | .intLiteral _ _ => .ok (.int, tc)
    | .charLiteral _ _ => .ok (.char, tc)
    | .stringLiteral _ _ => .ok (.pointer .char, tc)
    | .identifier name loc =>
        match tc.symbol_table.lookup name with
        | some t => .ok (t, tc)
        | none => .error ⟨loc, "Undefined variable: " ++ name⟩
    | .binaryExpr op left right loc =>
        match check_node fuel tc left with
        | .error e => .error e
        | .ok (lt, tc1) =>
            match check_node fuel tc1 right with
            | .error e => .error e
            | .ok (rt, tc2) =>
                match binary_op_result op lt rt loc with
                | .error e => .error e
                | .ok t => .ok (t, tc2)
    | .unaryExpr op expr loc =>
        match check_node fuel tc expr with
        | .error e => .error e
        | .ok (et, tc1) =>
            match unary_op_result op et loc with
            | .error e => .error e
            | .ok t => .ok (t, tc1)
    | .functionCall name args loc =>
        match tc.symbol_table.lookup name with
        | some (.function returnType paramTypes isVariadic) =>
            if !isVariadic && args.length ≠ paramTypes.length then
              .error ⟨loc, "Function " ++ name ++ " called with wrong argument count"⟩
            else
              match check_call_args fuel tc name loc 0 args paramTypes with
              | .error e => .error e
              | .ok tc1 => .ok (returnType, tc1)
        | some _ => .error ⟨loc, name ++ " is not a function"⟩
        | none => .error ⟨loc, "Undefined function: " ++ name⟩
    | .expressionStmt expr =>
        match check_node fuel tc expr with
        | .error e => .error e
        | .ok (_, tc1) => .ok (.void, tc1)
    | .returnStmt value loc =>
        match tc.current_function_return_type with
        | none => .error ⟨loc, "Return statement outside of function"⟩
        | some currentReturnType =>
            match value with
            | some expr =>
                match check_node fuel tc expr with
                | .error e => .error e
                | .ok (et, tc1) =>
                    if is_compatible et currentReturnType then .ok (.void, tc1)
                    else .error ⟨loc, "Cannot return value of incompatible type"⟩
            | none =>
                match currentReturnType with
                | .void => .ok (.void, tc)
                | _ => .error ⟨loc, "Cannot return void from non-void function"⟩
    | .ifStmt condition thenBranch elseBranch _ =>
        match check_node fuel tc condition with
        | .error e => .error e
        | .ok (_, tc1) =>
            match check_node fuel
                { tc1 with symbol_table := tc1.symbol_table.enter_scope } thenBranch with
            | .error e => .error e
            | .ok (_, tc2) =>
                let tc3 := { tc2 with symbol_table := tc2.symbol_table.exit_scope }
                match elseBranch with
                | none => .ok (.void, tc3)
                | some elseB =>
                    match check_node fuel
                        { tc3 with symbol_table := tc3.symbol_table.enter_scope } elseB with
                    | .error e => .error e
                    | .ok (_, tc4) =>
                        .ok (.void, { tc4 with symbol_table := tc4.symbol_table.exit_scope })
    | .whileStmt condition body _ =>
        match check_node fuel tc condition with
        | .error e => .error e
        | .ok (_, tc1) =>
            match check_node fuel
                { tc1 with symbol_table := tc1.symbol_table.enter_scope } body with
            | .error e => .error e
            | .ok (_, tc2) =>
                .ok (.void, { tc2 with symbol_table := tc2.symbol_table.exit_scope })
    | .forStmt init condition increment body _ =>
        match check_opt fuel { tc with symbol_table := tc.symbol_table.enter_scope } init with
        | .error e => .error e
        | .ok tc1 =>
            match check_opt fuel tc1 condition with
            | .error e => .error e
            | .ok tc2 =>
                match check_opt fuel tc2 increment with
                | .error e => .error e
                | .ok tc3 =>
                    match check_node fuel tc3 body with
                    | .error e => .error e
                    | .ok (_, tc4) =>
                        .ok (.void, { tc4 with symbol_table := tc4.symbol_table.exit_scope })
    | .blockStmt stmts _ =>
        match check_nodes fuel { tc with symbol_table := tc.symbol_table.enter_scope } stmts
        with
        | .error e => .error e
        | .ok tc1 => .ok (.void, { tc1 with symbol_table := tc1.symbol_table.exit_scope })
    | .varDecl name type_ initializer loc =>
        match initializer with
        | some init =>
            match check_node fuel tc init with
            | .error e => .error e
            | .ok (initType, tc1) =>
                if !is_compatible initType type_ then
                  .error ⟨loc, "Cannot initialize variable with value of incompatible type"⟩
                else
                  .ok (.void, { tc1 with symbol_table := tc1.symbol_table.define name type_ })
        | none => .ok (.void, { tc with symbol_table := tc.symbol_table.define name type_ })
    | .functionDecl name returnType params body _ =>
        let (isVariadic, paramTypes) := strip_variadic params
        let funcType : Ty := .function returnType paramTypes isVariadic
        let tc1 := { tc with symbol_table := tc.symbol_table.define name funcType }
        match body with
        | none => .ok (.void, tc1)
        | some bodyNode =>
            let prevReturnType := tc1.current_function_return_type
            let tc2 := { tc1 with current_function_return_type := some returnType }
            let tc3 := { tc2 with symbol_table := tc2.symbol_table.enter_scope }
            let tc4 := { tc3 with symbol_table := define_params tc3.symbol_table params }
            match check_node fuel tc4 bodyNode with
            | .error e => .error e
            | .ok (_, tc5) =>
                let tc6 := { tc5 with symbol_table := tc5.symbol_table.exit_scope }
                .ok (.void, { tc6 with current_function_return_type := prevReturnType })
    | .program _ => .error ⟨dummyLoc, "panic: Nested program node"⟩

/-- The argument-checking loop of the `Node::FunctionCall` arm: check the
first `min(args, params)` arguments for compatibility (`i` is the
argument index used in the error message). -/
def check_call_args : Nat → TypeChecker → String → Location → Nat → List Node → List Ty →
    Except TypeErr TypeChecker
  | 0, _, _, _, _, _, _ => .error ⟨dummyLoc, "fuel"⟩
  | fuel + 1, tc, name, loc, i, args, ps =>
    match args, ps with
    | arg :: args, paramType :: paramTypes =>
        match check_node fuel tc arg with
        | .error e => .error e
        | .ok (argType, tc1) =>
            if !is_compatible argType paramType then
              .error ⟨loc, "Argument " ++ toString (i + 1) ++ " of " ++ name
                ++ " has incompatible type"⟩
            else
              check_call_args fuel tc1 name loc (i + 1) args paramTypes
    | _, _ => .ok tc

/-- Sequential checking of a node list (the statement loop of
`Node::BlockStmt` and the declaration loop of `check_program`). -/
def check_nodes : Nat → TypeChecker → List Node → Except TypeErr TypeChecker
  | 0, _, _ => .error ⟨dummyLoc, "fuel"⟩
  | fuel + 1, tc, ns =>
    match ns with
    | [] => .ok tc
    | n :: rest =>
        match check_node fuel tc n with
        | .error e => .error e
        | .ok (_, tc1) => check_nodes fuel tc1 rest

/-- Checking of an optional clause (the `if let Some(...)` clauses of the
`Node::ForStmt` arm). -/
def check_opt : Nat → TypeChecker → Option Node → Except TypeErr TypeChecker
  | 0, _, _ => .error ⟨dummyLoc, "fuel"⟩
  | fuel + 1, tc, o =>
    match o with
    | none => .ok tc
    | some n =>
        match check_node fuel tc n with
        | .error e => .error e
        | .ok (_, tc1) => .ok tc1

end

/-- `TypeChecker::check_program`: check each top-level declaration in
order (a non-`Program` root is a Rust panic). -/
def check_program (fuel : Nat) (tc : TypeChecker) : Node → Except TypeErr TypeChecker
  | .program decls => check_nodes fuel tc decls
  | _ => .error ⟨dummyLoc, "panic: Expected program node"⟩

/-! ### Unfolding lemmas

One-step unfoldings of the checker at positive fuel, stated by `rfl` and
used in place of the auto-generated equations. -/

theorem check_node_eq_int (fuel : Nat) (tc : TypeChecker) (v : Int) (loc : Location) :
    check_node (fuel + 1) tc (.intLiteral v loc) = .ok (.int, tc) := rfl

theorem check_node_eq_char (fuel : Nat) (tc : TypeChecker) (v : Char) (loc : Location) :
    check_node (fuel + 1) tc (.charLiteral v loc) = .ok (.char, tc) := rfl

theorem check_node_eq_string (fuel : Nat) (tc : TypeChecker) (v : String) (loc : Location) :
    check_node (fuel + 1) tc (.stringLiteral v loc) = .ok (.pointer .char, tc) := rfl

theorem check_node_eq_ident (fuel : Nat) (tc : TypeChecker) (name : String) (loc : Location) :
    check_node (fuel + 1) tc (.identifier name loc) =
      match tc.symbol_table.lookup name with
      | some t => .ok (t, tc)
      | none => .error ⟨loc, "Undefined variable: " ++ name⟩ := rfl

theorem check_node_eq_binary (fuel : Nat) (tc : TypeChecker) (op : BinaryOp) (l r : Node)
    (loc : Location) :
    check_node (fuel + 1) tc (.binaryExpr op l r loc) =
      match check_node fuel tc l with
      | .error e => .error e
      | .ok (lt, tc1) =>
          match check_node fuel tc1 r with
          | .error e => .error e
          | .ok (rt, tc2) =>
              match binary_op_result op lt rt loc with
              | .error e => .error e
              | .ok t => .ok (t, tc2) := rfl

theorem check_node_eq_unary (fuel : Nat) (tc : TypeChecker) (op : UnaryOp) (expr : Node)
    (loc : Location) :
    check_node (fuel + 1) tc (.unaryExpr op expr loc) =
      match check_node fuel tc expr with
      | .error e => .error e
      | .ok (et, tc1) =>
          match unary_op_result op et loc with
          | .error e => .error e
          | .ok t => .ok (t, tc1) := rfl

theorem check_node_eq_fncall (fuel : Nat) (tc : TypeChecker) (name : String) (args : List Node)
    (loc : Location) :
    check_node (fuel + 1) tc (.functionCall name args loc) =
      (match tc.symbol_table.lookup name with
      | some (.function returnType paramTypes isVariadic) =>
          if !isVariadic && args.length ≠ paramTypes.length then
            .error ⟨loc, "Function " ++ name ++ " called with wrong argument count"⟩
          else
            match check_call_args fuel tc name loc 0 args paramTypes with
            | .error e => .error e
            | .ok tc1 => .ok (returnType, tc1)
      | some _ => .error ⟨loc, name ++ " is not a function"⟩
      | none => .error ⟨loc, "Undefined function: " ++ name⟩) := rfl

theorem check_node_eq_exprstmt (fuel : Nat) (tc : TypeChecker) (expr : Node) :
    check_node (fuel + 1) tc (.expressionStmt expr) =
      match check_node fuel tc expr with
      | .error e => .error e
      | .ok (_, tc1) => .ok (.void, tc1) := rfl

theorem check_node_eq_return (fuel : Nat) (tc : TypeChecker) (value : Option Node)
    (loc : Location) :
    check_node (fuel + 1) tc (.returnStmt value loc) =
      (match tc.current_function_return_type with
      | none => .error ⟨loc, "Return statement outside of function"⟩
      | some currentReturnType =>
          match value with
          | some expr =>
              match check_node fuel tc expr with
              | .error e => .error e
              | .ok (et, tc1) =>
                  if is_compatible et currentReturnType then .ok (.void, tc1)
                  else .error ⟨loc, "Cannot return value of incompatible type"⟩
          | none =>
              match currentReturnType with
              | .void => .ok (.void, tc)
              | _ => .error ⟨loc, "Cannot return void from non-void function"⟩) := rfl

theorem check_node_eq_if (fuel : Nat) (tc : TypeChecker) (condition thenBranch : Node)
    (elseBranch : Option Node) (loc : Location) :
    check_node (fuel + 1) tc (.ifStmt condition thenBranch elseBranch loc) =
      match check_node fuel tc condition with
      | .error e => .error e
      | .ok (_, tc1) =>
          match check_node fuel { tc1 with symbol_table := tc1.symbol_table.enter_scope }
              thenBranch with
          | .error e => .error e
          | .ok (_, tc2) =>
              let tc3 := { tc2 with symbol_table := tc2.symbol_table.exit_scope }
              match elseBranch with
              | none => .ok (.void, tc3)
              | some elseB =>
                  match check_node fuel
                      { tc3 with symbol_table := tc3.symbol_table.enter_scope } elseB with
                  | .error e => .error e
                  | .ok (_, tc4) =>
                      .ok (.void, { tc4 with symbol_table := tc4.symbol_table.exit_scope }) :=
  rfl

theorem check_node_eq_while (fuel : Nat) (tc : TypeChecker) (condition body : Node)
    (loc : Location) :
    check_node (fuel + 1) tc (.whileStmt condition body loc) =
      match check_node fuel tc condition with
      | .error e => .error e
      | .ok (_, tc1) =>
          match check_node fuel { tc1 with symbol_table := tc1.symbol_table.enter_scope } body
          with
          | .error e => .error e
          | .ok (_, tc2) =>
              .ok (.void, { tc2 with symbol_table := tc2.symbol_table.exit_scope }) := rfl

theorem check_node_eq_for (fuel : Nat) (tc : TypeChecker) (init condition increment : Option Node)
    (body : Node) (loc : Location) :
    check_node (fuel + 1) tc (.forStmt init condition increment body loc) =
      (match check_opt fuel { tc with symbol_table := tc.symbol_table.enter_scope } init with
      | .error e => .error e
      | .ok tc1 =>
          match check_opt fuel tc1 condition with
          | .error e => .error e
          | .ok tc2 =>
              match check_opt fuel tc2 increment with
              | .error e => .error e
              | .ok tc3 =>
                  match check_node fuel tc3 body with
                  | .error e => .error e
                  | .ok (_, tc4) =>
                      .ok (.void, { tc4 with symbol_table := tc4.symbol_table.exit_scope })) :=
  rfl

theorem check_node_eq_block (fuel : Nat) (tc : TypeChecker) (stmts : List Node)
    (loc : Location) :
    check_node (fuel + 1) tc (.blockStmt stmts loc) =
      match check_nodes fuel { tc with symbol_table := tc.symbol_table.enter_scope } stmts with
      | .error e => .error e
      | .ok tc1 => .ok (.void, { tc1 with symbol_table := tc1.symbol_table.exit_scope }) := rfl

theorem check_node_eq_vardecl (fuel : Nat) (tc : TypeChecker) (name : String) (type_ : Ty)
    (initializer : Option Node) (loc : Location) :
    check_node (fuel + 1) tc (.varDecl name type_ initializer loc) =
      (match initializer with
      | some init =>
          match check_node fuel tc init with
          | .error e => .error e
          | .ok (initType, tc1) =>
              if !is_compatible initType type_ then
                .error ⟨loc, "Cannot initialize variable with value of incompatible type"⟩
              else
                .ok (.void, { tc1 with symbol_table := tc1.symbol_table.define name type_ })
      | none => .ok (.void, { tc with symbol_table := tc.symbol_table.define name type_ })) :=
  rfl

theorem check_node_eq_fndecl (fuel : Nat) (tc : TypeChecker) (name : String) (returnType : Ty)
    (params : List (String × Ty)) (body : Option Node) (loc : Location) :
    check_node (fuel + 1) tc (.functionDecl name returnType params body loc) =
      (let funcType : Ty := .function returnType (strip_variadic params).2
        (strip_variadic params).1
      let tc1 : TypeChecker := { tc with symbol_table := tc.symbol_table.define name funcType }
      match body with
      | none => .ok (.void, tc1)
      | some bodyNode =>
          let tc2 : TypeChecker :=
            { tc1 with current_function_return_type := some returnType }
          let tc3 : TypeChecker := { tc2 with symbol_table := tc2.symbol_table.enter_scope }
          let tc4 : TypeChecker :=
            { tc3 with symbol_table := define_params tc3.symbol_table params }
          match check_node fuel tc4 bodyNode with
          | .error e => .error e
          | .ok (_, tc5) =>
              let tc6 : TypeChecker := { tc5 with symbol_table := tc5.symbol_table.exit_scope }
              .ok (.void,
                { tc6 with current_function_return_type := tc1.current_function_return_type })) :=
  rfl

theorem check_node_eq_program (fuel : Nat) (tc : TypeChecker) (decls : List Node) :
    check_node (fuel + 1) tc (.program decls) =
      .error ⟨dummyLoc, "panic: Nested program node"⟩ := rfl

theorem check_call_args_eq_cons (fuel : Nat) (tc : TypeChecker) (name : String)
    (loc : Location) (i : Nat) (arg : Node) (args : List Node) (p : Ty) (ps : List Ty) :
    check_call_args (fuel + 1) tc name loc i (arg :: args) (p :: ps) =
      match check_node fuel tc arg with
      | .error e => .error e
      | .ok (argType, tc1) =>
          if !is_compatible argType p then
            .error ⟨loc, "Argument " ++ toString (i + 1) ++ " of " ++ name
              ++ " has incompatible type"⟩
          else
            check_call_args fuel tc1 name loc (i + 1) args ps := rfl

theorem check_call_args_eq_nil (fuel : Nat) (tc : TypeChecker) (name : String)
    (loc : Location) (i : Nat) (ps : List Ty) :
    check_call_args (fuel + 1) tc name loc i [] ps = .ok tc := rfl

theorem check_call_args_eq_exhausted (fuel : Nat) (tc : TypeChecker) (name : String)
    (loc : Location) (i : Nat) (args : List Node) :
    check_call_args (fuel + 1) tc name loc i args [] = .ok tc := by
  cases args <;> rfl

theorem check_nodes_eq_nil (fuel : Nat) (tc : TypeChecker) :
    check_nodes (fuel + 1) tc [] = .ok tc := rfl

theorem check_nodes_eq_cons (fuel : Nat) (tc : TypeChecker) (n : Node) (rest : List Node) :
    check_nodes (fuel + 1) tc (n :: rest) =
      match check_node fuel tc n with
      | .error e => .error e
      | .ok (_, tc1) => check_nodes fuel tc1 rest := rfl

theorem check_opt_eq_none (fuel : Nat) (tc : TypeChecker) :
    check_opt (fuel + 1) tc none = .ok tc := rfl

theorem check_opt_eq_some (fuel : Nat) (tc : TypeChecker) (n : Node) :
    check_opt (fuel + 1) tc (some n) =
      match check_node fuel tc n with
      | .error e => .error e
      | .ok (_, tc1) => .ok tc1 := rfl

/-! ### C3: comparison typing -/

/-- A checker whose single (global) scope binds `a : lt` and `b : rt`. -/
def tcAB (lt rt : Ty) : TypeChecker := ⟨⟨[[("a", lt), ("b", rt)]]⟩, none⟩

/-- The expression `a OP b` checked in `tcAB lt rt`. -/
def checkBinAB (op : BinaryOp) (lt rt : Ty) : Except TypeErr (Ty × TypeChecker) :=
  check_node 8 (tcAB lt rt) (.binaryExpr op (.identifier "a" dummyLoc)
    (.identifier "b" dummyLoc) dummyLoc)

/-- C3 counterexample: the claim says an equality expression is accepted
exactly when both operands are integers or both are pointers, with
pointee compatibility irrelevant.  The code instead routes `==` through
`is_compatible`: `a == b` with `a : int **` and `b : int *` — both
pointer types — is rejected, and `f() == f()` for a function `f`
returning `void` — neither integer nor pointer operands — is accepted. -/
theorem c3_equality_claim_counterexample :
    is_pointer_type (.pointer (.pointer .int)) = true ∧
    is_pointer_type (.pointer .int) = true ∧
    checkBinAB .equal (.pointer (.pointer .int)) (.pointer .int) =
      .error ⟨dummyLoc, "Invalid operands for comparison"⟩ ∧
    is_integer_type .void = false ∧
    is_pointer_type .void = false ∧
    check_node 8 (⟨⟨[[("f", .function .void [] false)]]⟩, none⟩ : TypeChecker)
      (.binaryExpr .equal (.functionCall "f" [] dummyLoc) (.functionCall "f" [] dummyLoc)
        dummyLoc) =
      .ok (.int, ⟨⟨[[("f", .function .void [] false)]]⟩, none⟩) :=
  ⟨rfl, rfl, rfl, rfl, rfl, rfl⟩

/-- C3 (amended): a relational (`< <= > >=`) expression over identifiers
typed `lt`, `rt` is accepted — with result type `Int` and untouched
checker state — exactly when both operand types are integer types or
both are pointer types; an equality (`== !=`) expression is instead
accepted exactly when the two operand types are structurally compatible
(`is_compatible`), so pointer equality does depend on pointee
compatibility. -/
theorem c3_comparison_typing (lt rt : Ty) :
    (checkBinAB .equal lt rt = .ok (.int, tcAB lt rt) ↔ is_compatible lt rt = true) ∧
    (checkBinAB .notEqual lt rt = .ok (.int, tcAB lt rt) ↔ is_compatible lt rt = true) ∧
    (checkBinAB .less lt rt = .ok (.int, tcAB lt rt) ↔
      ((is_integer_type lt && is_integer_type rt)
        || (is_pointer_type lt && is_pointer_type rt)) = true) ∧
    (checkBinAB .lessEqual lt rt = .ok (.int, tcAB lt rt) ↔
      ((is_integer_type lt && is_integer_type rt)
        || (is_pointer_type lt && is_pointer_type rt)) = true) ∧
    (checkBinAB .greater lt rt = .ok (.int, tcAB lt rt) ↔
      ((is_integer_type lt && is_integer_type rt)
        || (is_pointer_type lt && is_pointer_type rt)) = true) ∧
    (checkBinAB .greaterEqual lt rt = .ok (.int, tcAB lt rt) ↔
      ((is_integer_type lt && is_integer_type rt)
        || (is_pointer_type lt && is_pointer_type rt)) = true) := by
  have hck : ∀ op, checkBinAB op lt rt =
      match binary_op_result op lt rt dummyLoc with
      | .error e => .error e
      | .ok t => .ok (t, tcAB lt rt) := fun op => rfl
  have hmatch : ∀ (r : Except TypeErr Ty),
      ((match r with
        | Except.error e => Except.error e
        | Except.ok t => Except.ok (t, tcAB lt rt)) = Except.ok (Ty.int, tcAB lt rt))
        ↔ r = .ok .int := by
    intro r
    cases r with
    | error e => simp
    | ok t => simp
  refine ⟨?_, ?_, ?_, ?_, ?_, ?_⟩ <;> rw [hck, hmatch]
  · by_cases hc : is_compatible lt rt = true <;> simp [binary_op_result, hc]
  · by_cases hc : is_compatible lt rt = true <;> simp [binary_op_result, hc]
  all_goals
    by_cases hc : ((is_integer_type lt && is_integer_type rt)
      || (is_pointer_type lt && is_pointer_type rt)) = true <;>
    simp [binary_op_result, hc]

/-! ### C10: variadic calls -/

/-- C10: when the callee's type is variadic the arity test
(`!is_variadic && args.len() != param_types.len()`) is short-circuited
away, so no argument-count check happens at all: the call reduces
directly to the compatibility loop over the first
`min(#arguments, #fixed parameters)` arguments; with zero arguments the
loop is empty and the call is accepted outright, and arguments beyond the
fixed parameters are not checked at all (the loop stops when the fixed
parameter list is exhausted, whatever the remaining arguments are). -/
theorem c10_variadic_no_arity_check (fuel : Nat) (tc : TypeChecker) (name : String) (ret : Ty)
    (ps : List Ty) (args : List Node) (loc : Location)
    (h : tc.symbol_table.lookup name = some (.function ret ps true)) :
    (check_node (fuel + 1) tc (.functionCall name args loc) =
      match check_call_args fuel tc name loc 0 args ps with
      | .error e => .error e
      | .ok tc2 => .ok (ret, tc2)) ∧
    (check_node (fuel + 2) tc (.functionCall name [] loc) = .ok (ret, tc)) ∧
    (∀ tc2 i extraArgs, check_call_args (fuel + 1) tc2 name loc i extraArgs [] = .ok tc2) := by
  refine ⟨?_, ?_, ?_⟩
  · rw [check_node_eq_fncall, h]
    simp
  · rw [show fuel + 2 = (fuel + 1) + 1 from rfl, check_node_eq_fncall, h]
    simp [check_call_args_eq_nil]
  · intro tc2 i extraArgs
    cases extraArgs with
    | nil => exact check_call_args_eq_nil fuel tc2 name loc i []
    | cons a as => exact check_call_args_eq_exhausted fuel tc2 name loc i (a :: as)

/-- Witness for `c10_variadic_no_arity_check`: a variadic `int f(...)`
called with one argument that is an undefined identifier — which would
fail checking anywhere else — is accepted with result `int`, and a
zero-argument call is accepted as well. -/
theorem c10_variadic_no_arity_check_witness :
    check_node 2 (⟨⟨[[("f", .function .int [] true)]]⟩, none⟩ : TypeChecker)
      (.functionCall "f" [.identifier "undefined" dummyLoc] dummyLoc) =
      .ok (.int, ⟨⟨[[("f", .function .int [] true)]]⟩, none⟩) ∧
    check_node 2 (⟨⟨[[("f", .function .int [] true)]]⟩, none⟩ : TypeChecker)
      (.functionCall "f" [] dummyLoc) =
      .ok (.int, ⟨⟨[[("f", .function .int [] true)]]⟩, none⟩) := by
  have h1 := c10_variadic_no_arity_check 1 (⟨⟨[[("f", .function .int [] true)]]⟩, none⟩ :
    TypeChecker) "f" .int [] [.identifier "undefined" dummyLoc] dummyLoc rfl
  have h0 := c10_variadic_no_arity_check 0 (⟨⟨[[("f", .function .int [] true)]]⟩, none⟩ :
    TypeChecker) "f" .int [] [] dummyLoc rfl
  exact ⟨h1.1.trans (by rfl), h0.2.1⟩

/-! ### C7: re-running the type checker

After a first successful run, the checker's symbol table holds every
top-level name in its global scope, and
`current_function_return_type` is restored to `none`.  A second run over
the same tree therefore starts from a state whose global scope is a
superset of the empty initial one.  The simulation argument below shows
that a run from any state related to the original one (same scope-stack
shape, the global scope extended conservatively) succeeds with the same
results, which settles idempotence. -/

/-- `g2` answers every lookup that `g1` answers, with the same type. -/
def scopeSub (g1 g2 : Scope) : Prop :=
  ∀ k t, scopeLookup g1 k = some t → scopeLookup g2 k = some t

/-- Two scope stacks that agree on everything except that the global
(outermost) scope of the second extends the first's conservatively. -/
def SimTab (st1 st2 : SymbolTable) : Prop :=
  ∃ pre g1 g2, st1.scopes = pre ++ [g1] ∧ st2.scopes = pre ++ [g2] ∧ scopeSub g1 g2

/-- Checker states related by `SimTab` with equal return-type registers. -/
def Sim (s1 s2 : TypeChecker) : Prop :=
  s1.current_function_return_type = s2.current_function_return_type ∧
  SimTab s1.symbol_table s2.symbol_table

theorem scopeSub_define {g1 g2 : Scope} (h : scopeSub g1 g2) (name : String) (t : Ty) :
    scopeSub (scopeDefine g1 name t) (scopeDefine g2 name t) := by
  intro k u
  simp only [scopeDefine, scopeLookup]
  by_cases hk : name = k
  · simp [hk]
  · simp only [hk, if_false]
    exact h k u

theorem simTab_length {st1 st2 : SymbolTable} (h : SimTab st1 st2) :
    st1.scopes.length = st2.scopes.length ∧ 1 ≤ st1.scopes.length := by
  obtain ⟨pre, g1, g2, h1, h2, _⟩ := h
  constructor
  · rw [h1, h2]; simp
  · rw [h1]; simp

theorem lookupScopes_sub {pre : List Scope} {g1 g2 : Scope} (hsub : scopeSub g1 g2)
    {name : String} {t : Ty}
    (h : lookupScopes (pre ++ [g1]) name = some t) :
    lookupScopes (pre ++ [g2]) name = some t := by
  induction pre with
  | nil =>
      simp only [List.nil_append, lookupScopes] at h ⊢
      cases hg : scopeLookup g1 name with
      | none => rw [hg] at h; simp at h
      | some u =>
          rw [hg] at h
          simp only [lookupScopes] at h
          cases h
          rw [hsub name t hg]
  | cons s rest ih =>
      simp only [List.cons_append, lookupScopes] at h ⊢
      cases hs : scopeLookup s name with
      | none => rw [hs] at h; exact ih h
      | some u => rw [hs] at h; exact h

theorem sim_lookup {s1 s2 : TypeChecker} (h : Sim s1 s2) {name : String} {t : Ty}
    (hl : s1.symbol_table.lookup name = some t) :
    s2.symbol_table.lookup name = some t := by
  obtain ⟨-, pre, g1, g2, h1, h2, hsub⟩ := h
  unfold SymbolTable.lookup at hl ⊢
  rw [h1] at hl
  rw [h2]
  exact lookupScopes_sub hsub hl

theorem simTab_enter {st1 st2 : SymbolTable} (h : SimTab st1 st2) :
    SimTab st1.enter_scope st2.enter_scope := by
  obtain ⟨pre, g1, g2, h1, h2, hsub⟩ := h
  exact ⟨[] :: pre, g1, g2, by simp [SymbolTable.enter_scope, h1],
    by simp [SymbolTable.enter_scope, h2], hsub⟩

theorem simTab_exit {st1 st2 : SymbolTable} (h : SimTab st1 st2)
    (hlen : 2 ≤ st1.scopes.length) :
    SimTab st1.exit_scope st2.exit_scope := by
  obtain ⟨pre, g1, g2, h1, h2, hsub⟩ := h
  cases pre with
  | nil => rw [h1] at hlen; simp at hlen
  | cons p rest =>
      refine ⟨rest, g1, g2, ?_, ?_, hsub⟩
      · simp [SymbolTable.exit_scope, h1]
      · simp [SymbolTable.exit_scope, h2]

theorem simTab_define {st1 st2 : SymbolTable} (h : SimTab st1 st2) (name : String) (t : Ty) :
    SimTab (st1.define name t) (st2.define name t) := by
  obtain ⟨pre, g1, g2, h1, h2, hsub⟩ := h
  cases pre with
  | nil =>
      refine ⟨[], scopeDefine g1 name t, scopeDefine g2 name t, ?_, ?_,
        scopeSub_define hsub name t⟩
      · simp only [List.nil_append] at h1
        simp [SymbolTable.define, h1]
      · simp only [List.nil_append] at h2
        simp [SymbolTable.define, h2]
  | cons p rest =>
      refine ⟨scopeDefine p name t :: rest, g1, g2, ?_, ?_, hsub⟩
      · simp only [List.cons_append] at h1
        simp [SymbolTable.define, h1]
      · simp only [List.cons_append] at h2
        simp [SymbolTable.define, h2]

theorem simTab_define_params {st1 st2 : SymbolTable} (h : SimTab st1 st2)
    (params : List (String × Ty)) :
    SimTab (define_params st1 params) (define_params st2 params) := by
  induction params generalizing st1 st2 with
  | nil => exact h
  | cons p rest ih => exact ih (simTab_define h p.1 p.2)

theorem length_define (st : SymbolTable) (name : String) (t : Ty) :
    (st.define name t).scopes.length = st.scopes.length := by
  obtain ⟨scopes⟩ := st
  cases scopes <;> rfl

theorem length_define_params (st : SymbolTable) (params : List (String × Ty)) :
    (define_params st params).scopes.length = st.scopes.length := by
  induction params generalizing st with
  | nil => rfl
  | cons p rest ih => rw [define_params, ih, length_define]

theorem length_enter (st : SymbolTable) :
    st.enter_scope.scopes.length = st.scopes.length + 1 := rfl

theorem length_exit (st : SymbolTable) :
    st.exit_scope.scopes.length = st.scopes.length - 1 := by
  obtain ⟨scopes⟩ := st
  cases scopes <;> simp [SymbolTable.exit_scope]

theorem sim_enter {s1 s2 : TypeChecker} (h : Sim s1 s2) :
    Sim { s1 with symbol_table := s1.symbol_table.enter_scope }
      { s2 with symbol_table := s2.symbol_table.enter_scope } :=
  ⟨h.1, simTab_enter h.2⟩

theorem sim_exit {s1 s2 : TypeChecker} (h : Sim s1 s2)
    (hlen : 2 ≤ s1.symbol_table.scopes.length) :
    Sim { s1 with symbol_table := s1.symbol_table.exit_scope }
      { s2 with symbol_table := s2.symbol_table.exit_scope } :=
  ⟨h.1, simTab_exit h.2 hlen⟩

theorem sim_define {s1 s2 : TypeChecker} (h : Sim s1 s2) (name : String) (t : Ty) :
    Sim { s1 with symbol_table := s1.symbol_table.define name t }
      { s2 with symbol_table := s2.symbol_table.define name t } :=
  ⟨h.1, simTab_define h.2 name t⟩

theorem sim_set_crt {s1 s2 : TypeChecker} (h : Sim s1 s2) (c : Option Ty) :
    Sim { s1 with current_function_return_type := c }
      { s2 with current_function_return_type := c } :=
  ⟨rfl, h.2⟩

theorem sim_define_params {s1 s2 : TypeChecker} (h : Sim s1 s2) (params : List (String × Ty)) :
    Sim { s1 with symbol_table := define_params s1.symbol_table params }
      { s2 with symbol_table := define_params s2.symbol_table params } :=
  ⟨h.1, simTab_define_params h.2 params⟩

theorem check_node_eq_fuel0 (tc : TypeChecker) (n : Node) :
    check_node 0 tc n = .error ⟨dummyLoc, "fuel"⟩ := rfl

theorem check_call_args_eq_fuel0 (tc : TypeChecker) (name : String) (loc : Location) (i : Nat)
    (args : List Node) (ps : List Ty) :
    check_call_args 0 tc name loc i args ps = .error ⟨dummyLoc, "fuel"⟩ := rfl

theorem check_nodes_eq_fuel0 (tc : TypeChecker) (ns : List Node) :
    check_nodes 0 tc ns = .error ⟨dummyLoc, "fuel"⟩ := rfl

theorem check_opt_eq_fuel0 (tc : TypeChecker) (o : Option Node) :
    check_opt 0 tc o = .error ⟨dummyLoc, "fuel"⟩ := rfl

/-- The lockstep simulation: a checker run that succeeds from `s1` also
succeeds — with the same fuel, the same computed type, and a related
final state — from any `Sim`-related `s2`; moreover a successful run
preserves the scope-stack depth and the return-type register. -/
theorem check_sim : ∀ fuel : Nat,
    (∀ n : Node, ∀ s1 s2 t s1', Sim s1 s2 → check_node fuel s1 n = .ok (t, s1') →
      (∃ s2', check_node fuel s2 n = .ok (t, s2') ∧ Sim s1' s2') ∧
        s1'.symbol_table.scopes.length = s1.symbol_table.scopes.length ∧
        s1'.current_function_return_type = s1.current_function_return_type) ∧
    (∀ name loc i args ps, ∀ s1 s2 s1', Sim s1 s2 →
      check_call_args fuel s1 name loc i args ps = .ok s1' →
      (∃ s2', check_call_args fuel s2 name loc i args ps = .ok s2' ∧ Sim s1' s2') ∧
        s1'.symbol_table.scopes.length = s1.symbol_table.scopes.length ∧
        s1'.current_function_return_type = s1.current_function_return_type) ∧
    (∀ ns : List Node, ∀ s1 s2 s1', Sim s1 s2 → check_nodes fuel s1 ns = .ok s1' →
      (∃ s2', check_nodes fuel s2 ns = .ok s2' ∧ Sim s1' s2') ∧
        s1'.symbol_table.scopes.length = s1.symbol_table.scopes.length ∧
        s1'.current_function_return_type = s1.current_function_return_type) ∧
    (∀ o : Option Node, ∀ s1 s2 s1', Sim s1 s2 → check_opt fuel s1 o = .ok s1' →
      (∃ s2', check_opt fuel s2 o = .ok s2' ∧ Sim s1' s2') ∧
        s1'.symbol_table.scopes.length = s1.symbol_table.scopes.length ∧
        s1'.current_function_return_type = s1.current_function_return_type) := by
  intro fuel
  induction fuel with
  | zero =>
      refine ⟨?_, ?_, ?_, ?_⟩
      · intro n s1 s2 t s1' _ hok
        rw [check_node_eq_fuel0] at hok
        exact absurd hok (by simp)
      · intro name loc i args ps s1 s2 s1' _ hok
        rw [check_call_args_eq_fuel0] at hok
        exact absurd hok (by simp)
      · intro ns s1 s2 s1' _ hok
        rw [check_nodes_eq_fuel0] at hok
        exact absurd hok (by simp)
      · intro o s1 s2 s1' _ hok
        rw [check_opt_eq_fuel0] at hok
        exact absurd hok (by simp)
  | succ f ih =>
      obtain ⟨ihn, iha, ihs, iho⟩ := ih
      refine ⟨?_, ?_, ?_, ?_⟩
      · intro n
        cases n with
        | intLiteral v loc =>
            intro s1 s2 t s1' hsim hok
            rw [check_node_eq_int] at hok
            simp only [Except.ok.injEq, Prod.mk.injEq] at hok
            obtain ⟨ht, hs⟩ := hok
            subst ht; subst hs
            exact ⟨⟨s2, by rw [check_node_eq_int], hsim⟩, rfl, rfl⟩
        | charLiteral v loc =>
            intro s1 s2 t s1' hsim hok
            rw [check_node_eq_char] at hok
            simp only [Except.ok.injEq, Prod.mk.injEq] at hok
            obtain ⟨ht, hs⟩ := hok
            subst ht; subst hs
            exact ⟨⟨s2, by rw [check_node_eq_char], hsim⟩, rfl, rfl⟩
        | stringLiteral v loc =>
            intro s1 s2 t s1' hsim hok
            rw [check_node_eq_string] at hok
            simp only [Except.ok.injEq, Prod.mk.injEq] at hok
            obtain ⟨ht, hs⟩ := hok
            subst ht; subst hs
            exact ⟨⟨s2, by rw [check_node_eq_string], hsim⟩, rfl, rfl⟩
        | identifier name loc =>
            intro s1 s2 t s1' hsim hok
            rw [check_node_eq_ident] at hok
            split at hok
            · rename_i u heq
              simp only [Except.ok.injEq, Prod.mk.injEq] at hok
              obtain ⟨ht, hs⟩ := hok
              subst ht; subst hs
              refine ⟨⟨s2, ?_, hsim⟩, rfl, rfl⟩
              rw [check_node_eq_ident, sim_lookup hsim heq]
            · exact absurd hok (by simp)
        | binaryExpr op l r loc =>
            intro s1 s2 t s1' hsim hok
            rw [check_node_eq_binary] at hok
            split at hok
            · exact absurd hok (by simp)
            · rename_i lt tc1 heq1
              split at hok
              · exact absurd hok (by simp)
              · rename_i rt tc2 heq2
                split at hok
                · exact absurd hok (by simp)
                · rename_i t0 heq3
                  simp only [Except.ok.injEq, Prod.mk.injEq] at hok
                  obtain ⟨ht, hs⟩ := hok
                  subst ht; subst hs
                  obtain ⟨⟨s2a, h1, hsimA⟩, hlen1, hcrt1⟩ := ihn l s1 s2 lt tc1 hsim heq1
                  obtain ⟨⟨s2b, h2, hsimB⟩, hlen2, hcrt2⟩ := ihn r tc1 s2a rt tc2 hsimA heq2
                  refine ⟨⟨s2b, ?_, hsimB⟩, ?_, ?_⟩
                  · rw [check_node_eq_binary]
                    simp only [h1, h2, heq3]
                  · rw [hlen2, hlen1]
                  · rw [hcrt2, hcrt1]
        | unaryExpr op e loc =>
            intro s1 s2 t s1' hsim hok
            rw [check_node_eq_unary] at hok
            split at hok
            · exact absurd hok (by simp)
            · rename_i et tc1 heq1
              split at hok
              · exact absurd hok (by simp)
              · rename_i t0 heq2
                simp only [Except.ok.injEq, Prod.mk.injEq] at hok
                obtain ⟨ht, hs⟩ := hok
                subst ht; subst hs
                obtain ⟨⟨s2a, h1, hsimA⟩, hlen1, hcrt1⟩ := ihn e s1 s2 et tc1 hsim heq1
                refine ⟨⟨s2a, ?_, hsimA⟩, hlen1, hcrt1⟩
                rw [check_node_eq_unary]
                simp only [h1, heq2]
        | functionCall name args loc =>
            intro s1 s2 t s1' hsim hok
            rw [check_node_eq_fncall] at hok
            split at hok
            · rename_i returnType paramTypes isVariadic heqL
              split at hok
              · exact absurd hok (by simp)
              · rename_i hcond
                split at hok
                · exact absurd hok (by simp)
                · rename_i tcA heqA
                  simp only [Except.ok.injEq, Prod.mk.injEq] at hok
                  obtain ⟨ht, hs⟩ := hok
                  subst ht; subst hs
                  obtain ⟨⟨s2a, hA, hsimA⟩, hlenA, hcrtA⟩ :=
                    iha name loc 0 args paramTypes s1 s2 tcA hsim heqA
                  refine ⟨⟨s2a, ?_, hsimA⟩, hlenA, hcrtA⟩
                  rw [check_node_eq_fncall, sim_lookup hsim heqL]
                  simp [hcond, hA]
                  intro hv
                  rw [hv] at hcond
                  simpa using hcond
            · exact absurd hok (by simp)
            · exact absurd hok (by simp)
        | expressionStmt e =>
            intro s1 s2 t s1' hsim hok
            rw [check_node_eq_exprstmt] at hok
            split at hok
            · exact absurd hok (by simp)
            · rename_i u tc1 heq1
              simp only [Except.ok.injEq, Prod.mk.injEq] at hok
              obtain ⟨ht, hs⟩ := hok
              subst ht; subst hs
              obtain ⟨⟨s2a, h1, hsimA⟩, hlen1, hcrt1⟩ := ihn e s1 s2 u tc1 hsim heq1
              refine ⟨⟨s2a, ?_, hsimA⟩, hlen1, hcrt1⟩
              rw [check_node_eq_exprstmt]
              simp [h1]
        | returnStmt value loc =>
            intro s1 s2 t s1' hsim hok
            rw [check_node_eq_return] at hok
            split at hok
            · exact absurd hok (by simp)
            · rename_i crt0 heqC
              have hc2 : s2.current_function_return_type = some crt0 := hsim.1 ▸ heqC
              split at hok
              · rename_i expr
                split at hok
                · exact absurd hok (by simp)
                · rename_i et tc1 heq1
                  split at hok
                  · rename_i hcompat
                    simp only [Except.ok.injEq, Prod.mk.injEq] at hok
                    obtain ⟨ht, hs⟩ := hok
                    subst ht; subst hs
                    obtain ⟨⟨s2a, h1, hsimA⟩, hlen1, hcrt1⟩ := ihn expr s1 s2 et tc1 hsim heq1
                    refine ⟨⟨s2a, ?_, hsimA⟩, hlen1, hcrt1⟩
                    rw [check_node_eq_return, hc2]
                    simp [h1, hcompat]
                  · exact absurd hok (by simp)
              · split at hok
                · simp only [Except.ok.injEq, Prod.mk.injEq] at hok
                  obtain ⟨ht, hs⟩ := hok
                  subst ht; subst hs
                  refine ⟨⟨s2, ?_, hsim⟩, rfl, rfl⟩
                  rw [check_node_eq_return, hc2]
                · exact absurd hok (by simp)
        | ifStmt condition thenBranch elseBranch loc =>
            intro s1 s2 t s1' hsim hok
            rw [check_node_eq_if] at hok
            split at hok
            · exact absurd hok (by simp)
            · rename_i u1 tc1 heq1
              split at hok
              · exact absurd hok (by simp)
              · rename_i u2 tc2 heq2
                obtain ⟨⟨s2a, h1, hsimA⟩, hlen1, hcrt1⟩ := ihn condition s1 s2 u1 tc1 hsim heq1
                obtain ⟨⟨s2b, h2, hsimB⟩, hlen2, hcrt2⟩ :=
                  ihn thenBranch _ _ u2 tc2 (sim_enter hsimA) heq2
                have hlentc2 : 2 ≤ tc2.symbol_table.scopes.length := by
                  rw [hlen2]
                  have := (simTab_length hsimA.2).2
                  simp only [length_enter]
                  omega
                split at hok
                · simp only [Except.ok.injEq, Prod.mk.injEq] at hok
                  obtain ⟨ht, hs⟩ := hok
                  subst ht; subst hs
                  refine ⟨⟨_, ?_, sim_exit hsimB hlentc2⟩, ?_, ?_⟩
                  · rw [check_node_eq_if]
                    simp [h1, h2]
                  · simp only [length_exit, hlen2, length_enter, hlen1]
                    omega
                  · rw [hcrt2, hcrt1]
                · rename_i elseB
                  simp only at hok
                  split at hok
                  · exact absurd hok (by simp)
                  · rename_i u3 tc4 heq3
                    simp only [Except.ok.injEq, Prod.mk.injEq] at hok
                    obtain ⟨ht, hs⟩ := hok
                    subst ht; subst hs
                    obtain ⟨⟨s2c, h3, hsimC⟩, hlen3, hcrt3⟩ :=
                      ihn elseB _ _ u3 tc4 (sim_enter (sim_exit hsimB hlentc2)) heq3
                    have hlentc4 : 2 ≤ tc4.symbol_table.scopes.length := by
                      rw [hlen3]
                      simp only [length_enter, length_exit]
                      omega
                    refine ⟨⟨_, ?_, sim_exit hsimC hlentc4⟩, ?_, ?_⟩
                    · rw [check_node_eq_if]
                      simp [h1, h2, h3]
                    · simp only [length_exit, hlen3, length_enter, length_exit, hlen2,
                        length_enter, hlen1]
                      omega
                    · simp only [hcrt3, hcrt2, hcrt1]
        | whileStmt condition body loc =>
            intro s1 s2 t s1' hsim hok
            rw [check_node_eq_while] at hok
            split at hok
            · exact absurd hok (by simp)
            · rename_i u1 tc1 heq1
              split at hok
              · exact absurd hok (by simp)
              · rename_i u2 tc2 heq2
                simp only [Except.ok.injEq, Prod.mk.injEq] at hok
                obtain ⟨ht, hs⟩ := hok
                subst ht; subst hs
                obtain ⟨⟨s2a, h1, hsimA⟩, hlen1, hcrt1⟩ := ihn condition s1 s2 u1 tc1 hsim heq1
                obtain ⟨⟨s2b, h2, hsimB⟩, hlen2, hcrt2⟩ :=
                  ihn body _ _ u2 tc2 (sim_enter hsimA) heq2
                have hlentc2 : 2 ≤ tc2.symbol_table.scopes.length := by
                  rw [hlen2]
                  have := (simTab_length hsimA.2).2
                  simp only [length_enter]
                  omega
                refine ⟨⟨_, ?_, sim_exit hsimB hlentc2⟩, ?_, ?_⟩
                · rw [check_node_eq_while]
                  simp [h1, h2]
                · simp only [length_exit, hlen2, length_enter, hlen1]
                  omega
                · rw [hcrt2, hcrt1]
        | forStmt init condition increment body loc =>
            intro s1 s2 t s1' hsim hok
            rw [check_node_eq_for] at hok
            split at hok
            · exact absurd hok (by simp)
            · rename_i tc1 heq1
              split at hok
              · exact absurd hok (by simp)
              · rename_i tc2 heq2
                split at hok
                · exact absurd hok (by simp)
                · rename_i tc3 heq3
                  split at hok
                  · exact absurd hok (by simp)
                  · rename_i u4 tc4 heq4
                    simp only [Except.ok.injEq, Prod.mk.injEq] at hok
                    obtain ⟨ht, hs⟩ := hok
                    subst ht; subst hs
                    obtain ⟨⟨s2a, h1, hsimA⟩, hlen1, hcrt1⟩ :=
                      iho init _ _ tc1 (sim_enter hsim) heq1
                    obtain ⟨⟨s2b, h2, hsimB⟩, hlen2, hcrt2⟩ :=
                      iho condition tc1 s2a tc2 hsimA heq2
                    obtain ⟨⟨s2c, h3, hsimC⟩, hlen3, hcrt3⟩ :=
                      iho increment tc2 s2b tc3 hsimB heq3
                    obtain ⟨⟨s2d, h4, hsimD⟩, hlen4, hcrt4⟩ :=
                      ihn body tc3 s2c u4 tc4 hsimC heq4
                    have hlentc4 : 2 ≤ tc4.symbol_table.scopes.length := by
                      rw [hlen4, hlen3, hlen2, hlen1]
                      have := (simTab_length hsim.2).2
                      simp only [length_enter]
                      omega
                    refine ⟨⟨_, ?_, sim_exit hsimD hlentc4⟩, ?_, ?_⟩
                    · rw [check_node_eq_for]
                      simp [h1, h2, h3, h4]
                    · simp only [length_exit, hlen4, hlen3, hlen2, hlen1, length_enter]
                      omega
                    · simp only [hcrt4, hcrt3, hcrt2, hcrt1]
        | blockStmt stmts loc =>
            intro s1 s2 t s1' hsim hok
            rw [check_node_eq_block] at hok
            split at hok
            · exact absurd hok (by simp)
            · rename_i tc1 heq1
              simp only [Except.ok.injEq, Prod.mk.injEq] at hok
              obtain ⟨ht, hs⟩ := hok
              subst ht; subst hs
              obtain ⟨⟨s2a, h1, hsimA⟩, hlen1, hcrt1⟩ :=
                ihs stmts _ _ tc1 (sim_enter hsim) heq1
              have hlentc1 : 2 ≤ tc1.symbol_table.scopes.length := by
                rw [hlen1]
                have := (simTab_length hsim.2).2
                simp only [length_enter]
                omega
              refine ⟨⟨_, ?_, sim_exit hsimA hlentc1⟩, ?_, ?_⟩
              · rw [check_node_eq_block]
                simp [h1]
              · simp only [length_exit, hlen1, length_enter]
                omega
              · exact hcrt1
        | varDecl name type_ initializer loc =>
            intro s1 s2 t s1' hsim hok
            rw [check_node_eq_vardecl] at hok
            split at hok
            · rename_i init
              split at hok
              · exact absurd hok (by simp)
              · rename_i initType tc1 heq1
                split at hok
                · exact absurd hok (by simp)
                · rename_i hcompat
                  simp only [Except.ok.injEq, Prod.mk.injEq] at hok
                  obtain ⟨ht, hs⟩ := hok
                  subst ht; subst hs
                  obtain ⟨⟨s2a, h1, hsimA⟩, hlen1, hcrt1⟩ := ihn init s1 s2 initType tc1
                    hsim heq1
                  refine ⟨⟨_, ?_, sim_define hsimA name type_⟩, ?_, ?_⟩
                  · rw [check_node_eq_vardecl]
                    simp [h1, hcompat]
                  · simp only [length_define, hlen1]
                  · exact hcrt1
            · simp only [Except.ok.injEq, Prod.mk.injEq] at hok
              obtain ⟨ht, hs⟩ := hok
              subst ht; subst hs
              refine ⟨⟨_, ?_, sim_define hsim name type_⟩, ?_, rfl⟩
              · rw [check_node_eq_vardecl]
              · simp only [length_define]
        | functionDecl name returnType params body loc =>
            intro s1 s2 t s1' hsim hok
            rw [check_node_eq_fndecl] at hok
            simp only at hok
            split at hok
            · simp only [Except.ok.injEq, Prod.mk.injEq] at hok
              obtain ⟨ht, hs⟩ := hok
              subst ht; subst hs
              refine ⟨⟨_, ?_, sim_define hsim name _⟩, ?_, rfl⟩
              · rw [check_node_eq_fndecl]
              · simp only [length_define]
            · rename_i bodyNode
              split at hok
              · exact absurd hok (by simp)
              · rename_i u5 tc5 heq5
                simp only [Except.ok.injEq, Prod.mk.injEq] at hok
                obtain ⟨ht, hs⟩ := hok
                subst ht; subst hs
                have hsim4 : Sim
                    { s1 with
                      symbol_table := define_params
                        (s1.symbol_table.define name
                          (.function returnType (strip_variadic params).2
                            (strip_variadic params).1)).enter_scope params,
                      current_function_return_type := some returnType }
                    { s2 with
                      symbol_table := define_params
                        (s2.symbol_table.define name
                          (.function returnType (strip_variadic params).2
                            (strip_variadic params).1)).enter_scope params,
                      current_function_return_type := some returnType } :=
                  ⟨rfl, simTab_define_params (simTab_enter (simTab_define hsim.2 name _))
                    params⟩
                obtain ⟨⟨s2e, h5, hsimE⟩, hlen5, hcrt5⟩ := ihn bodyNode _ _ u5 tc5 hsim4 heq5
                have hlentc5 : 2 ≤ tc5.symbol_table.scopes.length := by
                  rw [hlen5]
                  simp only [length_define_params, length_enter, length_define]
                  have := (simTab_length hsim.2).2
                  omega
                refine ⟨⟨⟨s2e.symbol_table.exit_scope, s2.current_function_return_type⟩,
                  ?_, ?_⟩, ?_, ?_⟩
                · rw [check_node_eq_fndecl]
                  simp [h5]
                · exact ⟨hsim.1, simTab_exit hsimE.2 hlentc5⟩
                · simp only [length_exit, hlen5, length_define_params, length_enter,
                    length_define]
                  omega
                · rfl
        | program decls =>
            intro s1 s2 t s1' hsim hok
            rw [check_node_eq_program] at hok
            exact absurd hok (by simp)
      · intro name loc i args ps s1 s2 s1' hsim hok
        cases args with
        | nil =>
            rw [check_call_args_eq_nil] at hok
            simp only [Except.ok.injEq] at hok
            subst hok
            exact ⟨⟨s2, by rw [check_call_args_eq_nil], hsim⟩, rfl, rfl⟩
        | cons a as =>
            cases ps with
            | nil =>
                rw [check_call_args_eq_exhausted] at hok
                simp only [Except.ok.injEq] at hok
                subst hok
                exact ⟨⟨s2, by rw [check_call_args_eq_exhausted], hsim⟩, rfl, rfl⟩
            | cons p pss =>
                rw [check_call_args_eq_cons] at hok
                split at hok
                · exact absurd hok (by simp)
                · rename_i argType tc1 heq1
                  split at hok
                  · exact absurd hok (by simp)
                  · rename_i hcompat
                    obtain ⟨⟨s2a, h1, hsimA⟩, hlen1, hcrt1⟩ :=
                      ihn a s1 s2 argType tc1 hsim heq1
                    obtain ⟨⟨s2b, h2, hsimB⟩, hlen2, hcrt2⟩ :=
                      iha name loc (i + 1) as pss tc1 s2a s1' hsimA hok
                    refine ⟨⟨s2b, ?_, hsimB⟩, ?_, ?_⟩
                    · rw [check_call_args_eq_cons]
                      simp [h1, hcompat]
                      exact h2
                    · rw [hlen2, hlen1]
                    · rw [hcrt2, hcrt1]
      · intro ns s1 s2 s1' hsim hok
        cases ns with
        | nil =>
            rw [check_nodes_eq_nil] at hok
            simp only [Except.ok.injEq] at hok
            subst hok
            exact ⟨⟨s2, by rw [check_nodes_eq_nil], hsim⟩, rfl, rfl⟩
        | cons n rest =>
            rw [check_nodes_eq_cons] at hok
            split at hok
            · exact absurd hok (by simp)
            · rename_i u tc1 heq1
              obtain ⟨⟨s2a, h1, hsimA⟩, hlen1, hcrt1⟩ := ihn n s1 s2 u tc1 hsim heq1
              obtain ⟨⟨s2b, h2, hsimB⟩, hlen2, hcrt2⟩ := ihs rest tc1 s2a s1' hsimA hok
              refine ⟨⟨s2b, ?_, hsimB⟩, ?_, ?_⟩
              · rw [check_nodes_eq_cons]
                simp [h1]
                exact h2
              · rw [hlen2, hlen1]
              · rw [hcrt2, hcrt1]
      · intro o s1 s2 s1' hsim hok
        cases o with
        | none =>
            rw [check_opt_eq_none] at hok
            simp only [Except.ok.injEq] at hok
            subst hok
            exact ⟨⟨s2, by rw [check_opt_eq_none], hsim⟩, rfl, rfl⟩
        | some n =>
            rw [check_opt_eq_some] at hok
            split at hok
            · exact absurd hok (by simp)
            · rename_i u tc1 heq1
              simp only [Except.ok.injEq] at hok
              subst hok
              obtain ⟨⟨s2a, h1, hsimA⟩, hlen1, hcrt1⟩ := ihn n s1 s2 u tc1 hsim heq1
              refine ⟨⟨s2a, ?_, hsimA⟩, hlen1, hcrt1⟩
              rw [check_opt_eq_some]
              simp [h1]

/-- `check_program` on a `Program` root is the declaration loop. -/
theorem check_program_eq (fuel : Nat) (tc : TypeChecker) (decls : List Node) :
    check_program fuel tc (.program decls) = check_nodes fuel tc decls := rfl

/-- C7: if the type checker accepts a program from its initial state,
running the same checker a second time over the same unmodified tree —
starting from the state the first run left behind — succeeds again (the
same `Ok(())` outcome), and leaves a state related to the first run's by
`Sim`: the first run's leftover global bindings and restored
return-type register do not change the outcome of the second run. -/
theorem c7_typechecker_rerun_ok (fuel : Nat) (decls : List Node) (s1 : TypeChecker)
    (h : check_program fuel TypeChecker.new (.program decls) = .ok s1) :
    ∃ s2, check_program fuel s1 (.program decls) = .ok s2 ∧ Sim s1 s2 := by
  rw [check_program_eq] at h ⊢
  have hrefl : Sim TypeChecker.new TypeChecker.new :=
    ⟨rfl, [], [], [], rfl, rfl, fun k t hk => by simp [scopeLookup] at hk⟩
  obtain ⟨-, hlen, hcrt⟩ := (check_sim fuel).2.2.1 decls _ _ s1 hrefl h
  have hlen1 : s1.symbol_table.scopes.length = 1 := by
    rw [hlen]; rfl
  obtain ⟨g, hgeq⟩ : ∃ g, s1.symbol_table.scopes = [g] := by
    cases hs : s1.symbol_table.scopes with
    | nil => rw [hs] at hlen1; simp at hlen1
    | cons g rest =>
        rw [hs] at hlen1
        simp at hlen1
        exact ⟨g, by rw [hlen1]⟩
  have hsim : Sim TypeChecker.new s1 :=
    ⟨hcrt.symm, [], [], g, rfl, by rw [hgeq]; rfl,
      fun k t hk => by simp [scopeLookup] at hk⟩
  obtain ⟨⟨s2, h2, hsim2⟩, -, -⟩ := (check_sim fuel).2.2.1 decls _ _ s1 hsim h
  exact ⟨s2, h2, hsim2⟩

/-- Witness for `c7_typechecker_rerun_ok`: the one-declaration program
`int x;` is accepted from the initial state, and re-running the checker
from the resulting state (global scope holding `x : int`) succeeds. -/
theorem c7_typechecker_rerun_ok_witness :
    ∃ s2, check_program 4 (⟨⟨[[("x", Ty.int)]]⟩, none⟩ : TypeChecker)
        (.program [.varDecl "x" .int none dummyLoc]) = .ok s2 ∧
      Sim (⟨⟨[[("x", Ty.int)]]⟩, none⟩ : TypeChecker) s2 :=
  c7_typechecker_rerun_ok 4 [.varDecl "x" .int none dummyLoc]
    (⟨⟨[[("x", Ty.int)]]⟩, none⟩ : TypeChecker) rfl

/-! ## Preprocessor (src/preprocessor.rs)

`Preprocessor::preprocess` walks the token vector with an index; the
embedding walks the remaining token list.  `process_include` performs
filesystem reads, so it is abstracted as a handler parameter that, given
the tokens from the directive identifier on, returns the tokens to
splice in and the remaining input; the claims below never exercise it. -/

/-- Preprocessor errors (`preprocessor_error`). -/
structure PPErr where
  loc : Location
  msg : String
  deriving Repr

/-- The include-handler abstraction of `process_include`. -/
def IncludeHandler : Type :=
  List Token → Except PPErr (List Token × List Token)

/-- `Preprocessor::preprocess` over the remaining tokens (fuel-indexed:
one fuel unit per loop iteration). -/
def preprocess (handle : IncludeHandler) : Nat → List Token → Except PPErr (List Token)
  | 0, _ => .error ⟨unknownLoc, "fuel"⟩
  | fuel + 1, tokens =>
    match tokens with
    | [] => .ok []
    | token :: rest =>
      if token.kind.beq .hash then
        match rest with
        | [] => .error ⟨token.location, "Unexpected end of file after #"⟩
        | directive :: rest2 =>
          match directive.kind with
          | .identifier name =>
              if name = "include" then
                match handle (directive :: rest2) with
                | .error e => .error e
                | .ok (included, rest3) =>
                    match preprocess handle fuel rest3 with
                    | .error e => .error e
                    | .ok out => .ok (included ++ out)
              else
                preprocess handle fuel rest2
          | _ => preprocess handle fuel rest2
      else
        match preprocess handle fuel rest with
        | .error e => .error e
        | .ok out => .ok (token :: out)

/-- An include handler that always fails (no filesystem); the claims
below never reach it. -/
def noFs : IncludeHandler := fun _ => .error ⟨unknownLoc, "no filesystem"⟩

/-- C4 counterexample: the claim says the entire body of an unrecognized
directive is dropped token-by-token, so none of its tokens reach the
output.  The code drops only the `#` and the directive identifier
(`i += 1` once), so for `# define FOO 1` the body tokens `FOO` and `1`
appear verbatim in the output. -/
theorem c4_directive_body_not_dropped :
    preprocess noFs 8
      [Token.new .hash dummyLoc, Token.new (.identifier "define") dummyLoc,
        Token.new (.identifier "FOO") dummyLoc, Token.new (.intLiteral 1) dummyLoc] =
      .ok [Token.new (.identifier "FOO") dummyLoc, Token.new (.intLiteral 1) dummyLoc] ∧
    Token.new (.identifier "FOO") dummyLoc ∈
      [Token.new (.identifier "FOO") dummyLoc, Token.new (.intLiteral 1) dummyLoc] :=
  ⟨rfl, List.mem_cons_self _ _⟩

/-- One-step unfolding of `preprocess` at positive fuel on a non-empty
token list. -/
theorem preprocess_eq_cons (handle : IncludeHandler) (fuel : Nat) (token : Token)
    (rest : List Token) :
    preprocess handle (fuel + 1) (token :: rest) =
      if token.kind.beq .hash then
        match rest with
        | [] => .error ⟨token.location, "Unexpected end of file after #"⟩
        | directive :: rest2 =>
          match directive.kind with
          | .identifier name =>
              if name = "include" then
                match handle (directive :: rest2) with
                | .error e => .error e
                | .ok (included, rest3) =>
                    match preprocess handle fuel rest3 with
                    | .error e => .error e
                    | .ok out => .ok (included ++ out)
              else
                preprocess handle fuel rest2
          | _ => preprocess handle fuel rest2
      else
        match preprocess handle fuel rest with
        | .error e => .error e
        | .ok out => .ok (token :: out) := rfl

/-- C4 (amended): for a `#` followed by an identifier the preprocessor
does not recognize (anything but `include`), exactly the `#` token and
the directive identifier are dropped; the directive body is **not**
skipped — processing resumes at the first body token, so the body passes
through (subject to normal processing).  Tokens before the directive are
copied verbatim, and the result does not depend on the include
handler. -/
theorem c4_unrecognized_directive_drops_two_tokens (handle : IncludeHandler) (fuel : Nat)
    (pre : List Token) (hashTk dTk : Token) (d : String) (body : List Token)
    (hpre : ∀ t ∈ pre, t.kind.beq .hash = false)
    (hhash : hashTk.kind = .hash)
    (hd : dTk.kind = .identifier d) (hinc : d ≠ "include") :
    preprocess handle (pre.length + 1 + fuel) (pre ++ hashTk :: dTk :: body) =
      (preprocess handle fuel body).map (pre ++ ·) := by
  induction pre with
  | nil =>
      have harith : ([] : List Token).length + 1 + fuel = fuel + 1 := by
        simp only [List.length_nil]
        omega
      rw [harith, List.nil_append, preprocess_eq_cons]
      cases hb : preprocess handle fuel body with
      | error e => simp [hhash, hd, hinc, hb, Except.map, TokenKind.beq]
      | ok out => simp [hhash, hd, hinc, hb, Except.map, TokenKind.beq]
  | cons t pre ih =>
      have harith : (t :: pre).length + 1 + fuel = (pre.length + 1 + fuel) + 1 := by
        simp only [List.length_cons]
        omega
      rw [harith, List.cons_append, preprocess_eq_cons]
      have ht := hpre t (List.mem_cons_self t pre)
      have ih2 := ih (fun u hu => hpre u (List.mem_cons_of_mem t hu))
      cases hb : preprocess handle fuel body with
      | error e => simp [ht, ih2, hb, Except.map]
      | ok out => simp [ht, ih2, hb, Except.map]

/-- Witness for `c4_unrecognized_directive_drops_two_tokens`: evaluate it
on `x # pragma y` — the `#` and `pragma` vanish, `x` and `y` remain. -/
theorem c4_unrecognized_directive_drops_two_tokens_witness :
    preprocess noFs 4
      [Token.new (.identifier "x") dummyLoc, Token.new .hash dummyLoc,
        Token.new (.identifier "pragma") dummyLoc, Token.new (.identifier "y") dummyLoc] =
      .ok [Token.new (.identifier "x") dummyLoc, Token.new (.identifier "y") dummyLoc] := by
  have h := c4_unrecognized_directive_drops_two_tokens noFs 2
    [Token.new (.identifier "x") dummyLoc] (Token.new .hash dummyLoc)
    (Token.new (.identifier "pragma") dummyLoc) "pragma"
    [Token.new (.identifier "y") dummyLoc]
    (by intro t ht; simp at ht; rw [ht]; rfl) rfl rfl (by decide)
  exact h.trans (by rfl)

/-! ## Lexer (src/lexer.rs)

The lexer state holds the current character (`current_char`) and the
remaining characters (the `Peekable<Chars>` iterator) as a list.
Character classification mirrors Rust's `char` methods on the ASCII
range the compiler works with: `is_digit(radix)` is modelled through the
`to_digit` table, `is_whitespace`/`is_alphabetic`/`is_alphanumeric`
through the standard Lean predicates.  Looping helpers carry fuel; one
unit is consumed per iteration, and the theorems supply enough. -/

/-- Lexical errors (`lexical_error`). -/
structure LexErr where
  loc : Location
  msg : String
  deriving Repr

/-- `lexer.rs::Lexer`. -/
structure Lexer where
  input : List Char
  filename : String
  line : Nat
  column : Nat
  current_char : Option Char
  deriving Repr

/-- `Lexer::new`: prime `current_char` with the first character. -/
def Lexer.new (input : List Char) (filename : String) : Lexer :=
  match input with
  | [] => ⟨[], filename, 1, 1, none⟩
  | c :: rest => ⟨rest, filename, 1, 1, some c⟩

/-- `Lexer::location`. -/
def Lexer.location (lx : Lexer) : Location :=
  ⟨lx.filename, lx.line, lx.column⟩

/-- `Lexer::advance`: a newline resets the column to 1 and bumps the
line; any other current character bumps the column; then the next input
character becomes current. -/
def advance (lx : Lexer) : Lexer :=
  match lx.current_char with
  | some c =>
      if c = '\n' then
        ⟨lx.input.tail, lx.filename, lx.line + 1, 1, lx.input.head?⟩
      else
        ⟨lx.input.tail, lx.filename, lx.line, lx.column + 1, lx.input.head?⟩
  | none => ⟨lx.input.tail, lx.filename, lx.line, lx.column, lx.input.head?⟩

/-- `Lexer::peek`. -/
def Lexer.peek (lx : Lexer) : Option Char :=
  lx.input.head?

/-- The character sequence still to be consumed (current character
followed by the iterator's remainder). -/
def Lexer.stream (lx : Lexer) : List Char :=
  match lx.current_char with
  | some c => c :: lx.input
  | none => lx.input

/-- `char::to_digit` restricted to radix ≤ 16 (the only radixes the
lexer uses): the value of a hexadecimal digit character. -/
def char_digit? (c : Char) : Option Nat :=
  if '0' ≤ c ∧ c ≤ '9' then some (c.toNat - '0'.toNat)
  else if 'a' ≤ c ∧ c ≤ 'f' then some (c.toNat - 'a'.toNat + 10)
  else if 'A' ≤ c ∧ c ≤ 'F' then some (c.toNat - 'A'.toNat + 10)
  else none

/-- `char::is_digit(radix)`: the character has a digit value below the
radix. -/
def is_digit (radix : Nat) (c : Char) : Bool :=
  match char_digit? c with
  | some d => d < radix
  | none => false

/-- The digit-collection loops of `Lexer::number` (`while let Some(c) =
self.current_char { if c.is_digit(r) { push; advance } else break }`),
parameterized by the digit class.  Fuel: one unit per collected
character; exhaustion stops collecting early (the theorems always supply
enough fuel). -/
def take_digits (isD : Char → Bool) : Nat → Lexer → List Char × Lexer
  | 0, lx => ([], lx)
  | fuel + 1, lx =>
      match lx.current_char with
      | none => ([], lx)
      | some c =>
          if isD c then
            let p := take_digits isD fuel (advance lx)
            (c :: p.1, p.2)
          else
            ([], lx)

/-- The digit fold of `i64::from_str_radix`: accumulate
`acc * radix + digit`, failing on a non-digit. -/
def parse_digits (radix : Nat) : List Char → Nat → Option Nat
  | [], acc => some acc
  | c :: cs, acc =>
      match char_digit? c with
      | some d => if d < radix then parse_digits radix cs (acc * radix + d) else none
      | none => none

/-- `i64::from_str_radix` on the inputs the lexer feeds it (strings of
digit characters, no sign): empty input or a non-digit fails, and a value
exceeding `i64::MAX = 2^63 - 1` fails (Rust detects the overflow during
the fold; for digit strings that is equivalent to this final test). -/
def from_str_radix (radix : Nat) (ds : List Char) : Option Int :=
  match ds with
  | [] => none
  | _ =>
      match parse_digits radix ds 0 with
      | none => none
      | some v => if v ≤ 2 ^ 63 - 1 then some ((v : Nat) : Int) else none

/-- The decimal tail of `Lexer::number` (the loop after the leading-zero
analysis): collect decimal digits after the already-collected prefix and
parse the concatenation in base 10. -/
def number_decimal (fuel : Nat) (pre : List Char) (lx : Lexer) (start_location : Location) :
    Except LexErr (Token × Lexer) :=
  let p := take_digits (is_digit 10) fuel lx
  match from_str_radix 10 (pre ++ p.1) with
  | some value => .ok (Token.new (.intLiteral value) start_location, p.2)
  | none => .error ⟨start_location, "Invalid integer literal"⟩

/-- `Lexer::number`: hexadecimal after `0x`/`0X`, octal after `0` and an
octal digit, decimal otherwise; values are parsed through
`from_str_radix`. -/
def number (fuel : Nat) (lx : Lexer) : Except LexErr (Token × Lexer) :=
  let start_location := lx.location
  if lx.current_char = some ('0' : Char) then
    let lx1 := advance lx
    match lx1.current_char with
    | some c =>
        if c = 'x' ∨ c = 'X' then
          let lx2 := advance lx1
          let p := take_digits (is_digit 16) fuel lx2
          match from_str_radix 16 p.1 with
          | some value => .ok (Token.new (.intLiteral value) start_location, p.2)
          | none => .error ⟨start_location, "Invalid hexadecimal literal"⟩
        else if is_digit 8 c then
          let p := take_digits (is_digit 8) fuel lx1
          match from_str_radix 8 ('0' :: p.1) with
          | some value => .ok (Token.new (.intLiteral value) start_location, p.2)
          | none => .error ⟨start_location, "Invalid octal literal"⟩
        else
          number_decimal fuel ['0'] lx1 start_location
    | none => number_decimal fuel ['0'] lx1 start_location
  else
    number_decimal fuel [] lx start_location

/-! ### C5: integer-literal round trip -/

/-- The canonical spelling of `n` in base `b` (most significant digit
first; `0` is spelled `"0"`). -/
def natToChars (b n : Nat) : List Char :=
  if n = 0 then ['0'] else (Nat.digits b n).reverse.map Nat.digitChar

/-- Decimal spelling. -/
def decSpelling (n : Nat) : List Char := natToChars 10 n

/-- Hexadecimal spelling with the `0x` prefix. -/
def hexSpelling (n : Nat) : List Char := '0' :: 'x' :: natToChars 16 n

/-- Octal spelling with the leading `0`. -/
def octSpelling (n : Nat) : List Char := '0' :: natToChars 8 n

theorem char_digit_digitChar : ∀ d : Nat, d < 16 → char_digit? (Nat.digitChar d) = some d := by
  decide

theorem is_digit_digitChar {b : Nat} (hb : b ≤ 16) {d : Nat} (hd : d < b) :
    is_digit b (Nat.digitChar d) = true := by
  rw [is_digit, char_digit_digitChar d (lt_of_lt_of_le hd hb)]
  simp [hd]

theorem stream_advance {lx : Lexer} {c : Char} (h : lx.current_char = some c) :
    (advance lx).stream = lx.input := by
  obtain ⟨input, f, line, col, cur⟩ := lx
  simp only at h
  subst h
  by_cases hc : c = '\n' <;> cases input <;> simp [advance, hc, Lexer.stream]

/-- Well-formedness of a lexer state: once `current_char` is exhausted
the iterator is empty.  `Lexer::new` establishes it and `advance`
preserves it. -/
def Lexer.wf (lx : Lexer) : Prop :=
  lx.current_char = none → lx.input = []

theorem wf_new (input : List Char) (f : String) : (Lexer.new input f).wf := by
  cases input <;> intro h <;> simp [Lexer.new] at h ⊢

theorem wf_advance (lx : Lexer) : (advance lx).wf := by
  obtain ⟨input, f, line, col, cur⟩ := lx
  intro h
  cases cur with
  | none => cases input <;> simp [advance] at h ⊢
  | some c =>
      by_cases hc : c = '\n' <;> cases input <;> simp [advance, hc] at h ⊢

theorem take_digits_spec (isD : Char → Bool) :
    ∀ (ds : List Char) (fuel : Nat) (lx : Lexer) (rest : List Char),
      ds.length < fuel →
      (∀ d ∈ ds, isD d = true) →
      lx.wf →
      lx.stream = ds ++ rest →
      (match rest with | [] => True | r :: _ => isD r = false) →
      ∃ lx2, take_digits isD fuel lx = (ds, lx2) ∧ lx2.stream = rest ∧ lx2.wf := by
  intro ds
  induction ds with
  | nil =>
      intro fuel lx rest hfuel _ hwf hstream hrest
      cases fuel with
      | zero => omega
      | succ f =>
          simp only [List.nil_append] at hstream
          cases rest with
          | nil =>
              have hc : lx.current_char = none := by
                rw [Lexer.stream] at hstream
                split at hstream
                · simp at hstream
                · assumption
              exact ⟨lx, by rw [take_digits, hc], hstream, hwf⟩
          | cons r rs =>
              refine ⟨lx, ?_, hstream, hwf⟩
              rw [take_digits]
              cases hcc : lx.current_char with
              | none => rfl
              | some c =>
                  have hcr : c = r := by
                    rw [Lexer.stream, hcc] at hstream
                    injection hstream
                  rw [hcr]
                  simp only [hrest]
                  rfl
  | cons d ds ih =>
      intro fuel lx rest hfuel hdig hwf hstream hrest
      cases fuel with
      | zero => omega
      | succ f =>
          have hc : lx.current_char = some d := by
            cases hcc : lx.current_char with
            | some c =>
                rw [Lexer.stream, hcc] at hstream
                have hcd : c = d := by injection hstream
                rw [hcd]
            | none =>
                exfalso
                have hin := hwf hcc
                rw [Lexer.stream, hcc, hin] at hstream
                simp at hstream
          have hin : lx.input = ds ++ rest := by
            rw [Lexer.stream, hc] at hstream
            simpa using hstream
          have hstream2 : (advance lx).stream = ds ++ rest := by
            rw [stream_advance hc, hin]
          obtain ⟨lx2, htd, hs2, hwf2⟩ := ih f (advance lx) rest (by simpa using hfuel)
            (fun u hu => hdig u (List.mem_cons_of_mem d hu)) (wf_advance lx) hstream2 hrest
          refine ⟨lx2, ?_, hs2, hwf2⟩
          rw [take_digits, hc]
          simp only [hdig d (List.mem_cons_self d ds), if_true, htd]

theorem parse_digits_map {b : Nat} (hb : b ≤ 16) :
    ∀ (L : List Nat), (∀ d ∈ L, d < b) → ∀ acc,
      parse_digits b (L.map Nat.digitChar) acc =
        some (L.foldl (fun a d => a * b + d) acc) := by
  intro L
  induction L with
  | nil => intro _ acc; rfl
  | cons d L ih =>
      intro hL acc
      have hd : d < b := hL d (List.mem_cons_self d L)
      rw [List.map_cons, parse_digits, char_digit_digitChar d (lt_of_lt_of_le hd hb)]
      simp only [hd, if_true]
      rw [ih (fun u hu => hL u (List.mem_cons_of_mem d hu))]
      rfl

theorem foldl_mul_add (b : Nat) :
    ∀ (L : List Nat) (acc : Nat),
      L.reverse.foldl (fun a d => a * b + d) acc = acc * b ^ L.length + Nat.ofDigits b L := by
  intro L
  induction L with
  | nil => intro acc; simp [Nat.ofDigits]
  | cons d L ih =>
      intro acc
      rw [List.reverse_cons, List.foldl_append, ih]
      simp only [List.foldl_cons, List.foldl_nil, List.length_cons, Nat.ofDigits_cons]
      ring

theorem natToChars_all_digits {b : Nat} (hb2 : 2 ≤ b) (hb16 : b ≤ 16) (n : Nat) :
    ∀ c ∈ natToChars b n, is_digit b c = true := by
  intro c hc
  rw [natToChars] at hc
  split at hc
  · simp at hc
    rw [hc]
    have h0 : is_digit b (Nat.digitChar 0) = true := is_digit_digitChar hb16 (by omega)
    exact h0
  · simp only [List.mem_map, List.mem_reverse] at hc
    obtain ⟨d, hdmem, hdc⟩ := hc
    rw [← hdc]
    exact is_digit_digitChar hb16 (Nat.digits_lt_base (by omega) hdmem)

theorem from_str_radix_parse {b : Nat} (hb2 : 2 ≤ b) (hb16 : b ≤ 16) (n : Nat) :
    parse_digits b (natToChars b n) 0 = some n := by
  by_cases hn : n = 0
  · subst hn
    rw [natToChars]
    simp only [if_true]
    have : parse_digits b ['0'] 0 = some 0 := by
      rw [show (['0'] : List Char) = List.map Nat.digitChar [0] from rfl]
      rw [parse_digits_map hb16 [0] (by intro d hd; simp at hd; omega) 0]
      simp
    simpa using this
  · rw [natToChars]
    simp only [hn, if_false]
    rw [parse_digits_map hb16 ((Nat.digits b n).reverse)
      (by intro d hd; exact Nat.digits_lt_base (by omega) (List.mem_reverse.mp hd)) 0]
    rw [foldl_mul_add b (Nat.digits b n) 0]
    simp [Nat.ofDigits_digits]

theorem natToChars_ne_nil (b n : Nat) : natToChars b n ≠ [] := by
  rw [natToChars]
  split
  · simp
  · rename_i hn
    simp only [ne_eq, List.map_eq_nil_iff, List.reverse_eq_nil_iff]
    exact Nat.digits_ne_nil_iff_ne_zero.mpr hn

theorem from_str_radix_cons (radix : Nat) (c : Char) (cs : List Char) :
    from_str_radix radix (c :: cs) =
      match parse_digits radix (c :: cs) 0 with
      | none => none
      | some v => if v ≤ 2 ^ 63 - 1 then some ((v : Nat) : Int) else none := rfl

theorem from_str_radix_natToChars {b : Nat} (hb2 : 2 ≤ b) (hb16 : b ≤ 16) (n : Nat) :
    from_str_radix b (natToChars b n) =
      if n ≤ 2 ^ 63 - 1 then some ((n : Nat) : Int) else none := by
  obtain ⟨c, cs, hcs⟩ := List.exists_cons_of_ne_nil (natToChars_ne_nil b n)
  rw [hcs, from_str_radix_cons, ← hcs, from_str_radix_parse hb2 hb16 n]

theorem from_str_radix_zero_cons {b : Nat} (hb2 : 2 ≤ b) (hb16 : b ≤ 16) (n : Nat) :
    from_str_radix b ('0' :: natToChars b n) =
      if n ≤ 2 ^ 63 - 1 then some ((n : Nat) : Int) else none := by
  rw [from_str_radix_cons]
  have hz : char_digit? '0' = some 0 := rfl
  rw [parse_digits, hz]
  simp only [show 0 < b by omega, if_true, Nat.zero_mul, Nat.zero_add]
  rw [from_str_radix_parse hb2 hb16 n]

/-- The head of the decimal spelling of a non-zero number is not `'0'`
(so the leading-zero analysis of `number` routes it to the decimal
path). -/
theorem decSpelling_head_ne_zero {n : Nat} (hn : n ≠ 0) :
    ∀ c cs, decSpelling n = c :: cs → c ≠ '0' := by
  intro c cs hspell
  have hne : Nat.digits 10 n ≠ [] := Nat.digits_ne_nil_iff_ne_zero.mpr hn
  rw [decSpelling, natToChars] at hspell
  simp only [hn, if_false] at hspell
  obtain ⟨d, M, hrev⟩ : ∃ d M, (Nat.digits 10 n).reverse = d :: M := by
    cases hr : (Nat.digits 10 n).reverse with
    | nil => exact absurd (List.reverse_eq_nil_iff.mp hr) hne
    | cons d M => exact ⟨d, M, rfl⟩
  rw [hrev] at hspell
  simp only [List.map_cons] at hspell
  have hcd : c = Nat.digitChar d := by
    injection hspell with h1 _
    exact h1.symm
  have hlastq : (Nat.digits 10 n).getLast? = some d := by
    rw [← List.head?_reverse, hrev]
    rfl
  have hd0 : d ≠ 0 := by
    have h2 := List.getLast?_eq_getLast (Nat.digits 10 n) hne
    rw [hlastq] at h2
    injection h2 with h3
    rw [h3]
    exact Nat.getLast_digit_ne_zero 10 hn
  have hdlt : d < 10 := by
    have hdm : d ∈ Nat.digits 10 n := by
      have : d ∈ (Nat.digits 10 n).reverse := by rw [hrev]; simp
      exact List.mem_reverse.mp this
    exact Nat.digits_lt_base (by omega) hdm
  rw [hcd]
  have hx : ∀ d : Fin 10, d.val ≠ 0 → Nat.digitChar d.val ≠ '0' := by decide
  exact hx ⟨d, hdlt⟩ hd0

theorem number_decimal_eval (fuel : Nat) (pre ds : List Char) (lx : Lexer) (sloc : Location)
    (hfuel : ds.length < fuel) (hdig : ∀ d ∈ ds, is_digit 10 d = true)
    (hwf : lx.wf) (hstream : lx.stream = ds) :
    ∃ lx2, number_decimal fuel pre lx sloc =
      (match from_str_radix 10 (pre ++ ds) with
       | some value => .ok (Token.new (.intLiteral value) sloc, lx2)
       | none => .error ⟨sloc, "Invalid integer literal"⟩) := by
  obtain ⟨lx2, htd, _, _⟩ := take_digits_spec (is_digit 10) ds fuel lx [] hfuel hdig hwf
    (by simpa using hstream) trivial
  refine ⟨lx2, ?_⟩
  simp only [number_decimal, htd]

theorem number_dec_eval (n : Nat) (f : String) (fuel : Nat)
    (hfuel : (decSpelling n).length < fuel) :
    ∃ lx2, number fuel (Lexer.new (decSpelling n) f) =
      (match from_str_radix 10 (natToChars 10 n) with
       | some value => .ok (Token.new (.intLiteral value) ⟨f, 1, 1⟩, lx2)
       | none => .error ⟨⟨f, 1, 1⟩, "Invalid integer literal"⟩) := by
  by_cases hn : n = 0
  · subst hn
    have hred : number fuel (Lexer.new (decSpelling 0) f) =
        number_decimal fuel ['0'] ⟨[], f, 1, 2, none⟩ ⟨f, 1, 1⟩ := rfl
    have h1 : 1 < fuel := by simpa [decSpelling, natToChars] using hfuel
    obtain ⟨lx2, h⟩ := number_decimal_eval fuel ['0'] [] ⟨[], f, 1, 2, none⟩ ⟨f, 1, 1⟩
      (by simp only [List.length_nil]; omega) (by simp) (fun _ => rfl) rfl
    exact ⟨lx2, by rw [hred, h]; rfl⟩
  · obtain ⟨c, cs, hcs⟩ := List.exists_cons_of_ne_nil (natToChars_ne_nil 10 n)
    have hc0 : c ≠ '0' := decSpelling_head_ne_zero hn c cs hcs
    have hlen : (c :: cs).length < fuel := by
      rw [← hcs]
      exact hfuel
    have hdig : ∀ d ∈ (c :: cs), is_digit 10 d = true := by
      rw [← hcs]
      exact natToChars_all_digits (by omega) (by omega) n
    have hnew : Lexer.new (c :: cs) f = ⟨cs, f, 1, 1, some c⟩ := rfl
    obtain ⟨lx2, h⟩ := number_decimal_eval fuel [] (c :: cs) ⟨cs, f, 1, 1, some c⟩ ⟨f, 1, 1⟩
      hlen hdig (fun h => Option.noConfusion h) rfl
    refine ⟨lx2, ?_⟩
    rw [show decSpelling n = c :: cs from hcs, hcs, hnew]
    rw [number]
    simp only [Lexer.location]
    rw [if_neg (by simp [hc0])]
    rw [h]
    simp

theorem number_hex_eval (n : Nat) (f : String) (fuel : Nat)
    (hfuel : (natToChars 16 n).length < fuel) :
    ∃ lx2, number fuel (Lexer.new (hexSpelling n) f) =
      (match from_str_radix 16 (natToChars 16 n) with
       | some value => .ok (Token.new (.intLiteral value) ⟨f, 1, 1⟩, lx2)
       | none => .error ⟨⟨f, 1, 1⟩, "Invalid hexadecimal literal"⟩) := by
  have step : number fuel (Lexer.new (hexSpelling n) f) =
      (match from_str_radix 16
          (take_digits (is_digit 16) fuel (advance (advance (Lexer.new (hexSpelling n) f)))).1 with
       | some value =>
           .ok (Token.new (.intLiteral value) ⟨f, 1, 1⟩,
             (take_digits (is_digit 16) fuel (advance (advance (Lexer.new (hexSpelling n) f)))).2)
       | none => .error ⟨⟨f, 1, 1⟩, "Invalid hexadecimal literal"⟩) := rfl
  have hcur : (advance (Lexer.new (hexSpelling n) f)).current_char = some 'x' := rfl
  have hs2 : (advance (advance (Lexer.new (hexSpelling n) f))).stream = natToChars 16 n ++ [] := by
    rw [List.append_nil, stream_advance hcur]
    rfl
  obtain ⟨lxf, htd, _, _⟩ := take_digits_spec (is_digit 16) (natToChars 16 n) fuel
    (advance (advance (Lexer.new (hexSpelling n) f))) [] hfuel
    (natToChars_all_digits (by omega) (by omega) n) (wf_advance _) hs2 trivial
  refine ⟨lxf, ?_⟩
  rw [step, htd]

theorem number_oct_eval (n : Nat) (f : String) (fuel : Nat)
    (hfuel : (natToChars 8 n).length < fuel) :
    ∃ lx2, number fuel (Lexer.new (octSpelling n) f) =
      (match from_str_radix 8 ('0' :: natToChars 8 n) with
       | some value => .ok (Token.new (.intLiteral value) ⟨f, 1, 1⟩, lx2)
       | none => .error ⟨⟨f, 1, 1⟩, "Invalid octal literal"⟩) := by
  obtain ⟨r0, rs, hrest⟩ := List.exists_cons_of_ne_nil (natToChars_ne_nil 8 n)
  have hr0 : is_digit 8 r0 = true := by
    have := natToChars_all_digits (by omega) (by omega) n (b := 8) r0
    rw [hrest] at this
    exact this (List.mem_cons_self r0 rs)
  have hr0x : ¬(r0 = 'x' ∨ r0 = 'X') := by
    rintro (h | h) <;> rw [h] at hr0 <;> exact absurd hr0 (by decide)
  rw [hrest] at hfuel
  rw [octSpelling, hrest]
  have hdig : ∀ d ∈ (r0 :: rs), is_digit 8 d = true := by
    rw [← hrest]
    exact natToChars_all_digits (by omega) (by omega) n
  have step : number fuel (Lexer.new ('0' :: r0 :: rs) f) =
      (if r0 = 'x' ∨ r0 = 'X' then
        (match from_str_radix 16
            (take_digits (is_digit 16) fuel (advance (⟨rs, f, 1, 2, some r0⟩ : Lexer))).1 with
         | some value =>
             .ok (Token.new (.intLiteral value) ⟨f, 1, 1⟩,
               (take_digits (is_digit 16) fuel (advance (⟨rs, f, 1, 2, some r0⟩ : Lexer))).2)
         | none => .error ⟨⟨f, 1, 1⟩, "Invalid hexadecimal literal"⟩)
      else if is_digit 8 r0 then
        (match from_str_radix 8
            ('0' :: (take_digits (is_digit 8) fuel (⟨rs, f, 1, 2, some r0⟩ : Lexer)).1) with
         | some value =>
             .ok (Token.new (.intLiteral value) ⟨f, 1, 1⟩,
               (take_digits (is_digit 8) fuel (⟨rs, f, 1, 2, some r0⟩ : Lexer)).2)
         | none => .error ⟨⟨f, 1, 1⟩, "Invalid octal literal"⟩)
      else number_decimal fuel ['0'] (⟨rs, f, 1, 2, some r0⟩ : Lexer) ⟨f, 1, 1⟩) := rfl
  obtain ⟨lxf, htd, _, _⟩ := take_digits_spec (is_digit 8) (r0 :: rs) fuel
    (⟨rs, f, 1, 2, some r0⟩ : Lexer) [] hfuel hdig (fun h => Option.noConfusion h)
    (by simp [Lexer.stream]) trivial
  refine ⟨lxf, ?_⟩
  rw [step, if_neg hr0x, if_pos hr0, htd]

/-- **C5.** Integer-literal round trip through `Lexer::number`: for any
natural number `n`, lexing its canonical decimal spelling, its `0x`-prefixed
hexadecimal spelling, or its `0`-prefixed octal spelling from a fresh lexer
yields an `IntLiteral` token carrying exactly the value `n` (stamped with
the start location) whenever `n ≤ 2^63 - 1`, and a lexical error
(`Invalid integer/hexadecimal/octal literal`) whenever `n` exceeds
`i64::MAX`. -/
theorem c5_integer_literal_roundtrip (n : Nat) (f : String) (fuel : Nat)
    (hfuel : (decSpelling n).length + (hexSpelling n).length + (octSpelling n).length < fuel) :
    (n ≤ 2 ^ 63 - 1 →
      (∃ lx, number fuel (Lexer.new (decSpelling n) f) =
        .ok (Token.new (.intLiteral (n : Int)) ⟨f, 1, 1⟩, lx)) ∧
      (∃ lx, number fuel (Lexer.new (hexSpelling n) f) =
        .ok (Token.new (.intLiteral (n : Int)) ⟨f, 1, 1⟩, lx)) ∧
      (∃ lx, number fuel (Lexer.new (octSpelling n) f) =
        .ok (Token.new (.intLiteral (n : Int)) ⟨f, 1, 1⟩, lx))) ∧
    (2 ^ 63 - 1 < n →
      number fuel (Lexer.new (decSpelling n) f) =
        .error ⟨⟨f, 1, 1⟩, "Invalid integer literal"⟩ ∧
      number fuel (Lexer.new (hexSpelling n) f) =
        .error ⟨⟨f, 1, 1⟩, "Invalid hexadecimal literal"⟩ ∧
      number fuel (Lexer.new (octSpelling n) f) =
        .error ⟨⟨f, 1, 1⟩, "Invalid octal literal"⟩) := by
  have hd : (decSpelling n).length < fuel := by omega
  have hh : (natToChars 16 n).length < fuel := by
    have : (hexSpelling n).length = (natToChars 16 n).length + 2 := by simp [hexSpelling]
    omega
  have ho : (natToChars 8 n).length < fuel := by
    have : (octSpelling n).length = (natToChars 8 n).length + 1 := by simp [octSpelling]
    omega
  obtain ⟨l1, h1⟩ := number_dec_eval n f fuel hd
  obtain ⟨l2, h2⟩ := number_hex_eval n f fuel hh
  obtain ⟨l3, h3⟩ := number_oct_eval n f fuel ho
  rw [from_str_radix_natToChars (by omega) (by omega) n] at h1
  rw [from_str_radix_natToChars (by omega) (by omega) n] at h2
  rw [from_str_radix_zero_cons (by omega) (by omega) n] at h3
  constructor
  · intro hle
    rw [if_pos hle] at h1 h2 h3
    exact ⟨⟨l1, h1.trans rfl⟩, ⟨l2, h2.trans rfl⟩, ⟨l3, h3.trans rfl⟩⟩
  · intro hgt
    rw [if_neg (by omega)] at h1 h2 h3
    exact ⟨h1.trans rfl, h2.trans rfl, h3.trans rfl⟩

theorem c5_integer_literal_roundtrip_witness :
    ∃ lx, number 32 (Lexer.new (decSpelling 7) "w") =
      .ok (Token.new (.intLiteral (7 : Int)) ⟨"w", 1, 1⟩, lx) := by
  have h10 : Nat.digits 10 7 = [7] := by
    rw [Nat.digits_def' (by norm_num : (1 : Nat) < 10) (by norm_num : (0 : Nat) < 7)]
    norm_num
  have h16 : Nat.digits 16 7 = [7] := by
    rw [Nat.digits_def' (by norm_num : (1 : Nat) < 16) (by norm_num : (0 : Nat) < 7)]
    norm_num
  have h8 : Nat.digits 8 7 = [7] := by
    rw [Nat.digits_def' (by norm_num : (1 : Nat) < 8) (by norm_num : (0 : Nat) < 7)]
    norm_num
  have hlen : (decSpelling 7).length + (hexSpelling 7).length + (octSpelling 7).length < 32 := by
    simp [decSpelling, hexSpelling, octSpelling, natToChars, h10, h16, h8]
  exact ((c5_integer_literal_roundtrip 7 "w" 32 hlen).1 (by norm_num)).1

/-! ### The remaining lexer: whitespace, comments, identifiers, literals,
`next_token` and `tokenize` (src/lexer.rs).  The looping helpers carry
fuel exactly as before; the recursive restart of `next_token` after a
comment is paid for from the same budget. -/

/-- `Lexer::skip_whitespace`. -/
def skip_whitespace : Nat → Lexer → Lexer
  | 0, lx => lx
  | fuel + 1, lx =>
      match lx.current_char with
      | some c => if c.isWhitespace then skip_whitespace fuel (advance lx) else lx
      | none => lx

/-- The line-comment loop of `Lexer::skip_comment` (entered after both
slashes have been consumed): advance until just past a newline or to the
end of input. -/
def skip_line_comment : Nat → Lexer → Lexer
  | 0, lx => lx
  | fuel + 1, lx =>
      match lx.current_char with
      | some c => if c = '\n' then advance lx else skip_line_comment fuel (advance lx)
      | none => lx

/-- The block-comment loop of `Lexer::skip_comment` (entered after `/*`,
with the location just after the opener recorded for the error): scan for
`*/`; running off the end of the input is an `Unterminated block comment`
error. -/
def skip_block_comment (sloc : Location) : Nat → Lexer → Except LexErr Lexer
  | 0, _ => .error ⟨sloc, "fuel"⟩
  | fuel + 1, lx =>
      match lx.current_char with
      | some c =>
          if c = '*' ∧ lx.peek = some '/' then .ok (advance (advance lx))
          else skip_block_comment sloc fuel (advance lx)
      | none => .error ⟨sloc, "Unterminated block comment"⟩

/-- `Lexer::skip_comment`. -/
def skip_comment (fuel : Nat) (lx : Lexer) : Except LexErr Lexer :=
  if lx.current_char = some '/' then
    match lx.peek with
    | some next =>
        if next = '/' then .ok (skip_line_comment fuel (advance (advance lx)))
        else if next = '*' then
          let lx2 := advance (advance lx)
          skip_block_comment lx2.location fuel lx2
        else .ok lx
    | none => .ok lx
  else .ok lx

/-- The collection loop of `Lexer::identifier`: alphanumeric characters
and underscores. -/
def take_ident_chars : Nat → Lexer → List Char × Lexer
  | 0, lx => ([], lx)
  | fuel + 1, lx =>
      match lx.current_char with
      | some c =>
          if c.isAlphanum ∨ c = '_' then
            let p := take_ident_chars fuel (advance lx)
            (c :: p.1, p.2)
          else ([], lx)
      | none => ([], lx)

/-- The `KEYWORDS` table (`lazy_static` in lexer.rs). -/
def KEYWORDS : List (String × TokenKind) :=
  [("auto", .autoKw), ("break", .breakKw), ("case", .caseKw), ("char", .charKw),
   ("const", .constKw), ("continue", .continueKw), ("default", .defaultKw),
   ("do", .doKw), ("double", .doubleKw), ("else", .elseKw), ("enum", .enumKw),
   ("extern", .externKw), ("float", .floatKw), ("for", .forKw), ("goto", .gotoKw),
   ("if", .ifKw), ("int", .intKw), ("long", .longKw), ("register", .registerKw),
   ("return", .returnKw), ("short", .shortKw), ("signed", .signedKw),
   ("sizeof", .sizeofKw), ("static", .staticKw), ("struct", .structKw),
   ("switch", .switchKw), ("typedef", .typedefKw), ("union", .unionKw),
   ("unsigned", .unsignedKw), ("void", .voidKw), ("volatile", .volatileKw),
   ("while", .whileKw)]

/-- `KEYWORDS.get(identifier)`. -/
def keyword_lookup (s : String) : Option TokenKind :=
  (KEYWORDS.find? (fun p => p.1 == s)).map (fun p => p.2)

/-- `Lexer::identifier`. -/
def identifier (fuel : Nat) (lx : Lexer) : Except LexErr (Token × Lexer) :=
  let start_location := lx.location
  let p := take_ident_chars fuel lx
  let name : String := ⟨p.1⟩
  let token_kind :=
    match keyword_lookup name with
    | some kw => kw
    | none => TokenKind.identifier name
  .ok (Token.new token_kind start_location, p.2)

/-- The escape table shared by `Lexer::char_literal` and
`Lexer::string_literal`; `none` is the `Unknown escape sequence` case. -/
def escape_char? (c : Char) : Option Char :=
  if c = 'n' then some '\n'
  else if c = 't' then some '\t'
  else if c = 'r' then some '\r'
  else if c = '\\' then some '\\'
  else if c = '\'' then some '\''
  else if c = '"' then some '"'
  else if c = '0' then some (Char.ofNat 0)
  else none

/-- `Lexer::char_literal`. -/
def char_literal (lx : Lexer) : Except LexErr (Token × Lexer) :=
  let start_location := lx.location
  let lx1 := advance lx
  let res : Except LexErr (Char × Lexer) :=
    match lx1.current_char with
    | some '\\' =>
        let lx2 := advance lx1
        match lx2.current_char with
        | some e =>
            match escape_char? e with
            | some c => .ok (c, lx2)
            | none => .error ⟨lx2.location, "Unknown escape sequence: \\" ++ String.singleton e⟩
        | none => .error ⟨lx2.location, "Unterminated character literal"⟩
    | some c => .ok (c, lx1)
    | none => .error ⟨lx1.location, "Unterminated character literal"⟩
  match res with
  | .error e => .error e
  | .ok (c, lxc) =>
      let lx3 := advance lxc
      if lx3.current_char = some '\'' then
        .ok (Token.new (.charLiteral c) start_location, advance lx3)
      else .error ⟨lx3.location, "Expected closing quote for character literal"⟩

/-- The scanning loop of `Lexer::string_literal` (the opening quote has
been consumed; `acc` holds the collected characters in reverse). -/
def string_lit_loop (sloc : Location) : Nat → List Char → Lexer → Except LexErr (Token × Lexer)
  | 0, _, lx => .error ⟨lx.location, "fuel"⟩
  | fuel + 1, acc, lx =>
      match lx.current_char with
      | some c =>
          if c = '"' then
            .ok (Token.new (.stringLiteral ⟨acc.reverse⟩) sloc, advance lx)
          else if c = '\\' then
            let lx2 := advance lx
            match lx2.current_char with
            | some e =>
                match escape_char? e with
                | some ec => string_lit_loop sloc fuel (ec :: acc) (advance lx2)
                | none => .error ⟨lx2.location, "Unknown escape sequence: \\" ++ String.singleton e⟩
            | none => .error ⟨lx2.location, "Unterminated string literal"⟩
          else string_lit_loop sloc fuel (c :: acc) (advance lx)
      | none => .error ⟨sloc, "Unterminated string literal"⟩

/-- `Lexer::string_literal`. -/
def string_literal (fuel : Nat) (lx : Lexer) : Except LexErr (Token × Lexer) :=
  string_lit_loop lx.location fuel [] (advance lx)

/-- The `'+'` arm of `next_token` (after the first `advance`). -/
def lex_plus (location : Location) (lx1 : Lexer) : Except LexErr (Token × Lexer) :=
  match lx1.current_char with
  | some '+' => .ok (Token.new .increment location, advance lx1)
  | some '=' => .ok (Token.new .plusAssign location, advance lx1)
  | _ => .ok (Token.new .plus location, lx1)

/-- The `'-'` arm of `next_token`. -/
def lex_minus (location : Location) (lx1 : Lexer) : Except LexErr (Token × Lexer) :=
  match lx1.current_char with
  | some '-' => .ok (Token.new .decrement location, advance lx1)
  | some '=' => .ok (Token.new .minusAssign location, advance lx1)
  | some '>' => .ok (Token.new .arrow location, advance lx1)
  | _ => .ok (Token.new .minus location, lx1)

/-- The `'*'` arm of `next_token`. -/
def lex_star (location : Location) (lx1 : Lexer) : Except LexErr (Token × Lexer) :=
  match lx1.current_char with
  | some '=' => .ok (Token.new .multiplyAssign location, advance lx1)
  | _ => .ok (Token.new .asterisk location, lx1)

/-- The `'%'` arm of `next_token`. -/
def lex_percent (location : Location) (lx1 : Lexer) : Except LexErr (Token × Lexer) :=
  match lx1.current_char with
  | some '=' => .ok (Token.new .moduloAssign location, advance lx1)
  | _ => .ok (Token.new .percent location, lx1)

/-- The `'='` arm of `next_token`. -/
def lex_eq (location : Location) (lx1 : Lexer) : Except LexErr (Token × Lexer) :=
  match lx1.current_char with
  | some '=' => .ok (Token.new .equal location, advance lx1)
  | _ => .ok (Token.new .assign location, lx1)

/-- The `'!'` arm of `next_token`. -/
def lex_bang (location : Location) (lx1 : Lexer) : Except LexErr (Token × Lexer) :=
  match lx1.current_char with
  | some '=' => .ok (Token.new .notEqual location, advance lx1)
  | _ => .ok (Token.new .logicalNot location, lx1)

/-- The `'<'` arm of `next_token` (with the nested `<<` / `<<=` cases). -/
def lex_lt (location : Location) (lx1 : Lexer) : Except LexErr (Token × Lexer) :=
  match lx1.current_char with
  | some '=' => .ok (Token.new .lessThanEqual location, advance lx1)
  | some '<' =>
      let lx2 := advance lx1
      match lx2.current_char with
      | some '=' => .ok (Token.new .shiftLeftAssign location, advance lx2)
      | _ => .ok (Token.new .shiftLeft location, lx2)
  | _ => .ok (Token.new .lessThan location, lx1)

/-- The `'>'` arm of `next_token` (with the nested `>>` / `>>=` cases). -/
def lex_gt (location : Location) (lx1 : Lexer) : Except LexErr (Token × Lexer) :=
  match lx1.current_char with
  | some '=' => .ok (Token.new .greaterThanEqual location, advance lx1)
  | some '>' =>
      let lx2 := advance lx1
      match lx2.current_char with
      | some '=' => .ok (Token.new .shiftRightAssign location, advance lx2)
      | _ => .ok (Token.new .shiftRight location, lx2)
  | _ => .ok (Token.new .greaterThan location, lx1)

/-- The `'&'` arm of `next_token`. -/
def lex_amp (location : Location) (lx1 : Lexer) : Except LexErr (Token × Lexer) :=
  match lx1.current_char with
  | some '&' => .ok (Token.new .logicalAnd location, advance lx1)
  | some '=' => .ok (Token.new .andAssign location, advance lx1)
  | _ => .ok (Token.new .bitwiseAnd location, lx1)

/-- The `'|'` arm of `next_token`. -/
def lex_pipe (location : Location) (lx1 : Lexer) : Except LexErr (Token × Lexer) :=
  match lx1.current_char with
  | some '|' => .ok (Token.new .logicalOr location, advance lx1)
  | some '=' => .ok (Token.new .orAssign location, advance lx1)
  | _ => .ok (Token.new .bitwiseOr location, lx1)

/-- The `'^'` arm of `next_token`. -/
def lex_caret (location : Location) (lx1 : Lexer) : Except LexErr (Token × Lexer) :=
  match lx1.current_char with
  | some '=' => .ok (Token.new .xorAssign location, advance lx1)
  | _ => .ok (Token.new .bitwiseXor location, lx1)

/-- The `'.'` arm of `next_token` (with the `...` lookahead). -/
def lex_dot (location : Location) (lx1 : Lexer) : Except LexErr (Token × Lexer) :=
  if lx1.current_char = some '.' ∧ lx1.peek = some '.' then
    .ok (Token.new .ellipsis location, advance (advance lx1))
  else .ok (Token.new .dot location, lx1)

/-- The `'#'` arm of `next_token` (with the `##` lookahead). -/
def lex_hash (location : Location) (lx1 : Lexer) : Except LexErr (Token × Lexer) :=
  if lx1.current_char = some '#' then .ok (Token.new .hashHash location, advance lx1)
  else .ok (Token.new .hash location, lx1)

/-- One step of `Lexer::next_token` after the initial
`skip_whitespace` (performed by `next_token` itself), with the recursive
restart after a comment abstracted as `rec` (tied by fuel in
`next_token`). -/
def next_token_core (rec : Lexer → Except LexErr (Token × Lexer)) (fuel : Nat) (lx : Lexer) :
    Except LexErr (Token × Lexer) :=
  match lx.current_char with
  | none => .ok (Token.new .eof lx.location, lx)
  | some c =>
      let location := lx.location
      if c = Char.ofNat 0 then .ok (Token.new .eof location, advance lx)
      else if c.isAlpha ∨ c = '_' then identifier fuel lx
      else if is_digit 10 c then number fuel lx
      else if c = '\'' then char_literal lx
      else if c = '"' then string_literal fuel lx
      else if c = '/' then
        match lx.peek with
        | some next =>
            if next = '/' ∨ next = '*' then
              match skip_comment fuel lx with
              | .ok lxc => rec lxc
              | .error e => .error e
            else if next = '=' then .ok (Token.new .divideAssign location, advance (advance lx))
            else .ok (Token.new .slash location, advance lx)
        | none => .ok (Token.new .slash location, advance lx)
      else if c = '+' then lex_plus location (advance lx)
      else if c = '-' then lex_minus location (advance lx)
      else if c = '*' then lex_star location (advance lx)
      else if c = '%' then lex_percent location (advance lx)
      else if c = '=' then lex_eq location (advance lx)
      else if c = '!' then lex_bang location (advance lx)
      else if c = '<' then lex_lt location (advance lx)
      else if c = '>' then lex_gt location (advance lx)
      else if c = '&' then lex_amp location (advance lx)
      else if c = '|' then lex_pipe location (advance lx)
      else if c = '^' then lex_caret location (advance lx)
      else if c = '~' then .ok (Token.new .bitwiseNot location, advance lx)
      else if c = '(' then .ok (Token.new .leftParen location, advance lx)
      else if c = ')' then .ok (Token.new .rightParen location, advance lx)
      else if c = '\x7b' then .ok (Token.new .leftBrace location, advance lx)
      else if c = '\x7d' then .ok (Token.new .rightBrace location, advance lx)
      else if c = '[' then .ok (Token.new .leftBracket location, advance lx)
      else if c = ']' then .ok (Token.new .rightBracket location, advance lx)
      else if c = ';' then .ok (Token.new .semicolon location, advance lx)
      else if c = ',' then .ok (Token.new .comma location, advance lx)
      else if c = '.' then lex_dot location (advance lx)
      else if c = ':' then .ok (Token.new .colon location, advance lx)
      else if c = '?' then .ok (Token.new .questionMark location, advance lx)
      else if c = '#' then lex_hash location (advance lx)
      else .error ⟨location, "Unexpected character: " ++ String.singleton c⟩

/-- `Lexer::next_token` (fuel bounds the comment restarts and the
whitespace/collection loops). -/
def next_token : Nat → Lexer → Except LexErr (Token × Lexer)
  | 0, lx => .error ⟨lx.location, "fuel"⟩
  | fuel + 1, lx => next_token_core (next_token fuel) fuel (skip_whitespace fuel lx)

/-- `Lexer::tokenize`: collect tokens until (and including) `Eof`. -/
def tokenize : Nat → Lexer → Except LexErr (List Token)
  | 0, lx => .error ⟨lx.location, "fuel"⟩
  | fuel + 1, lx =>
      match next_token (fuel + 1) lx with
      | .error e => .error e
      | .ok (tok, lx2) =>
          if tok.kind.beq .eof then .ok [tok]
          else
            match tokenize fuel lx2 with
            | .error e => .error e
            | .ok toks => .ok (tok :: toks)

/-! ### C8: location invariant -/

/-- A location with 1-based line and column counters. -/
def locOk (loc : Location) : Prop := 1 ≤ loc.line ∧ 1 ≤ loc.column

/-- The lexer's cursor is 1-based. -/
def locInv (lx : Lexer) : Prop := 1 ≤ lx.line ∧ 1 ≤ lx.column

theorem locInv_new (input : List Char) (f : String) : locInv (Lexer.new input f) := by
  cases input <;> exact ⟨le_refl 1, le_refl 1⟩

theorem locInv_advance {lx : Lexer} (h : locInv lx) : locInv (advance lx) := by
  obtain ⟨input, f, line, col, cur⟩ := lx
  obtain ⟨h1, h2⟩ := h
  cases cur with
  | none => exact ⟨h1, h2⟩
  | some c =>
      by_cases hc : c = '\n' <;> simp only [advance, hc, if_true, if_false, reduceIte] <;>
        exact ⟨by simp only at h1 ⊢; omega, by simp only at h2 ⊢; omega⟩

theorem locOk_location {lx : Lexer} (h : locInv lx) : locOk lx.location := h

theorem skip_whitespace_inv : ∀ (fuel : Nat) (lx : Lexer), locInv lx →
    locInv (skip_whitespace fuel lx) := by
  intro fuel
  induction fuel with
  | zero => intro lx h; exact h
  | succ fuel ih =>
      intro lx h
      rw [skip_whitespace]
      split
      · split
        · exact ih _ (locInv_advance h)
        · exact h
      · exact h

theorem skip_line_comment_inv : ∀ (fuel : Nat) (lx : Lexer), locInv lx →
    locInv (skip_line_comment fuel lx) := by
  intro fuel
  induction fuel with
  | zero => intro lx h; exact h
  | succ fuel ih =>
      intro lx h
      rw [skip_line_comment]
      split
      · split
        · exact locInv_advance h
        · exact ih _ (locInv_advance h)
      · exact h

theorem skip_block_comment_inv (sloc : Location) :
    ∀ (fuel : Nat) (lx lx2 : Lexer), locInv lx →
      skip_block_comment sloc fuel lx = .ok lx2 → locInv lx2 := by
  intro fuel
  induction fuel with
  | zero => intro lx lx2 _ hok; exact Except.noConfusion hok
  | succ fuel ih =>
      intro lx lx2 h hok
      rw [skip_block_comment] at hok
      split at hok
      · split at hok
        · injection hok with he
          rw [← he]
          exact locInv_advance (locInv_advance h)
        · exact ih _ _ (locInv_advance h) hok
      · exact Except.noConfusion hok

theorem skip_comment_inv (fuel : Nat) (lx lx2 : Lexer) (h : locInv lx)
    (hok : skip_comment fuel lx = .ok lx2) : locInv lx2 := by
  rw [skip_comment] at hok
  split at hok
  · split at hok
    · split at hok
      · injection hok with he
        rw [← he]
        exact skip_line_comment_inv _ _ (locInv_advance (locInv_advance h))
      · split at hok
        · exact skip_block_comment_inv _ _ _ _ (locInv_advance (locInv_advance h)) hok
        · injection hok with he
          rw [← he]
          exact h
    · injection hok with he
      rw [← he]
      exact h
  · injection hok with he
    rw [← he]
    exact h

theorem take_digits_snd_inv (isD : Char → Bool) :
    ∀ (fuel : Nat) (lx : Lexer), locInv lx → locInv (take_digits isD fuel lx).2 := by
  intro fuel
  induction fuel with
  | zero => intro lx h; exact h
  | succ fuel ih =>
      intro lx h
      rw [take_digits]
      split
      · exact h
      · split
        · exact ih _ (locInv_advance h)
        · exact h

theorem take_ident_chars_snd_inv :
    ∀ (fuel : Nat) (lx : Lexer), locInv lx → locInv (take_ident_chars fuel lx).2 := by
  intro fuel
  induction fuel with
  | zero => intro lx h; exact h
  | succ fuel ih =>
      intro lx h
      rw [take_ident_chars]
      split
      · split
        · exact ih _ (locInv_advance h)
        · exact h
      · exact h

theorem identifier_inv (fuel : Nat) (lx : Lexer) (t : Token) (lx2 : Lexer) (h : locInv lx)
    (hok : identifier fuel lx = .ok (t, lx2)) : locOk t.location ∧ locInv lx2 := by
  simp only [identifier] at hok
  split at hok <;>
  · simp only [Except.ok.injEq, Prod.mk.injEq] at hok
    obtain ⟨ht, hl⟩ := hok
    subst ht
    subst hl
    exact ⟨h, take_ident_chars_snd_inv _ _ h⟩

theorem number_decimal_inv (fuel : Nat) (pre : List Char) (lx : Lexer) (sloc : Location)
    (t : Token) (lx2 : Lexer) (hs : locOk sloc) (h : locInv lx)
    (hok : number_decimal fuel pre lx sloc = .ok (t, lx2)) : locOk t.location ∧ locInv lx2 := by
  simp only [number_decimal] at hok
  split at hok
  · simp only [Except.ok.injEq, Prod.mk.injEq] at hok
    obtain ⟨ht, hl⟩ := hok
    subst ht
    subst hl
    exact ⟨hs, take_digits_snd_inv _ _ _ h⟩
  · exact Except.noConfusion hok

theorem number_inv (fuel : Nat) (lx : Lexer) (t : Token) (lx2 : Lexer) (h : locInv lx)
    (hok : number fuel lx = .ok (t, lx2)) : locOk t.location ∧ locInv lx2 := by
  simp only [number] at hok
  split at hok
  · split at hok
    · split at hok
      · split at hok
        · simp only [Except.ok.injEq, Prod.mk.injEq] at hok
          obtain ⟨ht, hl⟩ := hok
          subst ht
          subst hl
          exact ⟨h, take_digits_snd_inv _ _ _ (locInv_advance (locInv_advance h))⟩
        · exact Except.noConfusion hok
      · split at hok
        · split at hok
          · simp only [Except.ok.injEq, Prod.mk.injEq] at hok
            obtain ⟨ht, hl⟩ := hok
            subst ht
            subst hl
            exact ⟨h, take_digits_snd_inv _ _ _ (locInv_advance h)⟩
          · exact Except.noConfusion hok
        · exact number_decimal_inv _ _ _ _ _ _ (locOk_location h) (locInv_advance h) hok
    · exact number_decimal_inv _ _ _ _ _ _ (locOk_location h) (locInv_advance h) hok
  · exact number_decimal_inv _ _ _ _ _ _ (locOk_location h) h hok

theorem char_literal_inv (lx : Lexer) (t : Token) (lx2 : Lexer) (h : locInv lx)
    (hok : char_literal lx = .ok (t, lx2)) : locOk t.location ∧ locInv lx2 := by
  simp only [char_literal] at hok
  split at hok
  · exact Except.noConfusion hok
  · rename_i res c lxc hres
    split at hok
    · simp only [Except.ok.injEq, Prod.mk.injEq] at hok
      obtain ⟨ht, hl⟩ := hok
      subst ht
      subst hl
      refine ⟨h, ?_⟩
      have hlxc : locInv lxc := by
        split at hres
        · split at hres
          · split at hres
            · simp only [Except.ok.injEq, Prod.mk.injEq] at hres
              rw [← hres.2]
              exact locInv_advance (locInv_advance h)
            · exact Except.noConfusion hres
          · exact Except.noConfusion hres
        · simp only [Except.ok.injEq, Prod.mk.injEq] at hres
          rw [← hres.2]
          exact locInv_advance h
        · exact Except.noConfusion hres
      exact locInv_advance (locInv_advance hlxc)
    · exact Except.noConfusion hok

theorem string_lit_loop_inv (sloc : Location) :
    ∀ (fuel : Nat) (acc : List Char) (lx : Lexer) (t : Token) (lx2 : Lexer),
      locOk sloc → locInv lx → string_lit_loop sloc fuel acc lx = .ok (t, lx2) →
      locOk t.location ∧ locInv lx2 := by
  intro fuel
  induction fuel with
  | zero => intro acc lx t lx2 _ _ hok; exact Except.noConfusion hok
  | succ fuel ih =>
      intro acc lx t lx2 hs h hok
      simp only [string_lit_loop] at hok
      split at hok
      · split at hok
        · simp only [Except.ok.injEq, Prod.mk.injEq] at hok
          obtain ⟨ht, hl⟩ := hok
          subst ht
          subst hl
          exact ⟨hs, locInv_advance h⟩
        · split at hok
          · split at hok
            · split at hok
              · exact ih _ _ _ _ hs (locInv_advance (locInv_advance h)) hok
              · exact Except.noConfusion hok
            · exact Except.noConfusion hok
          · exact ih _ _ _ _ hs (locInv_advance h) hok
      · exact Except.noConfusion hok

theorem string_literal_inv (fuel : Nat) (lx : Lexer) (t : Token) (lx2 : Lexer) (h : locInv lx)
    (hok : string_literal fuel lx = .ok (t, lx2)) : locOk t.location ∧ locInv lx2 :=
  string_lit_loop_inv _ _ _ _ _ _ (locOk_location h) (locInv_advance h) hok

theorem lex_plus_inv (loc : Location) (lx1 : Lexer) (t : Token) (lx2 : Lexer)
    (hloc : locOk loc) (h1 : locInv lx1) (hok : lex_plus loc lx1 = .ok (t, lx2)) :
    locOk t.location ∧ locInv lx2 := by
  simp only [lex_plus] at hok
  repeat'
    first
    | (simp only [Except.ok.injEq, Prod.mk.injEq] at hok
       obtain ⟨ht, hl⟩ := hok
       subst ht
       subst hl
       first
       | exact ⟨hloc, h1⟩
       | exact ⟨hloc, locInv_advance h1⟩
       | exact ⟨hloc, locInv_advance (locInv_advance h1)⟩)
    | split at hok

theorem lex_minus_inv (loc : Location) (lx1 : Lexer) (t : Token) (lx2 : Lexer)
    (hloc : locOk loc) (h1 : locInv lx1) (hok : lex_minus loc lx1 = .ok (t, lx2)) :
    locOk t.location ∧ locInv lx2 := by
  simp only [lex_minus] at hok
  repeat'
    first
    | (simp only [Except.ok.injEq, Prod.mk.injEq] at hok
       obtain ⟨ht, hl⟩ := hok
       subst ht
       subst hl
       first
       | exact ⟨hloc, h1⟩
       | exact ⟨hloc, locInv_advance h1⟩
       | exact ⟨hloc, locInv_advance (locInv_advance h1)⟩)
    | split at hok

theorem lex_star_inv (loc : Location) (lx1 : Lexer) (t : Token) (lx2 : Lexer)
    (hloc : locOk loc) (h1 : locInv lx1) (hok : lex_star loc lx1 = .ok (t, lx2)) :
    locOk t.location ∧ locInv lx2 := by
  simp only [lex_star] at hok
  repeat'
    first
    | (simp only [Except.ok.injEq, Prod.mk.injEq] at hok
       obtain ⟨ht, hl⟩ := hok
       subst ht
       subst hl
       first
       | exact ⟨hloc, h1⟩
       | exact ⟨hloc, locInv_advance h1⟩
       | exact ⟨hloc, locInv_advance (locInv_advance h1)⟩)
    | split at hok

theorem lex_percent_inv (loc : Location) (lx1 : Lexer) (t : Token) (lx2 : Lexer)
    (hloc : locOk loc) (h1 : locInv lx1) (hok : lex_percent loc lx1 = .ok (t, lx2)) :
    locOk t.location ∧ locInv lx2 := by
  simp only [lex_percent] at hok
  repeat'
    first
    | (simp only [Except.ok.injEq, Prod.mk.injEq] at hok
       obtain ⟨ht, hl⟩ := hok
       subst ht
       subst hl
       first
       | exact ⟨hloc, h1⟩
       | exact ⟨hloc, locInv_advance h1⟩
       | exact ⟨hloc, locInv_advance (locInv_advance h1)⟩)
    | split at hok

theorem lex_eq_inv (loc : Location) (lx1 : Lexer) (t : Token) (lx2 : Lexer)
    (hloc : locOk loc) (h1 : locInv lx1) (hok : lex_eq loc lx1 = .ok (t, lx2)) :
    locOk t.location ∧ locInv lx2 := by
  simp only [lex_eq] at hok
  repeat'
    first
    | (simp only [Except.ok.injEq, Prod.mk.injEq] at hok
       obtain ⟨ht, hl⟩ := hok
       subst ht
       subst hl
       first
       | exact ⟨hloc, h1⟩
       | exact ⟨hloc, locInv_advance h1⟩
       | exact ⟨hloc, locInv_advance (locInv_advance h1)⟩)
    | split at hok

theorem lex_bang_inv (loc : Location) (lx1 : Lexer) (t : Token) (lx2 : Lexer)
    (hloc : locOk loc) (h1 : locInv lx1) (hok : lex_bang loc lx1 = .ok (t, lx2)) :
    locOk t.location ∧ locInv lx2 := by
  simp only [lex_bang] at hok
  repeat'
    first
    | (simp only [Except.ok.injEq, Prod.mk.injEq] at hok
       obtain ⟨ht, hl⟩ := hok
       subst ht
       subst hl
       first
       | exact ⟨hloc, h1⟩
       | exact ⟨hloc, locInv_advance h1⟩
       | exact ⟨hloc, locInv_advance (locInv_advance h1)⟩)
    | split at hok

theorem lex_lt_inv (loc : Location) (lx1 : Lexer) (t : Token) (lx2 : Lexer)
    (hloc : locOk loc) (h1 : locInv lx1) (hok : lex_lt loc lx1 = .ok (t, lx2)) :
    locOk t.location ∧ locInv lx2 := by
  simp only [lex_lt] at hok
  repeat'
    first
    | (simp only [Except.ok.injEq, Prod.mk.injEq] at hok
       obtain ⟨ht, hl⟩ := hok
       subst ht
       subst hl
       first
       | exact ⟨hloc, h1⟩
       | exact ⟨hloc, locInv_advance h1⟩
       | exact ⟨hloc, locInv_advance (locInv_advance h1)⟩)
    | split at hok

theorem lex_gt_inv (loc : Location) (lx1 : Lexer) (t : Token) (lx2 : Lexer)
    (hloc : locOk loc) (h1 : locInv lx1) (hok : lex_gt loc lx1 = .ok (t, lx2)) :
    locOk t.location ∧ locInv lx2 := by
  simp only [lex_gt] at hok
  repeat'
    first
    | (simp only [Except.ok.injEq, Prod.mk.injEq] at hok
       obtain ⟨ht, hl⟩ := hok
       subst ht
       subst hl
       first
       | exact ⟨hloc, h1⟩
       | exact ⟨hloc, locInv_advance h1⟩
       | exact ⟨hloc, locInv_advance (locInv_advance h1)⟩)
    | split at hok

theorem lex_amp_inv (loc : Location) (lx1 : Lexer) (t : Token) (lx2 : Lexer)
    (hloc : locOk loc) (h1 : locInv lx1) (hok : lex_amp loc lx1 = .ok (t, lx2)) :
    locOk t.location ∧ locInv lx2 := by
  simp only [lex_amp] at hok
  repeat'
    first
    | (simp only [Except.ok.injEq, Prod.mk.injEq] at hok
       obtain ⟨ht, hl⟩ := hok
       subst ht
       subst hl
       first
       | exact ⟨hloc, h1⟩
       | exact ⟨hloc, locInv_advance h1⟩
       | exact ⟨hloc, locInv_advance (locInv_advance h1)⟩)
    | split at hok

theorem lex_pipe_inv (loc : Location) (lx1 : Lexer) (t : Token) (lx2 : Lexer)
    (hloc : locOk loc) (h1 : locInv lx1) (hok : lex_pipe loc lx1 = .ok (t, lx2)) :
    locOk t.location ∧ locInv lx2 := by
  simp only [lex_pipe] at hok
  repeat'
    first
    | (simp only [Except.ok.injEq, Prod.mk.injEq] at hok
       obtain ⟨ht, hl⟩ := hok
       subst ht
       subst hl
       first
       | exact ⟨hloc, h1⟩
       | exact ⟨hloc, locInv_advance h1⟩
       | exact ⟨hloc, locInv_advance (locInv_advance h1)⟩)
    | split at hok

theorem lex_caret_inv (loc : Location) (lx1 : Lexer) (t : Token) (lx2 : Lexer)
    (hloc : locOk loc) (h1 : locInv lx1) (hok : lex_caret loc lx1 = .ok (t, lx2)) :
    locOk t.location ∧ locInv lx2 := by
  simp only [lex_caret] at hok
  repeat'
    first
    | (simp only [Except.ok.injEq, Prod.mk.injEq] at hok
       obtain ⟨ht, hl⟩ := hok
       subst ht
       subst hl
       first
       | exact ⟨hloc, h1⟩
       | exact ⟨hloc, locInv_advance h1⟩
       | exact ⟨hloc, locInv_advance (locInv_advance h1)⟩)
    | split at hok

theorem lex_dot_inv (loc : Location) (lx1 : Lexer) (t : Token) (lx2 : Lexer)
    (hloc : locOk loc) (h1 : locInv lx1) (hok : lex_dot loc lx1 = .ok (t, lx2)) :
    locOk t.location ∧ locInv lx2 := by
  simp only [lex_dot] at hok
  repeat'
    first
    | (simp only [Except.ok.injEq, Prod.mk.injEq] at hok
       obtain ⟨ht, hl⟩ := hok
       subst ht
       subst hl
       first
       | exact ⟨hloc, h1⟩
       | exact ⟨hloc, locInv_advance h1⟩
       | exact ⟨hloc, locInv_advance (locInv_advance h1)⟩)
    | split at hok

theorem lex_hash_inv (loc : Location) (lx1 : Lexer) (t : Token) (lx2 : Lexer)
    (hloc : locOk loc) (h1 : locInv lx1) (hok : lex_hash loc lx1 = .ok (t, lx2)) :
    locOk t.location ∧ locInv lx2 := by
  simp only [lex_hash] at hok
  repeat'
    first
    | (simp only [Except.ok.injEq, Prod.mk.injEq] at hok
       obtain ⟨ht, hl⟩ := hok
       subst ht
       subst hl
       first
       | exact ⟨hloc, h1⟩
       | exact ⟨hloc, locInv_advance h1⟩
       | exact ⟨hloc, locInv_advance (locInv_advance h1)⟩)
    | split at hok

theorem next_token_core_inv (ntk : Lexer → Except LexErr (Token × Lexer))
    (hntk : ∀ lx t lx2, locInv lx → ntk lx = .ok (t, lx2) → locOk t.location ∧ locInv lx2)
    (fuel : Nat) (lx : Lexer) (t : Token) (lx2 : Lexer) (hw : locInv lx)
    (hok : next_token_core ntk fuel lx = .ok (t, lx2)) : locOk t.location ∧ locInv lx2 := by
  simp only [next_token_core] at hok
  split at hok
  · simp only [Except.ok.injEq, Prod.mk.injEq] at hok
    obtain ⟨ht, hl⟩ := hok
    subst ht
    subst hl
    exact ⟨hw, hw⟩
  · rename_i c hc
    by_cases h0 : c = Char.ofNat 0
    · rw [if_pos h0] at hok
      simp only [Except.ok.injEq, Prod.mk.injEq] at hok
      obtain ⟨ht, hl⟩ := hok
      subst ht
      subst hl
      exact ⟨hw, locInv_advance hw⟩
    · rw [if_neg h0] at hok
      by_cases h1 : c.isAlpha = true ∨ c = '_'
      · rw [if_pos h1] at hok
        exact identifier_inv _ _ _ _ hw hok
      · rw [if_neg h1] at hok
        by_cases h2 : is_digit 10 c = true
        · rw [if_pos h2] at hok
          exact number_inv _ _ _ _ hw hok
        · rw [if_neg h2] at hok
          by_cases h3 : c = '\''
          · rw [if_pos h3] at hok
            exact char_literal_inv _ _ _ hw hok
          · rw [if_neg h3] at hok
            by_cases h4 : c = '"'
            · rw [if_pos h4] at hok
              exact string_literal_inv _ _ _ _ hw hok
            · rw [if_neg h4] at hok
              by_cases h5 : c = '/'
              · rw [if_pos h5] at hok
                split at hok
                · split at hok
                  · split at hok
                    · rename_i lxc hcom
                      exact hntk lxc t lx2 (skip_comment_inv _ _ _ hw hcom) hok
                    · exact Except.noConfusion hok
                  · split at hok
                    · simp only [Except.ok.injEq, Prod.mk.injEq] at hok
                      obtain ⟨ht, hl⟩ := hok
                      subst ht
                      subst hl
                      exact ⟨hw, locInv_advance (locInv_advance hw)⟩
                    · simp only [Except.ok.injEq, Prod.mk.injEq] at hok
                      obtain ⟨ht, hl⟩ := hok
                      subst ht
                      subst hl
                      exact ⟨hw, locInv_advance hw⟩
                · simp only [Except.ok.injEq, Prod.mk.injEq] at hok
                  obtain ⟨ht, hl⟩ := hok
                  subst ht
                  subst hl
                  exact ⟨hw, locInv_advance hw⟩
              · rw [if_neg h5] at hok
                by_cases h6 : c = '+'
                · rw [if_pos h6] at hok
                  exact lex_plus_inv _ _ _ _ (locOk_location hw) (locInv_advance hw) hok
                · rw [if_neg h6] at hok
                  by_cases h7 : c = '-'
                  · rw [if_pos h7] at hok
                    exact lex_minus_inv _ _ _ _ (locOk_location hw) (locInv_advance hw) hok
                  · rw [if_neg h7] at hok
                    by_cases h8 : c = '*'
                    · rw [if_pos h8] at hok
                      exact lex_star_inv _ _ _ _ (locOk_location hw) (locInv_advance hw) hok
                    · rw [if_neg h8] at hok
                      by_cases h9 : c = '%'
                      · rw [if_pos h9] at hok
                        exact lex_percent_inv _ _ _ _ (locOk_location hw) (locInv_advance hw) hok
                      · rw [if_neg h9] at hok
                        by_cases h10 : c = '='
                        · rw [if_pos h10] at hok
                          exact lex_eq_inv _ _ _ _ (locOk_location hw) (locInv_advance hw) hok
                        · rw [if_neg h10] at hok
                          by_cases h11 : c = '!'
                          · rw [if_pos h11] at hok
                            exact lex_bang_inv _ _ _ _ (locOk_location hw) (locInv_advance hw) hok
                          · rw [if_neg h11] at hok
                            by_cases h12 : c = '<'
                            · rw [if_pos h12] at hok
                              exact lex_lt_inv _ _ _ _ (locOk_location hw) (locInv_advance hw) hok
                            · rw [if_neg h12] at hok
                              by_cases h13 : c = '>'
                              · rw [if_pos h13] at hok
                                exact lex_gt_inv _ _ _ _ (locOk_location hw) (locInv_advance hw) hok
                              · rw [if_neg h13] at hok
                                by_cases h14 : c = '&'
                                · rw [if_pos h14] at hok
                                  exact lex_amp_inv _ _ _ _ (locOk_location hw) (locInv_advance hw) hok
                                · rw [if_neg h14] at hok
                                  by_cases h15 : c = '|'
                                  · rw [if_pos h15] at hok
                                    exact lex_pipe_inv _ _ _ _ (locOk_location hw) (locInv_advance hw) hok
                                  · rw [if_neg h15] at hok
                                    by_cases h16 : c = '^'
                                    · rw [if_pos h16] at hok
                                      exact lex_caret_inv _ _ _ _ (locOk_location hw) (locInv_advance hw) hok
                                    · rw [if_neg h16] at hok
                                      by_cases h17 : c = '~'
                                      · rw [if_pos h17] at hok
                                        simp only [Except.ok.injEq, Prod.mk.injEq] at hok
                                        obtain ⟨ht, hl⟩ := hok
                                        subst ht
                                        subst hl
                                        exact ⟨hw, locInv_advance hw⟩
                                      · rw [if_neg h17] at hok
                                        by_cases h18 : c = '('
                                        · rw [if_pos h18] at hok
                                          simp only [Except.ok.injEq, Prod.mk.injEq] at hok
                                          obtain ⟨ht, hl⟩ := hok
                                          subst ht
                                          subst hl
                                          exact ⟨hw, locInv_advance hw⟩
                                        · rw [if_neg h18] at hok
                                          by_cases h19 : c = ')'
                                          · rw [if_pos h19] at hok
                                            simp only [Except.ok.injEq, Prod.mk.injEq] at hok
                                            obtain ⟨ht, hl⟩ := hok
                                            subst ht
                                            subst hl
                                            exact ⟨hw, locInv_advance hw⟩
                                          · rw [if_neg h19] at hok
                                            by_cases h20 : c = '\x7b'
                                            · rw [if_pos h20] at hok
                                              simp only [Except.ok.injEq, Prod.mk.injEq] at hok
                                              obtain ⟨ht, hl⟩ := hok
                                              subst ht
                                              subst hl
                                              exact ⟨hw, locInv_advance hw⟩
                                            · rw [if_neg h20] at hok
                                              by_cases h21 : c = '\x7d'
                                              · rw [if_pos h21] at hok
                                                simp only [Except.ok.injEq, Prod.mk.injEq] at hok
                                                obtain ⟨ht, hl⟩ := hok
                                                subst ht
                                                subst hl
                                                exact ⟨hw, locInv_advance hw⟩
                                              · rw [if_neg h21] at hok
                                                by_cases h22 : c = '['
                                                · rw [if_pos h22] at hok
                                                  simp only [Except.ok.injEq, Prod.mk.injEq] at hok
                                                  obtain ⟨ht, hl⟩ := hok
                                                  subst ht
                                                  subst hl
                                                  exact ⟨hw, locInv_advance hw⟩
                                                · rw [if_neg h22] at hok
                                                  by_cases h23 : c = ']'
                                                  · rw [if_pos h23] at hok
                                                    simp only [Except.ok.injEq, Prod.mk.injEq] at hok
                                                    obtain ⟨ht, hl⟩ := hok
                                                    subst ht
                                                    subst hl
                                                    exact ⟨hw, locInv_advance hw⟩
                                                  · rw [if_neg h23] at hok
                                                    by_cases h24 : c = ';'
                                                    · rw [if_pos h24] at hok
                                                      simp only [Except.ok.injEq, Prod.mk.injEq] at hok
                                                      obtain ⟨ht, hl⟩ := hok
                                                      subst ht
                                                      subst hl
                                                      exact ⟨hw, locInv_advance hw⟩
                                                    · rw [if_neg h24] at hok
                                                      by_cases h25 : c = ','
                                                      · rw [if_pos h25] at hok
                                                        simp only [Except.ok.injEq, Prod.mk.injEq] at hok
                                                        obtain ⟨ht, hl⟩ := hok
                                                        subst ht
                                                        subst hl
                                                        exact ⟨hw, locInv_advance hw⟩
                                                      · rw [if_neg h25] at hok
                                                        by_cases h26 : c = '.'
                                                        · rw [if_pos h26] at hok
                                                          exact lex_dot_inv _ _ _ _ (locOk_location hw) (locInv_advance hw) hok
                                                        · rw [if_neg h26] at hok
                                                          by_cases h27 : c = ':'
                                                          · rw [if_pos h27] at hok
                                                            simp only [Except.ok.injEq, Prod.mk.injEq] at hok
                                                            obtain ⟨ht, hl⟩ := hok
                                                            subst ht
                                                            subst hl
                                                            exact ⟨hw, locInv_advance hw⟩
                                                          · rw [if_neg h27] at hok
                                                            by_cases h28 : c = '?'
                                                            · rw [if_pos h28] at hok
                                                              simp only [Except.ok.injEq, Prod.mk.injEq] at hok
                                                              obtain ⟨ht, hl⟩ := hok
                                                              subst ht
                                                              subst hl
                                                              exact ⟨hw, locInv_advance hw⟩
                                                            · rw [if_neg h28] at hok
                                                              by_cases h29 : c = '#'
                                                              · rw [if_pos h29] at hok
                                                                exact lex_hash_inv _ _ _ _ (locOk_location hw) (locInv_advance hw) hok
                                                              · rw [if_neg h29] at hok
                                                                exact Except.noConfusion hok

theorem next_token_inv :
    ∀ (fuel : Nat) (lx : Lexer) (t : Token) (lx2 : Lexer), locInv lx →
      next_token fuel lx = .ok (t, lx2) → locOk t.location ∧ locInv lx2 := by
  intro fuel
  induction fuel with
  | zero => intro lx t lx2 _ hok; exact Except.noConfusion hok
  | succ fuel ih =>
      intro lx t lx2 hlx hok
      rw [next_token] at hok
      exact next_token_core_inv (next_token fuel)
        (fun lx' t' lx2' h1 h2 => ih lx' t' lx2' h1 h2) fuel _ t lx2
        (skip_whitespace_inv fuel lx hlx) hok

theorem tokenize_inv :
    ∀ (fuel : Nat) (lx : Lexer) (toks : List Token), locInv lx →
      tokenize fuel lx = .ok toks → ∀ t ∈ toks, locOk t.location := by
  intro fuel
  induction fuel with
  | zero => intro lx toks _ hok; exact Except.noConfusion hok
  | succ fuel ih =>
      intro lx toks hlx hok
      rw [tokenize] at hok
      split at hok
      · exact Except.noConfusion hok
      · rename_i tok lx2 hnt
        obtain ⟨htok, hlx2⟩ := next_token_inv _ _ _ _ hlx hnt
        split at hok
        · injection hok with he
          rw [← he]
          intro t ht
          rw [List.mem_singleton] at ht
          rw [ht]
          exact htok
        · split at hok
          · exact Except.noConfusion hok
          · rename_i toks2 htk
            injection hok with he
            rw [← he]
            intro t ht
            rcases List.mem_cons.mp ht with h1 | h2
            · rw [h1]
              exact htok
            · exact ih _ _ hlx2 htk t h2

/-- **C8.** Location soundness of the lexer: every token produced by a
full `tokenize` run from a fresh lexer carries a 1-based location
(`line >= 1` and `column >= 1`); and `advance` moves the cursor exactly as
specified — a non-newline current character leaves the line and bumps the
column by one, a newline current character bumps the line and resets the
column to 1. -/
theorem c8_token_locations (input : List Char) (f : String) (fuel : Nat) (toks : List Token)
    (hok : tokenize fuel (Lexer.new input f) = .ok toks) :
    (∀ t ∈ toks, 1 ≤ t.location.line ∧ 1 ≤ t.location.column) ∧
    (∀ (lx : Lexer) (c : Char), lx.current_char = some c →
      (c ≠ '\n' → (advance lx).line = lx.line ∧ (advance lx).column = lx.column + 1) ∧
      (c = '\n' → (advance lx).line = lx.line + 1 ∧ (advance lx).column = 1)) := by
  constructor
  · exact tokenize_inv fuel (Lexer.new input f) toks (locInv_new input f) hok
  · intro lx c hc
    obtain ⟨inp, fn, line, col, cur⟩ := lx
    simp only at hc
    subst hc
    constructor
    · intro hne
      simp [advance, hne]
    · intro heq
      simp [advance, heq]

theorem c8_token_locations_witness :
    (∀ t ∈ [Token.new (TokenKind.identifier "x") ⟨"w", 1, 1⟩,
            Token.new TokenKind.eof ⟨"w", 1, 2⟩],
       1 ≤ t.location.line ∧ 1 ≤ t.location.column) ∧
    (∀ (lx : Lexer) (c : Char), lx.current_char = some c →
      (c ≠ '\n' → (advance lx).line = lx.line ∧ (advance lx).column = lx.column + 1) ∧
      (c = '\n' → (advance lx).line = lx.line + 1 ∧ (advance lx).column = 1)) :=
  c8_token_locations ['x'] "w" 8
    [Token.new (TokenKind.identifier "x") ⟨"w", 1, 1⟩, Token.new TokenKind.eof ⟨"w", 1, 2⟩]
    (by rfl)

end Ferricc
